import Mathlib

/-! # ssvo: covisibility graph of keyframes and two-view initializer

A shallow embedding of `src/keyframe.cpp` and `src/initializer.cpp`.

* Shared pointers (`KeyFrame::Ptr`, `MapPoint::Ptr`) are natural numbers; the
  heap is a pair of total functions from pointers to objects (`World`).
  `std::map<KeyFrame::Ptr, _>` iterates in increasing pointer order, so a map
  is a list of entries kept in increasing key order.
* `std::multimap<int, KeyFrame::Ptr>` is a list of entries in non-decreasing
  key order; its reverse iteration (`rbegin()`) is the reversed list.
* `int` weights are integers (the counts involved are far below `2^31`).
* `float`/`double` values are rationals. The comparisons of `getFeaturesInArea`
  and the disparity gate of `addSecondFrame` are evaluated in `double`
  arithmetic, every operation rounded to nearest (`roundDouble`);
  `computeErrors` yields an infinity or a NaN for a zero denominator (`Fp`).
  Elsewhere the arithmetic is exact: rounding is not modelled, and in
  `Normalize` a zero mean deviation yields the scale `0` where the machine
  yields an infinity.
* The routines of OpenCV, Eigen and `global.hpp` are parameters (`Externals`).
* A function whose assertion fails, or that reads outside a vector, has the
  result `none`.
* Mutexes are not modelled: every operation runs atomically.
-/

namespace ssvo

/-! ## Containers -/

/-- The `count(k)` of a `std::map`, as a Boolean. -/
def mapContains {V : Type} (m : List (Nat × V)) (k : Nat) : Bool :=
  m.any (fun e => e.1 == k)

/-- The `find(k)` of a `std::map`: the value stored under `k`, if any. -/
def mapFind {V : Type} (m : List (Nat × V)) (k : Nat) : Option V :=
  (m.find? (fun e => e.1 == k)).map Prod.snd

/-- The `m[k] = v` of a `std::map`: assign under `k`, inserting the key at its
place in the key order when it is absent. -/
def mapAssign {V : Type} : List (Nat × V) → Nat → V → List (Nat × V)
  | [], k, v => [(k, v)]
  | (k', v') :: t, k, v =>
    if k < k' then (k, v) :: (k', v') :: t
    else if k = k' then (k, v) :: t
    else (k', v') :: mapAssign t k v

/-- The `insert(make_pair(k, v))` of a `std::map`: nothing happens when the key
is present. -/
def mapInsert {V : Type} : List (Nat × V) → Nat → V → List (Nat × V)
  | [], k, v => [(k, v)]
  | (k', v') :: t, k, v =>
    if k < k' then (k, v) :: (k', v') :: t
    else if k = k' then (k', v') :: t
    else (k', v') :: mapInsert t k v

/-- The `erase(k)` of a `std::map`. -/
def mapErase {V : Type} (m : List (Nat × V)) (k : Nat) : List (Nat × V) :=
  m.filter (fun e => e.1 != k)

/-- The `insert(k)` of a `std::set`, kept in increasing order. -/
def setInsert : List Nat → Nat → List Nat
  | [], k => [k]
  | k' :: t, k =>
    if k < k' then k :: k' :: t
    else if k = k' then k' :: t
    else k' :: setInsert t k

/-- The `insert(hint, (w, k))` of a `std::multimap<int, _>` with
`hint = lower_bound(w)`: the entry goes right before the first entry whose key
is not below `w`. -/
def multimapInsertLowerBound (m : List (Int × Nat)) (w : Int) (k : Nat) : List (Int × Nat) :=
  m.takeWhile (fun e => decide (e.1 < w)) ++ (w, k) :: m.dropWhile (fun e => decide (e.1 < w))

/-- The plain `insert((w, k))` of a `std::multimap<int, _>`: the entry goes
after the last entry whose key is not above `w` (the upper bound). -/
def multimapInsert (m : List (Int × Nat)) (w : Int) (k : Nat) : List (Int × Nat) :=
  m.takeWhile (fun e => decide (e.1 ≤ w)) ++ (w, k) :: m.dropWhile (fun e => decide (e.1 ≤ w))

/-- The range constructor `std::multimap<int, _>(first, last)`: the entries are
inserted one after the other. -/
def multimapOfRange (l : List (Int × Nat)) : List (Int × Nat) :=
  l.foldl (fun m e => multimapInsert m e.1 e.2) []

/-! ## Floating-point values -/

/-- A floating-point value: a finite number, an infinity or not-a-number. The
two zeros are not told apart. -/
inductive Fp where
  | finite (q : ℚ)
  | posInf
  | negInf
  | nan
  deriving DecidableEq

/-- Rounding of the positive rational `n / d` to the nearest multiple of
`2 ^ (-s)`, halves to the even multiple: the multiple, as a natural number. -/
def roundHalfEven (n d : Nat) (s : Int) : Nat :=
  let num := if 0 ≤ s then n * 2 ^ s.toNat else n
  let den := if 0 ≤ s then d else d * 2 ^ (-s).toNat
  let q := num / den
  let r := num % den
  if 2 * r < den then q else if den < 2 * r then q + 1 else if q % 2 = 0 then q else q + 1

/-- The number of binary digits of `n`, found in at most `fuel` halvings. -/
def bitLength : Nat → Nat → Nat
  | 0, _ => 0
  | fuel + 1, n => if n = 0 then 0 else bitLength fuel (n / 2) + 1

/-- The position of the leading binary digit of the positive rational `n / d`:
the integer `e` with `2 ^ e ≤ n / d < 2 ^ (e + 1)`. -/
def binaryExponent (n d : Nat) : Int :=
  let k : Int := (bitLength n n : Int) - (bitLength d d : Int)
  if 0 ≤ k then (if d * 2 ^ k.toNat ≤ n then k else k - 1)
  else (if d ≤ n * 2 ^ (-k).toNat then k else k - 1)

/-- Rounding to the nearest `double` (binary64: 53 binary digits, exponents from
`-1022` to `1023`, subnormal numbers included), halves to even; a result beyond
the largest `double` is an infinity. -/
def roundDouble (q : ℚ) : Fp :=
  if q = 0 then Fp.finite 0
  else
    let n := q.num.natAbs
    let d := q.den
    let e := max (binaryExponent n d) (-1022)
    let s : Int := 52 - e
    let m := roundHalfEven n d s
    let v : ℚ :=
      if 0 ≤ s then (m : ℚ) / ((2 ^ s.toNat : Nat) : ℚ) else (m : ℚ) * ((2 ^ (-s).toNat : Nat) : ℚ)
    if ((2 ^ 1024 : Nat) : ℚ) ≤ v then (if 0 < q then Fp.posInf else Fp.negInf)
    else Fp.finite (if 0 < q then v else -v)

/-- The rational is a `double`: rounding leaves it as it is. -/
def IsDouble (q : ℚ) : Prop := roundDouble q = Fp.finite q

instance (q : ℚ) : Decidable (IsDouble q) := by unfold IsDouble; infer_instance

/-- The negation of a floating-point value. -/
def Fp.neg : Fp → Fp
  | .finite q => .finite (-q)
  | .posInf => .negInf
  | .negInf => .posInf
  | .nan => .nan

/-- The sum of two `double` values. -/
def Fp.add : Fp → Fp → Fp
  | .finite a, .finite b => roundDouble (a + b)
  | .nan, _ => .nan
  | _, .nan => .nan
  | .posInf, .negInf => .nan
  | .negInf, .posInf => .nan
  | .posInf, _ => .posInf
  | _, .posInf => .posInf
  | .negInf, _ => .negInf
  | _, .negInf => .negInf

/-- The difference of two `double` values. -/
def Fp.sub (a b : Fp) : Fp := Fp.add a (Fp.neg b)

/-- An infinity times a finite number. -/
def Fp.infTimes (positive : Bool) (q : ℚ) : Fp :=
  if q = 0 then .nan else if (0 < q) = positive then .posInf else .negInf

/-- The product of two `double` values. -/
def Fp.mul : Fp → Fp → Fp
  | .finite a, .finite b => roundDouble (a * b)
  | .nan, _ => .nan
  | _, .nan => .nan
  | .posInf, .finite b => Fp.infTimes true b
  | .negInf, .finite b => Fp.infTimes false b
  | .finite a, .posInf => Fp.infTimes true a
  | .finite a, .negInf => Fp.infTimes false a
  | .posInf, .posInf => .posInf
  | .negInf, .negInf => .posInf
  | .posInf, .negInf => .negInf
  | .negInf, .posInf => .negInf

/-- The quotient of two numbers where it is not finite: a division by zero. -/
def Fp.overZero (a : ℚ) : Fp :=
  if a = 0 then .nan else if 0 < a then .posInf else .negInf

/-- The quotient of two `double` values. -/
def Fp.div : Fp → Fp → Fp
  | .finite a, .finite b => if b = 0 then Fp.overZero a else roundDouble (a / b)
  | .nan, _ => .nan
  | _, .nan => .nan
  | .finite _, .posInf => .finite 0
  | .finite _, .negInf => .finite 0
  | .posInf, .finite b => if 0 ≤ b then .posInf else .negInf
  | .negInf, .finite b => if 0 ≤ b then .negInf else .posInf
  | .posInf, .posInf => .nan
  | .posInf, .negInf => .nan
  | .negInf, .posInf => .nan
  | .negInf, .negInf => .nan

/-- The comparison `a < b` of two floating-point values: false when one of them
is not a number. -/
def Fp.lt : Fp → Fp → Bool
  | .finite a, .finite b => decide (a < b)
  | .nan, _ => false
  | _, .nan => false
  | .negInf, .negInf => false
  | .negInf, _ => true
  | _, .negInf => false
  | .posInf, _ => false
  | _, .posInf => true

/-- The quotient `n / d` without rounding: a finite number, or what a division
by zero yields. -/
def Fp.quot (n d : ℚ) : Fp := if d = 0 then Fp.overZero n else .finite (n / d)

/-! ## Data model -/

/-- A `Feature`: its pixel position `px_` and the map-point `mpt_` it observes. -/
structure Feature where
  px_ : ℚ × ℚ
  mpt_ : Nat
  deriving DecidableEq

/-- A `MapPoint`, as far as `keyframe.cpp` uses it: the bad flag and the keys of
its observation map (`std::map<KeyFrame::Ptr, Feature::Ptr>`), in pointer order. -/
structure MapPoint where
  isBad_ : Bool
  obs_ : List Nat
  deriving DecidableEq

/-- The graph state of a `KeyFrame`. `mpt_fts_` is the
`unordered_map<MapPoint::Ptr, Feature::Ptr>` in its iteration order. -/
structure KeyFrame where
  id_ : Nat
  isBad_ : Bool
  notErase : Bool
  toBeErase : Bool
  connectedKeyFrames_ : List (Nat × Int)
  orderedConnectedKeyFrames_ : List (Int × Nat)
  parent_ : Option Nat
  loopEdges_ : List Nat
  mpt_fts_ : List (Nat × Feature)
  seed_fts_ : List Feature
  featuresInBow : List Feature
  deriving DecidableEq

/-- The heap: every `KeyFrame::Ptr` and `MapPoint::Ptr` denotes an object. -/
structure World where
  kfs : Nat → KeyFrame
  mpts : Nat → MapPoint

/-- The state of a keyframe right after `KeyFrame::KeyFrame`: not bad, no
erase flags, an empty graph neighbourhood, the features of the frame. -/
def KeyFrame.fresh (id : Nat) (fts : List (Nat × Feature)) : KeyFrame :=
  { id_ := id, isBad_ := false, notErase := false, toBeErase := false,
    connectedKeyFrames_ := [], orderedConnectedKeyFrames_ := [], parent_ := none,
    loopEdges_ := [], mpt_fts_ := fts, seed_fts_ := [], featuresInBow := [] }

/-- Replace the keyframe behind a pointer. -/
def World.setKF (w : World) (p : Nat) (kf : KeyFrame) : World :=
  { w with kfs := fun q => if q = p then kf else w.kfs q }

/-- Replace the map-point behind a pointer. -/
def World.setMpt (w : World) (p : Nat) (m : MapPoint) : World :=
  { w with mpts := fun q => if q = p then m else w.mpts q }

/-! ## Operations on one keyframe (`keyframe.cpp`) -/

/-- One round of the loop of `KeyFrame::updateOrderedConnections`: the state is
the ordered view built so far, the running `max` and `parent_`. -/
def updateOrderedStep (acc : List (Int × Nat) × Int × Option Nat) (connect : Nat × Int) :
    List (Int × Nat) × Int × Option Nat :=
  let ordered := multimapInsertLowerBound acc.1 connect.2 connect.1
  if connect.2 > acc.2.1 then (ordered, connect.2, some connect.1)
  else (ordered, acc.2.1, acc.2.2)

/-- The function `KeyFrame::updateOrderedConnections`. -/
def KeyFrame.updateOrderedConnections (kf : KeyFrame) : KeyFrame :=
  let r := kf.connectedKeyFrames_.foldl updateOrderedStep ([], 0, kf.parent_)
  { kf with orderedConnectedKeyFrames_ := r.1, parent_ := r.2.2 }

/-- The function `KeyFrame::addConnection`. -/
def KeyFrame.addConnection (kf : KeyFrame) (k : Nat) (weight : Int) : KeyFrame :=
  if !mapContains kf.connectedKeyFrames_ k then
    ({ kf with connectedKeyFrames_ := mapAssign kf.connectedKeyFrames_ k weight }).updateOrderedConnections
  else if mapFind kf.connectedKeyFrames_ k != some weight then
    ({ kf with connectedKeyFrames_ := mapAssign kf.connectedKeyFrames_ k weight }).updateOrderedConnections
  else kf

/-- The function `KeyFrame::removeConnection`. -/
def KeyFrame.removeConnection (kf : KeyFrame) (k : Nat) : KeyFrame :=
  (if mapContains kf.connectedKeyFrames_ k then
    { kf with connectedKeyFrames_ := mapErase kf.connectedKeyFrames_ k }
  else kf).updateOrderedConnections

/-- The function `KeyFrame::getWight`: `connectedKeyFrames_[pKF]` default-inserts
a zero under an absent key. The result is the returned weight and the keyframe
after the call. -/
def KeyFrame.getWight (kf : KeyFrame) (pKF : Nat) : Int × KeyFrame :=
  match mapFind kf.connectedKeyFrames_ pKF with
  | some w => (w, kf)
  | none => (0, { kf with connectedKeyFrames_ := mapAssign kf.connectedKeyFrames_ pKF 0 })

/-- The function `KeyFrame::addLoopEdge` (`loopEdges_` is a `std::set`). -/
def KeyFrame.addLoopEdge (kf : KeyFrame) (pKF : Nat) : KeyFrame :=
  { kf with notErase := true, loopEdges_ := setInsert kf.loopEdges_ pKF }

/-- The function `KeyFrame::setNotErase`. -/
def KeyFrame.setNotErase (kf : KeyFrame) : KeyFrame := { kf with notErase := true }

/-- The ordered view read from its strongest end (`rbegin()` to `rend()`). -/
def KeyFrame.orderedView (kf : KeyFrame) : List (Int × Nat) :=
  kf.orderedConnectedKeyFrames_.reverse

/-! ## Collaborators outside `src/` -/

/-- Modelled from the spec: `MapPoint::isBad` (`map_point.cpp` is not part of the
sources), which the spec lists as `is_bad()`: it reads the flag. -/
def MapPoint.isBad (m : MapPoint) : Bool := m.isBad_

/-- Modelled from the spec: `MapPoint::getObservations` (`map_point.cpp` is not
part of the sources), the spec's `get_observations()` (mapping keyframe to
feature): the observing keyframes in pointer order. -/
def MapPoint.getObservations (m : MapPoint) : List Nat := m.obs_

/-- Modelled from the spec: `MapPoint::removeObservation` (`map_point.cpp` is not
part of the sources), the spec's `remove_observation(kf)`: the keyframe leaves
the observation map. -/
def MapPoint.removeObservation (m : MapPoint) (kf : Nat) : MapPoint :=
  { m with obs_ := m.obs_.filter (fun k => k != kf) }

/-- Modelled from the spec: `Frame::removeFeature` (`frame.cpp` is not part of the
sources): the observation of the feature's map-point leaves `mpt_fts_`. -/
def KeyFrame.removeFeature (kf : KeyFrame) (ft : Feature) : KeyFrame :=
  { kf with mpt_fts_ := kf.mpt_fts_.filter (fun e => e.1 != ft.mpt_) }

/-! ## Operations on the graph (`keyframe.cpp`) -/

/-- The function `KeyFrame::isBad`. -/
def isBad (w : World) (a : Nat) : Bool := (w.kfs a).isBad_

/-- The loop of `setBad` over the map-points of the snapshot `mpt_fts`. -/
def removeObservations (a : Nat) (w : World) (mpt_fts : List (Nat × Feature)) : World :=
  mpt_fts.foldl (fun w it => w.setMpt it.1 ((w.mpts it.1).removeObservation a)) w

/-- The loop of `setBad` over the neighbours `connect.first`. -/
def removeFromNeighbours (a : Nat) (w : World) (l : List (Nat × Int)) : World :=
  l.foldl (fun w connect => w.setKF connect.1 ((w.kfs connect.1).removeConnection a)) w

/-- The function `KeyFrame::setBad`, called on the keyframe behind `a`. The loop
over `connectedKeyFrames_` runs over the map as it is when the loop starts. -/
def setBad (w : World) (a : Nat) : World :=
  if (w.kfs a).id_ = 0 then w
  else if (w.kfs a).notErase then w.setKF a { w.kfs a with toBeErase := true }
  else
    let mpt_fts := (w.kfs a).mpt_fts_
    let w1 := removeObservations a w mpt_fts
    let w2 := w1.setKF a { w1.kfs a with isBad_ := true }
    let w3 := removeFromNeighbours a w2 (w2.kfs a).connectedKeyFrames_
    w3.setKF a { w3.kfs a with connectedKeyFrames_ := [], orderedConnectedKeyFrames_ := [],
                               mpt_fts_ := [], seed_fts_ := [] }

/-- The function `KeyFrame::setErase`: the branch under `if(false)` never runs. -/
def setErase (w : World) (a : Nat) : World :=
  if (w.kfs a).toBeErase then setBad w a else w

/-- The `connection_counter[k]++` of `updateConnections`: a new key starts at
zero. -/
def counterIncr (m : List (Nat × Int)) (k : Nat) : List (Nat × Int) :=
  mapAssign m k ((mapFind m k).getD 0 + 1)

/-- The first loop of `KeyFrame::updateConnections` for one feature of the
snapshot: a feature of a bad map-point is removed from the keyframe, the
observers of a good one are tallied, the keyframe's own id apart. -/
def tallyStep (a : Nat) (st : World × List (Nat × Int)) (ft : Feature) :
    World × List (Nat × Int) :=
  let w := st.1
  if (w.mpts ft.mpt_).isBad then (w.setKF a ((w.kfs a).removeFeature ft), st.2)
  else
    (w, (w.mpts ft.mpt_).getObservations.foldl
      (fun c obs => if (w.kfs obs).id_ = (w.kfs a).id_ then c else counterIncr c obs) st.2)

/-- The snapshot `fts` of `updateConnections` and its first loop: the heap after
it and `connection_counter`. -/
def tallyLoop (w : World) (a : Nat) : World × List (Nat × Int) :=
  ((w.kfs a).mpt_fts_.map Prod.snd).foldl (tallyStep a) (w, [])

/-- The second loop of `KeyFrame::updateConnections` for one entry of the tally:
the state is the heap, `best_unfit_keyframe` with `best_unfit_connections`, and
`weight_connections`. -/
def partitionStep (a : Nat) (connection_threshold : Int)
    (st : World × Option Nat × Int × List (Int × Nat)) (obs : Nat × Int) :
    World × Option Nat × Int × List (Int × Nat) :=
  if obs.2 < connection_threshold then (st.1, some obs.1, obs.2, st.2.2.2)
  else
    (st.1.setKF obs.1 ((st.1.kfs obs.1).addConnection a obs.2), st.2.1, st.2.2.1,
      st.2.2.2 ++ [(obs.2, obs.1)])

/-- The `std::sort` of `weight_connections` by decreasing weight. The C++ sort
leaves the order of equal weights open; here equal weights keep their order. -/
def sortByWeight (l : List (Int × Nat)) : List (Int × Nat) :=
  l.insertionSort (fun x y => x.1 ≥ y.1)

/-- The function `KeyFrame::updateConnections`, called on the keyframe behind `a`
with `Config::minConnectionObservations()` as `connection_threshold`. -/
def updateConnections (connection_threshold : Int) (w : World) (a : Nat) : World :=
  if isBad w a then w
  else
    let r := tallyLoop w a
    let w1 := r.1
    let connection_counter := r.2
    if connection_counter.isEmpty then setBad w1 a
    else
      let p := connection_counter.foldl (partitionStep a connection_threshold) (w1, none, 0, [])
      let q : World × List (Int × Nat) :=
        if p.2.2.2.isEmpty then
          match p.2.1 with
          | some best_unfit_keyframe =>
            (p.1.setKF best_unfit_keyframe
              ((p.1.kfs best_unfit_keyframe).addConnection a p.2.2.1),
             p.2.2.2 ++ [(p.2.2.1, best_unfit_keyframe)])
          | none => (p.1, p.2.2.2)
        else (p.1, p.2.2.2)
      let weight_connections := sortByWeight q.2
      q.1.setKF a { q.1.kfs a with
        connectedKeyFrames_ := weight_connections.foldl (fun m item => mapInsert m item.2 item.1) [],
        orderedConnectedKeyFrames_ := multimapOfRange weight_connections }

/-! ## The public graph operations as a transition system -/

/-- A call of a public graph operation on the keyframe behind `a`. -/
inductive GraphOp where
  | addConnection (a k : Nat) (weight : Int)
  | removeConnection (a k : Nat)
  | updateConnections (a : Nat)
  | setBad (a : Nat)
  | getWight (a k : Nat)
  deriving DecidableEq

/-- The heap after one call. -/
def GraphOp.run (connection_threshold : Int) (w : World) : GraphOp → World
  | .addConnection a k weight => w.setKF a ((w.kfs a).addConnection k weight)
  | .removeConnection a k => w.setKF a ((w.kfs a).removeConnection k)
  | .updateConnections a => ssvo.updateConnections connection_threshold w a
  | .setBad a => ssvo.setBad w a
  | .getWight a k => w.setKF a ((w.kfs a).getWight k).2

/-- The heap after a sequence of calls. -/
def runOps (connection_threshold : Int) (w : World) (ops : List GraphOp) : World :=
  ops.foldl (GraphOp.run connection_threshold) w

/-- A heap of freshly constructed keyframes: the keyframe behind pointer `p` has
id `p`, so pointer `0` is the first keyframe; `fts p` are its observations and
`mpts` the map-points. -/
def freshWorld (fts : Nat → List (Nat × Feature)) (mpts : Nat → MapPoint) : World :=
  { kfs := fun p => KeyFrame.fresh p (fts p), mpts := mpts }

/-- The part of the spec's property on the two maps: the ordered view holds
exactly the (weight, keyframe) pairs of the connected map, in non-increasing
weight order. -/
def ViewMatchesConnected (kf : KeyFrame) : Prop :=
  List.Perm kf.orderedView (kf.connectedKeyFrames_.map (fun e => (e.2, e.1))) ∧
  List.Sorted (fun x y : Int × Nat => x.1 ≥ y.1) kf.orderedView

/-- The property of the spec: the ordered view holds exactly the (weight,
keyframe) pairs of the connected map, in non-increasing weight order, and the
parent, when set, is the keyframe of the first element of the view. -/
def OrderedViewOK (kf : KeyFrame) : Prop :=
  ViewMatchesConnected kf ∧
  (kf.parent_ = none ∨ kf.orderedView.head?.map Prod.snd = kf.parent_)

instance (kf : KeyFrame) : Decidable (OrderedViewOK kf) := by
  unfold OrderedViewOK ViewMatchesConnected; infer_instance

/-- The call is a `getWight`. -/
def GraphOp.isGetWight : GraphOp → Bool
  | .getWight _ _ => true
  | _ => false

/-- The sequence `setBad(a); ...; setBad(a)` of `n` calls. -/
def setBadTimes (a : Nat) : Nat → World → World
  | 0, w => w
  | n + 1, w => setBadTimes a n (setBad w a)

/-- A call of a public operation of `keyframe.cpp` that changes the state of the
keyframe behind `a`: the graph operations, `updateOrderedConnections`,
`addLoopEdge`, `setNotErase` and `setErase`. -/
inductive KeyFrameOp where
  | graph (op : GraphOp)
  | updateOrderedConnections (a : Nat)
  | addLoopEdge (a pKF : Nat)
  | setNotErase (a : Nat)
  | setErase (a : Nat)
  deriving DecidableEq

/-- The heap after one call of a public operation. -/
def KeyFrameOp.run (connection_threshold : Int) (w : World) : KeyFrameOp → World
  | .graph op => op.run connection_threshold w
  | .updateOrderedConnections a => w.setKF a (w.kfs a).updateOrderedConnections
  | .addLoopEdge a pKF => w.setKF a ((w.kfs a).addLoopEdge pKF)
  | .setNotErase a => w.setKF a (w.kfs a).setNotErase
  | .setErase a => ssvo.setErase w a

/-- The heap after a sequence of calls of public operations. -/
def runAll (connection_threshold : Int) (w : World) (ops : List KeyFrameOp) : World :=
  ops.foldl (KeyFrameOp.run connection_threshold) w

/-- The relation between the heap before and after a step as far as the erase
flags go: no keyframe loses `notErase`, and a keyframe that has `toBeErase`
afterwards had it before or has `notErase` afterwards. -/
def FlagsStep (w w' : World) : Prop :=
  ∀ p, ((w.kfs p).notErase = true → (w'.kfs p).notErase = true) ∧
    ((w'.kfs p).toBeErase = true → (w.kfs p).toBeErase = true ∨ (w'.kfs p).notErase = true)

/-- The map-points a keyframe observes: the `mpt_` of the features it holds. -/
def KeyFrame.observedMapPoints (kf : KeyFrame) : List Nat :=
  kf.mpt_fts_.map (fun e => e.2.mpt_)

/-- The tally of the spec: the number of map-points observed by the keyframe
behind `a` that are not bad and are also observed by the keyframe behind `b`,
where a keyframe carrying the id of `a` counts nothing. -/
def coObservations (w : World) (a b : Nat) : Int :=
  if (w.kfs b).id_ = (w.kfs a).id_ then 0
  else (((w.kfs a).observedMapPoints.dedup.filter
    (fun m => !(w.mpts m).isBad_ && decide (b ∈ (w.mpts m).obs_))).length : Int)

/-! ## The queries of a keyframe (`keyframe.cpp`) -/

/-- The loop of `KeyFrame::getConnectedKeyFrames` over the ordered view from its
strongest end: `it` walks the view, `count` counts the rounds, and the result is
a `std::set` of pointers. -/
def getConnectedLoop (min_fts num : Int) : List (Int × Nat) → Int → List Nat → List Nat
  | [], _, connected_keyframes => connected_keyframes
  | it :: rest, count, connected_keyframes =>
    if it.1 ≥ min_fts ∧ count < num then
      getConnectedLoop min_fts num rest (count + 1) (setInsert connected_keyframes it.2)
    else connected_keyframes

/-- The function `KeyFrame::getConnectedKeyFrames`: the set of the result in
increasing pointer order. -/
def KeyFrame.getConnectedKeyFrames (kf : KeyFrame) (num min_fts : Int) : List Nat :=
  let num := if num = -1 then (kf.orderedConnectedKeyFrames_.length : Int) else num
  getConnectedLoop min_fts num kf.orderedView 0 []

/-- The body of the inner loop of `KeyFrame::getSubConnectedKeyFrames`: a
keyframe of the first ring and the keyframe itself are skipped, the others are
counted in `candidate_keyframes`. -/
def candidateStep (a : Nat) (connected_keyframes : List Nat)
    (candidate_keyframes : List (Nat × Int)) (sub_kf : Nat) : List (Nat × Int) :=
  if connected_keyframes.contains sub_kf || sub_kf == a then candidate_keyframes
  else if mapContains candidate_keyframes sub_kf then
    mapAssign candidate_keyframes sub_kf ((mapFind candidate_keyframes sub_kf).getD 0 + 1)
  else mapInsert candidate_keyframes sub_kf 1

/-- The map `candidate_keyframes` of `KeyFrame::getSubConnectedKeyFrames` after
its two nested loops. The calls `getConnectedKeyFrames()` take the default
arguments of the declaration in `keyframe.hpp`, which is not part of the sources;
the spec gives them as `num = -1`, `min_fts = 0`. -/
def subCandidates (w : World) (a : Nat) : List (Nat × Int) :=
  let connected_keyframes := (w.kfs a).getConnectedKeyFrames (-1) 0
  connected_keyframes.foldl (fun cand kf =>
    ((w.kfs kf).getConnectedKeyFrames (-1) 0).foldl (candidateStep a connected_keyframes) cand) []

/-- The `emplace(k, v)` of a `std::map<int, _, std::greater<int>>`: the entries
are kept in decreasing key order and nothing happens when the key is present. -/
def greaterMapEmplace : List (Int × Nat) → Int → Nat → List (Int × Nat)
  | [], k, v => [(k, v)]
  | (k', v') :: t, k, v =>
    if k > k' then (k, v) :: (k', v') :: t
    else if k = k' then (k', v') :: t
    else (k', v') :: greaterMapEmplace t k v

/-- The last loop of `KeyFrame::getSubConnectedKeyFrames`: the keyframe of the
entry is inserted, then the size of the result is compared with `num`, converted
to the unsigned type of `size()`. -/
def takeBest (num : Int) : List (Int × Nat) → List Nat → List Nat
  | [], sub_connected_keyframes => sub_connected_keyframes
  | item :: rest, sub_connected_keyframes =>
    let inserted := setInsert sub_connected_keyframes item.2
    if (inserted.length : Int) ≥ num % 2 ^ 64 then inserted else takeBest num rest inserted

/-- The function `KeyFrame::getSubConnectedKeyFrames`, called on the keyframe
behind `a`: the set of the result in increasing pointer order. -/
def getSubConnectedKeyFrames (w : World) (a : Nat) (num : Int) : List Nat :=
  let candidate_keyframes := subCandidates w a
  if num = -1 then candidate_keyframes.foldl (fun s item => setInsert s item.1) []
  else
    let ordered_candidate_keyframes :=
      candidate_keyframes.foldl (fun m item => greaterMapEmplace m item.2 item.1) []
    takeBest num ordered_candidate_keyframes []

/-- The first test of `KeyFrame::getFeaturesInArea` for a feature at `px`, in
`double` arithmetic: the position is outside the box around `(x, y)`. -/
def outsideBox (px : ℚ × ℚ) (x y r : ℚ) : Bool :=
  Fp.lt (roundDouble px.1) (Fp.sub (roundDouble x) (roundDouble r)) ||
  Fp.lt (Fp.add (roundDouble x) (roundDouble r)) (roundDouble px.1) ||
  Fp.lt (roundDouble px.2) (Fp.sub (roundDouble y) (roundDouble r)) ||
  Fp.lt (Fp.add (roundDouble y) (roundDouble r)) (roundDouble px.2)

/-- The second test of `KeyFrame::getFeaturesInArea` for a feature at `px`, in
`double` arithmetic: the sum of the two squares is below `(double)r*r`. -/
def insideCircle (px : ℚ × ℚ) (x y r : ℚ) : Bool :=
  Fp.lt
    (Fp.add
      (Fp.mul (Fp.sub (roundDouble px.1) (roundDouble x)) (Fp.sub (roundDouble px.1) (roundDouble x)))
      (Fp.mul (Fp.sub (roundDouble px.2) (roundDouble y)) (Fp.sub (roundDouble px.2) (roundDouble y))))
    (Fp.mul (roundDouble r) (roundDouble r))

/-- The function `KeyFrame::getFeaturesInArea`: the vector `index`. The positions
and the arguments are `double` values and every operation rounds to `double`. -/
def KeyFrame.getFeaturesInArea (kf : KeyFrame) (x y r : ℚ) : List Nat :=
  (List.range kf.featuresInBow.length).foldl (fun index i =>
    let px := (kf.featuresInBow.getD i { px_ := (0, 0), mpt_ := 0 }).px_
    if outsideBox px x y r then index
    else if insideCircle px x y r then index ++ [i]
    else index) []

/-- No operation of `getFeaturesInArea` rounds for a feature at `px`: the
position, the arguments and every intermediate value are `double` values. -/
def ExactArea (px : ℚ × ℚ) (x y r : ℚ) : Prop :=
  IsDouble px.1 ∧ IsDouble px.2 ∧ IsDouble x ∧ IsDouble y ∧ IsDouble r ∧
  IsDouble (x - r) ∧ IsDouble (x + r) ∧ IsDouble (y - r) ∧ IsDouble (y + r) ∧
  IsDouble (px.1 - x) ∧ IsDouble (px.2 - y) ∧
  IsDouble ((px.1 - x) * (px.1 - x)) ∧ IsDouble ((px.2 - y) * (px.2 - y)) ∧
  IsDouble ((px.1 - x) * (px.1 - x) + (px.2 - y) * (px.2 - y)) ∧ IsDouble (r * r)

instance (px : ℚ × ℚ) (x y r : ℚ) : Decidable (ExactArea px x y r) := by
  unfold ExactArea; infer_instance

/-- The function `KeyFrame::getParent`. -/
def KeyFrame.getParent (kf : KeyFrame) : Option Nat := kf.parent_

/-- The multiplicity of a second-ring candidate, as the spec counts it: the
number of keyframes of the first ring of `a` that have `c` in their own first
ring. -/
def multiplicity (w : World) (a c : Nat) : Nat :=
  (((w.kfs a).getConnectedKeyFrames (-1) 0).filter
    (fun kf => ((w.kfs kf).getConnectedKeyFrames (-1) 0).contains c)).length

/-- The indices of `featuresInBow` inside the closed disk of the spec. -/
def closedDiskIndices (kf : KeyFrame) (x y r : ℚ) : List Nat :=
  (List.range kf.featuresInBow.length).filter (fun i =>
    let px := (kf.featuresInBow.getD i { px_ := (0, 0), mpt_ := 0 }).px_
    decide ((px.1 - x) ^ 2 + (px.2 - y) ^ 2 ≤ r ^ 2))

/-- The indices of `featuresInBow` strictly inside the circle: the open disk. -/
def openDiskIndices (kf : KeyFrame) (x y r : ℚ) : List Nat :=
  (List.range kf.featuresInBow.length).filter (fun i =>
    let px := (kf.featuresInBow.getD i { px_ := (0, 0), mpt_ := 0 }).px_
    decide ((px.1 - x) ^ 2 + (px.2 - y) ^ 2 < r ^ 2))

/-! ## Initializer: data model (`initializer.cpp`) -/

/-- A `cv::Point2f`. -/
abbrev Point2f := ℚ × ℚ

/-- A `cv::Mat` of numbers, as the list of its rows. -/
abbrev Mat := List (List ℚ)

/-- The result of an initializer call. -/
inductive InitResult where
  | RESET
  | FAILURE
  | SUCCESS
  deriving DecidableEq

/-- A `cv::KeyPoint`, of which the initializer reads the position. -/
structure KeyPoint where
  pt : Point2f
  deriving DecidableEq

/-- A `Frame`, as far as the initializer reads it: the key-points `kps_`, the
image `img_pyr_[0]` (an abstract handle) and the intrinsic matrix `cam_->cvK()`. -/
structure Frame where
  kps_ : List KeyPoint
  img : Nat
  cvK : Mat
  deriving DecidableEq

/-- The options of `Config` that the initializer reads (`config.hpp` is not part
of the sources): the count thresholds are natural numbers, compared with the
`size()` of a vector. -/
structure Config where
  initMinCorners : Nat
  initMinTracked : Nat
  initMinDisparity : ℚ
  initSigma : ℚ
  initMinInliers : Int
  initMaxRansacIters : Int

/-- The numeric routines of OpenCV, Eigen and `global.hpp` that the initializer
calls. They are parameters of the embedding.
* `calcOpticalFlowPyrLK img_ref img_cur pts_ref pts_cur i`: the tracked position
  and the status byte of correspondence `i` (the outputs of OpenCV have one
  entry per input point);
* `sqrt`, `log`: the functions of `<cmath>`;
* `rand k`: the raw value behind the `k`-th call of `Rand`;
* `eigen`: the eigenvectors of `cv::eigen`, one per row;
* `svd`: the factors `(W, U, Vt)` of `cv::SVDecomp` and `cv::SVD::compute`;
* `jacobiV`: the matrix `V` of Eigen's `JacobiSVD`;
* `freshMat34`: the contents of a newly allocated `cv::Mat(3, 4, type)`;
* `maxOfOpenCV`: whether the macro `MAX(a, b)` is that of OpenCV,
  `((a) < (b) ? (b) : (a))`, or that of `<sys/param.h>`,
  `((a) > (b) ? (a) : (b))`; the one of the header included first is in force,
  and the two differ when one operand is not a number. -/
structure Externals where
  calcOpticalFlowPyrLK : Nat → Nat → List Point2f → List Point2f → Nat → Point2f × Nat
  sqrt : ℚ → ℚ
  log : ℚ → ℚ
  rand : Nat → Nat
  eigen : Mat → Mat
  svd : Mat → List ℚ × Mat × Mat
  jacobiV : Mat → Mat
  freshMat34 : Mat
  maxOfOpenCV : Bool

/-- The members of `Initializer`. The mask `inliers_` is an `N x 1` matrix of
bytes; `rng` counts the calls of the process-wide `Rand` made so far. -/
structure Initializer where
  frame_ref_ : Option Frame
  frame_cur_ : Option Frame
  pts_ref_ : List Point2f
  pts_cur_ : List Point2f
  p3ds_ : List (ℚ × ℚ × ℚ)
  disparities_ : List ℚ
  inliers_ : List Nat
  rng : Nat
  deriving DecidableEq

/-! ## Matrices -/

/-- Entry `i` of a vector, zero outside it. -/
def vecAt (v : List ℚ) (i : Nat) : ℚ := v.getD i 0

/-- Row `i` of a matrix. -/
def Mat.row (A : Mat) (i : Nat) : List ℚ := A.getD i []

/-- Entry `(i, j)` of a matrix. -/
def Mat.entry (A : Mat) (i j : Nat) : ℚ := vecAt (A.row i) j

/-- Column `j` of a matrix. -/
def Mat.col (A : Mat) (j : Nat) : List ℚ := A.map (fun r => vecAt r j)

/-- The number of columns of a matrix. -/
def Mat.cols (A : Mat) : Nat := (A.row 0).length

/-- The transpose `A.t()`. -/
def Mat.t (A : Mat) : Mat := (List.range A.cols).map (fun j => A.col j)

/-- The scalar product of two vectors. -/
def dot (u v : List ℚ) : ℚ := (List.zipWith (fun x y => x * y) u v).sum

/-- The product `A * v` of a matrix and a column vector. -/
def Mat.mulVec (A : Mat) (v : List ℚ) : List ℚ := A.map (fun r => dot r v)

/-- The product `A * B`. -/
def Mat.mul (A B : Mat) : Mat := A.map (fun r => (List.range B.cols).map (fun j => dot r (B.col j)))

/-- The product `c * A` with a scalar. -/
def Mat.scale (c : ℚ) (A : Mat) : Mat := A.map (fun r => r.map (fun x => c * x))

/-- The matrix `cv::Mat::diag(W)`. -/
def Mat.diag (W : List ℚ) : Mat :=
  (List.range W.length).map (fun i => (List.range W.length).map (fun j => if i = j then vecAt W i else 0))

/-- The function `cv::determinant` on a `3 x 3` matrix. -/
def determinant (A : Mat) : ℚ :=
  A.entry 0 0 * (A.entry 1 1 * A.entry 2 2 - A.entry 1 2 * A.entry 2 1)
  - A.entry 0 1 * (A.entry 1 0 * A.entry 2 2 - A.entry 1 2 * A.entry 2 0)
  + A.entry 0 2 * (A.entry 1 0 * A.entry 2 1 - A.entry 1 1 * A.entry 2 0)

/-- The `3 x 4` matrix `[R | t]`. -/
def hconcat (R : Mat) (t : List ℚ) : Mat :=
  (List.range 3).map (fun i => R.row i ++ [vecAt t i])

/-- The function `cv::countNonZero` on a mask. -/
def countNonZero (mask : List Nat) : Nat := (mask.filter (fun b => b != 0)).length

/-- The `3 x 3` identity matrix. -/
def identity3 : Mat := [[1, 0, 0], [0, 1, 0], [0, 0, 1]]

/-- The matrix has three rows of three entries. -/
def Shape3 (A : Mat) : Prop :=
  ∃ a b c d e f g h i : ℚ, A = [[a, b, c], [d, e, f], [g, h, i]]

/-- The matrix is a `3 x 3` orthogonal matrix: `A * A.t()` is the identity. -/
def IsOrthogonal3 (A : Mat) : Prop := Shape3 A ∧ A.mul A.t = identity3

/-- The matrix is a proper rotation: orthogonal with determinant `+1`. -/
def IsRotation3 (A : Mat) : Prop := IsOrthogonal3 A ∧ determinant A = 1

/-- The entries of a matrix as a `3 x 3` matrix of Mathlib. -/
def toMatrix3 (A : Mat) : Matrix (Fin 3) (Fin 3) ℚ := fun i j => A.entry i.val j.val

/-! ## `Initializer::addFirstFrame`, `kltTrack` -/

/-- The function `cv::KeyPoint::convert`: the positions of the key-points. -/
def KeyPoint.convert (kps : List KeyPoint) : List Point2f := kps.map KeyPoint.pt

/-- The function `Initializer::addFirstFrame`. -/
def addFirstFrame (cfg : Config) (s : Initializer) (frame_ref : Frame) :
    InitResult × Initializer :=
  let s1 : Initializer :=
    { s with pts_ref_ := [], pts_cur_ := [], p3ds_ := [], disparities_ := [], inliers_ := [] }
  if frame_ref.kps_.length < cfg.initMinCorners then (InitResult.RESET, s1)
  else
    let pts_ref := KeyPoint.convert frame_ref.kps_
    (InitResult.SUCCESS,
      { s1 with frame_ref_ := some frame_ref, pts_ref_ := pts_ref,
                pts_cur_ := pts_ref ++ s1.pts_cur_ })

/-- The state of the compaction loop of `kltTrack`: the counter `i`, the common
position `j` of the iterators `pt_ref_it` and `pt_cur_it`, `size`, the two point
vectors, `status` and `disparities`. -/
structure KltState where
  i : Nat
  j : Nat
  size : Nat
  pts_ref : List Point2f
  pts_cur : List Point2f
  status : List Nat
  disparities : List ℚ

/-- One round of the compaction loop of `kltTrack`, entered with
`pt_ref_it != pts_ref.end()`. -/
def kltStep (ext : Externals) (s : KltState) : KltState :=
  if s.status.getD s.i 0 = 0 then
    { s with
      i := s.i + 1
      pts_ref := (s.pts_ref.set s.j (s.pts_ref.getLastD (0, 0))).dropLast
      pts_cur := (s.pts_cur.set s.j (s.pts_cur.getLastD (0, 0))).dropLast
      size := s.size - 1
      status := s.status.set s.i (s.status.getD (s.size - 1) 0) }
  else
    let dx := (s.pts_ref.getD s.j (0, 0)).1 - (s.pts_cur.getD s.j (0, 0)).1
    let dy := (s.pts_ref.getD s.j (0, 0)).2 - (s.pts_cur.getD s.j (0, 0)).2
    { s with
      i := s.i + 1
      j := s.j + 1
      disparities := s.disparities ++ [ext.sqrt (dx * dx + dy * dy)] }

/-- The compaction loop of `kltTrack`, with a bound on the number of rounds: the
result is `none` when the bound is used up before the loop ends. -/
def kltLoop (ext : Externals) : Nat → KltState → Option KltState
  | 0, s => if s.j = s.pts_ref.length then some s else none
  | fuel + 1, s => if s.j = s.pts_ref.length then some s else kltLoop ext fuel (kltStep ext s)

/-- The function `Initializer::kltTrack`: the new `pts_ref`, `pts_cur` and
`disparities`. With `OPTFLOW_USE_INITIAL_FLOW` OpenCV raises an error when the
initial `pts_cur` has not the size of `pts_ref` (`none`). Each round of the loop
either advances the iterators or shortens the vectors, so `pts_ref.size()`
rounds are enough. -/
def kltTrack (ext : Externals) (img_ref img_cur : Nat) (pts_ref pts_cur : List Point2f) :
    Option (List Point2f × List Point2f × List ℚ) :=
  if pts_cur.length ≠ pts_ref.length then none
  else
    let n := pts_ref.length
    let out := (List.range n).map (ext.calcOpticalFlowPyrLK img_ref img_cur pts_ref pts_cur)
    (kltLoop ext n
      { i := 0, j := 0, size := n, pts_ref := pts_ref, pts_cur := out.map Prod.fst,
        status := out.map Prod.snd, disparities := [] }).map
      (fun s => (s.pts_ref, s.pts_cur, s.disparities))

/-! ## `Fundamental` -/

/-- The function `Fundamental::Normalize`: the normalised points and the matrix
`T`; both stay empty when there is no point. -/
def Normalize (pts : List Point2f) : List Point2f × Mat :=
  let N : ℚ := pts.length
  if pts.length = 0 then ([], [])
  else
    let mean : Point2f := ((pts.map Prod.fst).sum / N, (pts.map Prod.snd).sum / N)
    let centred := pts.map (fun p => (p.1 - mean.1, p.2 - mean.2))
    let mean_dev : Point2f :=
      ((centred.map (fun p => |p.1|)).sum / N, (centred.map (fun p => |p.2|)).sum / N)
    let scale_x : ℚ := 1 / mean_dev.1
    let scale_y : ℚ := 1 / mean_dev.2
    (centred.map (fun p => (p.1 * scale_x, p.2 * scale_y)),
      [[scale_x, 0, -mean.1 * scale_x], [0, scale_y, -mean.2 * scale_y], [0, 0, 1]])

/-- The constant `FLT_EPSILON`. -/
def FLT_EPSILON : ℚ := 1 / 8388608

/-- The function `Fundamental::run8point` (the OpenCV variant that is compiled);
`none` when `assert(N >= 8)` fails. -/
def run8point (ext : Externals) (pts_prev pts_next : List Point2f) : Option Mat :=
  if pts_prev.length < 8 then none
  else
    let n1 := Normalize pts_prev
    let n2 := Normalize pts_next
    let A : Mat := (List.range pts_prev.length).map (fun i =>
      let u1 := (n1.1.getD i (0, 0)).1
      let v1 := (n1.1.getD i (0, 0)).2
      let u2 := (n2.1.getD i (0, 0)).1
      let v2 := (n2.1.getD i (0, 0)).2
      [u2 * u1, u2 * v1, u2, v2 * u1, v2 * v1, v2, u1, v1, 1])
    let vt := ext.eigen (A.t.mul A)
    let r := vt.row 8
    let Fpre : Mat := [r.take 3, (r.drop 3).take 3, (r.drop 6).take 3]
    let d := ext.svd Fpre
    let W := d.1.set 2 0
    let F_norm := (d.2.1.mul (Mat.diag W)).mul d.2.2
    let F := (n2.2.t.mul F_norm).mul n1.2
    let F22 := F.entry 2 2
    some (if |F22| > FLT_EPSILON then Mat.scale (1 / F22) F else F)

/-- The design matrix `A` of `run8point`: one row per correspondence, built from
the normalised points. -/
def designMatrix (pts_prev pts_next : List Point2f) : Mat :=
  let n1 := Normalize pts_prev
  let n2 := Normalize pts_next
  (List.range pts_prev.length).map (fun i =>
    let u1 := (n1.1.getD i (0, 0)).1
    let v1 := (n1.1.getD i (0, 0)).2
    let u2 := (n2.1.getD i (0, 0)).1
    let v2 := (n2.1.getD i (0, 0)).2
    [u2 * u1, u2 * v1, u2, v2 * u1, v2 * v1, v2, u1, v1, 1])

/-- The matrix `A.t() * A` that `run8point` passes to `cv::eigen`. -/
def eigenInput (pts_prev pts_next : List Point2f) : Mat :=
  (designMatrix pts_prev pts_next).t.mul (designMatrix pts_prev pts_next)

/-- The matrix `F_norm` that `run8point` passes to `cv::SVDecomp`: the last
eigenvector, row 8 of the result of `cv::eigen`, as a `3 x 3` matrix. -/
def svdInput (ext : Externals) (pts_prev pts_next : List Point2f) : Mat :=
  let r := (ext.eigen (eigenInput pts_prev pts_next)).row 8
  [r.take 3, (r.drop 3).take 3, (r.drop 6).take 3]

/-- The vector `v` spans the eigenspace of the least eigenvalue `mu` of the
symmetric `9 x 9` matrix `M`: it is an eigenvector, no quotient `x . M x / x . x`
is below `mu`, and a vector that attains `mu` is a multiple of `v`. The last row
that `cv::eigen` returns is such a vector, of length one, when the least
eigenvalue is simple. -/
def IsLeastEigenvector (M : Mat) (mu : ℚ) (v : List ℚ) : Prop :=
  v.length = 9 ∧ v ≠ List.replicate 9 0 ∧ M.mulVec v = v.map (fun y => mu * y) ∧
  ∀ x : List ℚ, x.length = 9 →
    mu * dot x x ≤ dot x (M.mulVec x) ∧
    (dot x (M.mulVec x) = mu * dot x x → ∃ c : ℚ, x = v.map (fun y => c * y))

/-- The factors `d = (W, U, Vt)` are a singular value decomposition of the
`3 x 3` matrix `P`: `U` and `Vt` are orthogonal, the singular values are in
descending order and not negative, and `U * diag(W) * Vt = P`. -/
def IsSVD3 (P : Mat) (d : List ℚ × Mat × Mat) : Prop :=
  IsOrthogonal3 d.2.1 ∧ IsOrthogonal3 d.2.2 ∧
  (∃ a b c : ℚ, d.1 = [a, b, c] ∧ b ≤ a ∧ c ≤ b ∧ 0 ≤ c) ∧
  (d.2.1.mul (Mat.diag d.1)).mul d.2.2 = P

/-- The routines meet the contracts of `cv::eigen` and `cv::SVDecomp`, in exact
arithmetic and up to the scale of the eigenvector, on the fit of `run8point` to
the given correspondences. -/
def ExactFit (ext : Externals) (pts_prev pts_next : List Point2f) : Prop :=
  (∃ mu : ℚ, IsLeastEigenvector (eigenInput pts_prev pts_next) mu
    ((ext.eigen (eigenInput pts_prev pts_next)).row 8)) ∧
  IsSVD3 (svdInput ext pts_prev pts_next) (ext.svd (svdInput ext pts_prev pts_next))

/-- The function `Fundamental::computeErrors`; `F` is read row by row. The sums
and the products are exact; a quotient with a zero denominator is an infinity or
not a number. -/
def computeErrors (p1 p2 : Point2f) (F : Mat) : Fp × Fp :=
  let f := fun i => vecAt F.flatten i
  let u1 := p1.1
  let v1 := p1.2
  let u2 := p2.1
  let v2 := p2.2
  let a2 := f 0 * u1 + f 1 * v1 + f 2
  let b2 := f 3 * u1 + f 4 * v1 + f 5
  let c2 := f 6 * u1 + f 7 * v1 + f 8
  let a1 := f 0 * u2 + f 3 * v2 + f 6
  let b1 := f 1 * u2 + f 4 * v2 + f 7
  let c1 := f 2 * u2 + f 5 * v2 + f 8
  let dist2 := a2 * u2 + b2 * v2 + c2
  let square_dist2 := Fp.quot (dist2 * dist2) (a2 * a2 + b2 * b2)
  let dist1 := a1 * u1 + b1 * v1 + c1
  let square_dist1 := Fp.quot (dist1 * dist1) (a1 * a1 + b1 * b1)
  (square_dist1, square_dist2)

/-- The macro `MAX(a, b)`. -/
def MAX (ext : Externals) (a b : Fp) : Fp :=
  if ext.maxOfOpenCV then (if Fp.lt a b then b else a) else (if Fp.lt b a then a else b)

/-- The test `MAX(error1, error2) < threshold` of the scoring loop of `runRANSAC`
for the correspondence `p1`, `p2` under the matrix `F`. -/
def errorBelow (ext : Externals) (F : Mat) (threshold : ℚ) (p1 p2 : Point2f) : Bool :=
  Fp.lt (MAX ext (computeErrors p1 p2 F).1 (computeErrors p1 p2 F).2) (Fp.finite threshold)

/-- Modelled from the spec: `Rand(lo, hi)` of `global.hpp` (not part of the
sources), the spec's pseudo-random integer source: the `k`-th call yields a value
between `lo` and `hi`, derived from the raw value `ext.rand k`. -/
def Rand (ext : Externals) (k : Nat) (lo hi : Int) : Int :=
  lo + (ext.rand k : Int) % (hi - lo + 1)

/-- One draw of the sampling loop of `runRANSAC`: the state is the working index
list `points`, the number of `Rand` calls so far and the sample `pts1`, `pts2`
(filled from the front). -/
def sampleStep (ext : Externals) (pts_prev pts_next : List Point2f)
    (st : List Nat × Nat × List Point2f × List Point2f) :
    List Nat × Nat × List Point2f × List Point2f :=
  let points := st.1
  let randi := (Rand ext st.2.1 0 ((points.length : Int) - 1)).toNat
  (((points.set randi (points.getLastD 0)).dropLast), st.2.1 + 1,
    st.2.2.1 ++ [pts_prev.getD (points.getD randi 0) (0, 0)],
    st.2.2.2 ++ [pts_next.getD (points.getD randi 0) (0, 0)])

/-- The sampling loop of one RANSAC iteration: `modelPoints = 8` draws from a
copy of `total_points`. -/
def sample8 (ext : Externals) (pts_prev pts_next : List Point2f) (total_points : List Nat)
    (rng : Nat) : List Nat × Nat × List Point2f × List Point2f :=
  (List.range 8).foldl (fun st _ => sampleStep ext pts_prev pts_next st) (total_points, rng, [], [])

/-- One draw of the sampling loop of `runRANSAC`, with the drawn index
`points[randi]` recorded instead of the two points read at it: the state is the
working index list `points`, the number of `Rand` calls so far and the indices
drawn so far. -/
def drawStep (ext : Externals) (st : List Nat × Nat × List Nat) : List Nat × Nat × List Nat :=
  let points := st.1
  let randi := (Rand ext st.2.1 0 ((points.length : Int) - 1)).toNat
  (((points.set randi (points.getLastD 0)).dropLast), st.2.1 + 1,
    st.2.2 ++ [points.getD randi 0])

/-- The sampling loop of one RANSAC iteration with the drawn indices recorded:
the working list `points` after the eight draws, the number of `Rand` calls and
the eight indices. -/
def drawnIndices (ext : Externals) (total_points : List Nat) (rng : Nat) :
    List Nat × Nat × List Nat :=
  (List.range 8).foldl (fun st _ => drawStep ext st) (total_points, rng, [])

/-- The scoring loop of one RANSAC iteration: the mask `inliers_temp` and
`inliers_count` under the matrix `F`. -/
def scoreInliers (ext : Externals) (F : Mat) (threshold : ℚ) (pts_prev pts_next : List Point2f) :
    List Nat × Int :=
  (List.range pts_prev.length).foldl (fun acc n =>
    if errorBelow ext F threshold (pts_prev.getD n (0, 0)) (pts_next.getD n (0, 0)) then
      (acc.1 ++ [255], acc.2 + 1)
    else (acc.1 ++ [0], acc.2))
    ([], 0)

/-- The function `round` of `<cmath>` followed by the conversion to `int`: halves
go away from zero. -/
def cround (x : ℚ) : Int := if 0 ≤ x then ⌊x + 1 / 2⌋ else -⌊-x + 1 / 2⌋

/-- The state of the RANSAC loop: the best mask `inliers`, `max_inliers`,
`niters` and the number of `Rand` calls so far. -/
structure RansacState where
  inliers : List Nat
  max_inliers : Int
  niters : Int
  rng : Nat
  deriving DecidableEq

/-- The body of the RANSAC loop: the state after it and whether it left the loop
through `break`; `none` when `run8point` fails on the sample. -/
def ransacBody (ext : Externals) (pts_prev pts_next : List Point2f) (threshold : ℚ)
    (max_iters : Int) (st : RansacState) : Option (RansacState × Bool) :=
  let smp := sample8 ext pts_prev pts_next (List.range pts_prev.length) st.rng
  match run8point ext smp.2.2.1 smp.2.2.2 with
  | none => none
  | some F_temp =>
    let sc := scoreInliers ext F_temp threshold pts_prev pts_next
    if sc.2 > st.max_inliers then
      if sc.2 < pts_prev.length then
        let num := ext.log (1 - 99 / 100)
        let omega : ℚ := (sc.2 : ℚ) * 1 / (pts_prev.length : ℚ)
        let denom := ext.log (1 - omega ^ 8)
        let niters : Int :=
          if denom ≥ 0 ∨ -num ≥ (max_iters : ℚ) * (-denom) then max_iters else cround (num / denom)
        some ({ inliers := sc.1, max_inliers := sc.2, niters := niters, rng := smp.2.1 }, false)
      else some ({ inliers := sc.1, max_inliers := sc.2, niters := st.niters, rng := smp.2.1 }, true)
    else some ({ st with rng := smp.2.1 }, false)

/-- The RANSAC loop `for(iter = 0; iter < niters; iter++)`, with a bound on the
number of rounds: `none` when the bound is used up before the loop ends, or when
a round fails. -/
def ransacLoop (ext : Externals) (pts_prev pts_next : List Point2f) (threshold : ℚ)
    (max_iters : Int) : Nat → Int → RansacState → Option RansacState
  | 0, iter, st => if iter < st.niters then none else some st
  | fuel + 1, iter, st =>
    if iter < st.niters then
      match ransacBody ext pts_prev pts_next threshold max_iters st with
      | none => none
      | some (st', true) => some st'
      | some (st', false) => ransacLoop ext pts_prev pts_next threshold max_iters fuel (iter + 1) st'
    else some st

/-- The RANSAC loop with its rounds recorded: the states after each execution of
the body, in order; `none` when the bound is used up before the loop ends, or
when a round fails. -/
def ransacTrace (ext : Externals) (pts_prev pts_next : List Point2f) (threshold : ℚ)
    (max_iters : Int) : Nat → Int → RansacState → Option (List RansacState)
  | 0, iter, st => if iter < st.niters then none else some []
  | fuel + 1, iter, st =>
    if iter < st.niters then
      match ransacBody ext pts_prev pts_next threshold max_iters st with
      | none => none
      | some (st', true) => some [st']
      | some (st', false) =>
        (ransacTrace ext pts_prev pts_next threshold max_iters fuel (iter + 1) st').map
          (fun l => st' :: l)
    else some []

/-- The candidate of the round of the RANSAC loop that starts after `k` calls of
`Rand`: the matrix `F_temp` that `run8point` fits to the sample drawn by the
calls `k` to `k + 7`. -/
def sampleFit (ext : Externals) (pts_prev pts_next : List Point2f) (k : Nat) : Option Mat :=
  run8point ext (sample8 ext pts_prev pts_next (List.range pts_prev.length) k).2.2.1
    (sample8 ext pts_prev pts_next (List.range pts_prev.length) k).2.2.2

/-- The score of the round of the RANSAC loop that starts after `k` calls of
`Rand`: the mask `inliers_temp` and the count `inliers_count` of the scoring loop
under the candidate of that round. -/
def roundScore (ext : Externals) (pts_prev pts_next : List Point2f) (threshold : ℚ) (k : Nat) :
    Option (List Nat × Int) :=
  (sampleFit ext pts_prev pts_next k).map
    (fun F_temp => scoreInliers ext F_temp threshold pts_prev pts_next)

/-- The pair `inliers`, `max_inliers` of the RANSAC loop is the best of the first
`k` rounds of a run that started after `rng` calls of `Rand`: no round scored
more than `max_inliers`, and the pair is either still the initial one or the
score of the first round that reached `max_inliers`. -/
def BestOfRounds (ext : Externals) (pts_prev pts_next : List Point2f) (threshold : ℚ)
    (rng k : Nat) (inliers : List Nat) (max_inliers : Int) : Prop :=
  (∀ i, i < k → ∃ sc, roundScore ext pts_prev pts_next threshold (rng + 8 * i) = some sc ∧
    sc.2 ≤ max_inliers) ∧
  ((max_inliers = 0 ∧ inliers = List.replicate pts_prev.length 0) ∨
    ∃ j, j < k ∧
      roundScore ext pts_prev pts_next threshold (rng + 8 * j) = some (inliers, max_inliers) ∧
      ∀ i, i < j → ∃ sc, roundScore ext pts_prev pts_next threshold (rng + 8 * i) = some sc ∧
        sc.2 < max_inliers)

/-- The correspondences selected by a mask. -/
def selectByMask {α : Type} (mask : List Nat) (l : List α) : List α :=
  ((l.zip mask).filter (fun p => p.2 != 0)).map Prod.fst

/-- The first part of `Fundamental::runRANSAC`, up to the end of the RANSAC loop:
the best mask with its count; `none` when `assert(N >= modelPoints)` fails.
`niters` never exceeds `max_iters`, which bounds the rounds of the loop. -/
def ransacBest (ext : Externals) (pts_prev pts_next : List Point2f) (sigma : ℚ)
    (max_iterations : Int) (rng : Nat) : Option RansacState :=
  if pts_prev.length < 8 then none
  else
    let threshold : ℚ := 3841 / 1000 * sigma * sigma
    let max_iters : Int := min (max max_iterations 1) 1000
    ransacLoop ext pts_prev pts_next threshold max_iters max_iters.toNat 0
      { inliers := List.replicate pts_prev.length 0, max_inliers := 0, niters := max_iters,
        rng := rng }

/-- The function `Fundamental::runRANSAC`: `max_inliers`, the matrix `F`, the
mask `inliers` and the number of `Rand` calls made; `none` when an assertion
fails, that of `runRANSAC` or that of `run8point` in the final fit on the inliers. -/
def runRANSAC (ext : Externals) (pts_prev pts_next : List Point2f) (sigma : ℚ)
    (max_iterations : Int) (rng : Nat) : Option (Int × Mat × List Nat × Nat) :=
  match ransacBest ext pts_prev pts_next sigma max_iterations rng with
  | none => none
  | some st =>
    match run8point ext (selectByMask st.inliers pts_prev) (selectByMask st.inliers pts_next) with
    | none => none
    | some F => some (st.max_inliers, F, st.inliers, st.rng)

/-- The count of the spec: the number of correspondences whose symmetric
epipolar squared distance `max(err1, err2)` under the matrix `F` is below the
threshold, by the test of the scoring loop. -/
def inlierCountUnder (ext : Externals) (F : Mat) (threshold : ℚ) (pts_prev pts_next : List Point2f) :
    Nat :=
  ((List.range pts_prev.length).filter (fun n =>
    errorBelow ext F threshold (pts_prev.getD n (0, 0)) (pts_next.getD n (0, 0)))).length

/-- The function `Fundamental::findFundamentalMat`; `none` when the two point
vectors differ in length (its assertion) or `runRANSAC` fails. -/
def findFundamentalMat (ext : Externals) (pts_prev pts_next : List Point2f) (sigma : ℚ)
    (max_iterations : Int) (rng : Nat) : Option (Int × Mat × List Nat × Nat) :=
  if pts_prev.length ≠ pts_next.length then none
  else runRANSAC ext pts_prev pts_next sigma max_iterations rng

/-- The function `Fundamental::decomposeEssentialMat`: `R1`, `R2` and `t`. -/
def decomposeEssentialMat (ext : Externals) (E : Mat) : Mat × Mat × List ℚ :=
  let d := ext.svd E
  let U := if determinant d.2.1 < 0 then Mat.scale (-1) d.2.1 else d.2.1
  let Vt := if determinant d.2.2 < 0 then Mat.scale (-1) d.2.2 else d.2.2
  let W : Mat := [[0, 1, 0], [-1, 0, 0], [0, 0, 1]]
  let t := U.col 2
  ((U.mul W).mul Vt, (U.mul W.t).mul Vt, t.map (fun x => x / ext.sqrt (dot t t)))

/-! ## `Initializer::triangulate`, `findBestRT` -/

/-- The function `Initializer::triangulate` for one correspondence (the Eigen
variant): the last column of `V`, divided by its last entry. -/
def triangulatePoint (ext : Externals) (P1 P2 : Mat) (pt1 pt2 : Point2f) : List ℚ :=
  let rowOf := fun (c : ℚ) (P : Mat) (i : Nat) =>
    List.zipWith (fun x y => c * x - y) (P.row 2) (P.row i)
  let A : Mat := [rowOf pt1.1 P1 0, rowOf pt1.2 P1 1, rowOf pt2.1 P2 0, rowOf pt2.2 P2 1]
  let P3D := (ext.jacobiV A).col 3
  P3D.map (fun x => x / vecAt P3D 3)

/-- The function `Initializer::triangulate` for all correspondences (the variant
that is compiled): the columns of the `4 x n` matrix `P3D`, zero where the mask
is not set; `none` when an assertion fails. -/
def triangulate (ext : Externals) (P1 P2 : Mat) (pts1 pts2 : List Point2f) (mask : List Nat) :
    Option (List (List ℚ)) :=
  if pts1.length ≠ pts2.length ∨ mask.length ≠ pts1.length then none
  else some ((List.range pts1.length).map (fun i =>
    if mask.getD i 0 != 0 then
      triangulatePoint ext P1 P2 (pts1.getD i (0, 0)) (pts2.getD i (0, 0))
    else [0, 0, 0, 0]))

/-- The byte of a comparison mask of OpenCV. -/
def cmpByte (b : Bool) : Nat := if b then 255 else 0

/-- The constant `max_dist` of `findBestRT`. -/
def max_dist : ℚ := 50

/-- The cheirality test of `findBestRT` for one hypothesis `P`: the mask, and the
points `P * P3Ds` (one column per correspondence). -/
def cheirality (P : Mat) (mask : List Nat) (P3Ds : List (List ℚ)) :
    List Nat × List (List ℚ) :=
  let projected := P3Ds.map (fun X => P.mulVec X)
  ((List.range mask.length).map (fun i =>
      let z := vecAt (P3Ds.getD i []) 2
      let z' := vecAt (projected.getD i []) 2
      ((mask.getD i 0 &&& (cmpByte (decide (z > 0)) &&& cmpByte (decide (z < max_dist))))
        &&& (cmpByte (decide (z' > 0)) &&& cmpByte (decide (z' < max_dist))))),
    projected)

/-- The matrix `T` after `T.rowRange(0,3).col(3) = v` for a matrix expression `v`:
the data of the expression is copied into the last column. -/
def setLastCol (T : Mat) (v : List ℚ) : Mat :=
  (List.range 3).map (fun i => (T.row i).take 3 ++ [vecAt v i])

/-- The function `Initializer::findBestRT`: whether it succeeded, the mask, `P3Ds`
(one column per correspondence) and `T`; `none` when an assertion fails. On
failure the mask is the input mask, `P3Ds` and `T` stay empty.

`T` starts as the fresh allocation `cv::Mat(3, 4, type)`. The statements
`T.rowRange(0,3).colRange(0,3) = R1.clone()` and `T.rowRange(0,3).col(3) = t`
assign a `cv::Mat` to a temporary header: that rebinds the header and leaves the
data of `T` alone. Only `T.rowRange(0,3).col(3) = t * -1.0`, the assignment of a
matrix expression, writes into `T`. -/
def findBestRT (ext : Externals) (R1 R2 : Mat) (t : List ℚ) (K1 K2 : Mat)
    (pts1 pts2 : List Point2f) (mask : List Nat) :
    Option (Bool × List Nat × List (List ℚ) × Mat) :=
  if pts1.length ≠ pts2.length then none
  else
    let mask := if mask.isEmpty then List.replicate pts1.length 255 else mask
    let P0 : Mat := (List.range 3).map (fun i => (K1.row i).take 3 ++ [0])
    let P1 := K2.mul (hconcat R1 t)
    let P2 := K2.mul (hconcat R2 t)
    let P3 := K2.mul (hconcat R1 (t.map (fun x => x * -1)))
    let P4 := K2.mul (hconcat R2 (t.map (fun x => x * -1)))
    match triangulate ext P0 P1 pts1 pts2 mask, triangulate ext P0 P2 pts1 pts2 mask,
          triangulate ext P0 P3 pts1 pts2 mask, triangulate ext P0 P4 pts1 pts2 mask with
    | some X1, some X2, some X3, some X4 =>
      let c1 := cheirality P1 mask X1
      let c2 := cheirality P2 mask X2
      let c3 := cheirality P3 mask X3
      let c4 := cheirality P4 mask X4
      let nGood0 := countNonZero mask
      let nGood1 := countNonZero c1.1
      let nGood2 := countNonZero c2.1
      let nGood3 := countNonZero c3.1
      let nGood4 := countNonZero c4.1
      let maxGood := max (max nGood1 nGood2) (max nGood3 nGood4)
      let T := ext.freshMat34
      if (maxGood : ℚ) < 9 / 10 * (nGood0 : ℚ) then some (false, mask, [], [])
      else if maxGood = nGood1 then some (true, c1.1, c1.2, T)
      else if maxGood = nGood2 then some (true, c2.1, c2.2, T)
      else if maxGood = nGood3 then some (true, c3.1, c3.2, setLastCol T (t.map (fun x => x * -1)))
      else if maxGood = nGood4 then some (true, c4.1, c4.2, setLastCol T (t.map (fun x => x * -1)))
      else some (true, mask, [], T)
    | _, _, _, _ => none

/-- The matrix `P0 = K1 [I | 0]` of `findBestRT`: the camera of the reference
frame. -/
def refProjection (K1 : Mat) : Mat := (List.range 3).map (fun i => (K1.row i).take 3 ++ [0])

/-- The matrix `K2 [R | t]` of a hypothesis of `findBestRT`: the camera of the
current frame. -/
def curProjection (K2 R : Mat) (t : List ℚ) : Mat := K2.mul (hconcat R t)

/-- The mask that `findBestRT` works on: an empty input mask stands for the mask
with all entries set. -/
def effectiveMask (mask : List Nat) (n : Nat) : List Nat :=
  if mask.isEmpty then List.replicate n 255 else mask

/-- The mask of the cheirality test of the hypothesis `(R, s)` of `findBestRT`,
empty when `triangulate` fails. -/
def acceptedMask (ext : Externals) (K1 K2 R : Mat) (s : List ℚ) (pts1 pts2 : List Point2f)
    (mask : List Nat) : List Nat :=
  match triangulate ext (refProjection K1) (curProjection K2 R s) pts1 pts2 mask with
  | some X => (cheirality (curProjection K2 R s) mask X).1
  | none => []

/-! ## `Initializer::addSecondFrame`, `getTrackedPoints` -/

/-- The disparity gate of `addSecondFrame`: the disparities are added up one
after the other, the sum is divided by their number and the result is compared
with the threshold, all in `double` arithmetic. The mean of no value is
`0.0 / 0`, not a number, which is below nothing. -/
def disparityGate (disparities : List ℚ) (initMinDisparity : ℚ) : Bool :=
  let disparity :=
    disparities.foldl (fun acc d => Fp.add acc (roundDouble d)) (Fp.finite 0)
  Fp.lt (Fp.div disparity (roundDouble (disparities.length : ℚ))) (roundDouble initMinDisparity)

/-- The indices below `n` whose mask entry is set, in increasing order. -/
def inlierIndices (mask : List Nat) (n : Nat) : List Nat :=
  (List.range n).filter (fun i => mask.getD i 0 != 0)

/-- The point `Vector3f(P3Ds(0, i), P3Ds(1, i), P3Ds(2, i))` of column `i`. -/
def point3 (P3Ds : List (List ℚ)) (i : Nat) : ℚ × ℚ × ℚ :=
  (vecAt (P3Ds.getD i []) 0, vecAt (P3Ds.getD i []) 1, vecAt (P3Ds.getD i []) 2)

/-- One round of the compaction loop of `addSecondFrame`: the state is the local
`pts_ref`, `pts_cur` and the member `p3ds_`. -/
def compactStep (pts_ref_ pts_cur_ : List Point2f) (inliers : List Nat) (P3Ds : List (List ℚ))
    (acc : List Point2f × List Point2f × List (ℚ × ℚ × ℚ)) (i : Nat) :
    List Point2f × List Point2f × List (ℚ × ℚ × ℚ) :=
  if inliers.getD i 0 = 0 then acc
  else
    (acc.1 ++ [pts_ref_.getD i (0, 0)], acc.2.1 ++ [pts_cur_.getD i (0, 0)],
      acc.2.2 ++ [point3 P3Ds i])

/-- The members after the first statements of `addSecondFrame`: `frame_cur_` is
set, `kltTrack` has run with the result `klt` and `inliers_` is the all-ones mask
of the survivors. -/
def afterKlt (s : Initializer) (frame_cur : Frame) (klt : List Point2f × List Point2f × List ℚ) :
    Initializer :=
  { s with frame_cur_ := some frame_cur, pts_ref_ := klt.1, pts_cur_ := klt.2.1,
           disparities_ := klt.2.2, inliers_ := List.replicate klt.1.length 1 }

/-- The compaction loop at the end of `addSecondFrame`: `pts_ref_` and `pts_cur_`
are replaced by the local vectors, `p3ds_` is appended to. -/
def compactInliers (s : Initializer) (P3Ds : List (List ℚ)) : Initializer :=
  let c := (List.range s.pts_ref_.length).foldl
    (compactStep s.pts_ref_ s.pts_cur_ s.inliers_ P3Ds) ([], [], s.p3ds_)
  { s with pts_ref_ := c.1, pts_cur_ := c.2.1, p3ds_ := c.2.2 }

/-- The part of `addSecondFrame` after the fundamental matrix `F` has passed the
inlier gate: decomposition of the essential matrix, `findBestRT`, compaction. -/
def cheiralityStage (ext : Externals) (frame_ref frame_cur : Frame) (s : Initializer) (F : Mat) :
    Option (InitResult × Initializer) :=
  let K1 := frame_ref.cvK
  let K2 := frame_cur.cvK
  let E := (K1.t.mul F).mul K2
  let d := decomposeEssentialMat ext E
  match findBestRT ext d.1 d.2.1 d.2.2 K1 K2 s.pts_ref_ s.pts_cur_ s.inliers_ with
  | none => none
  | some rt =>
    if !rt.1 then some (InitResult.FAILURE, { s with inliers_ := rt.2.1 })
    else some (InitResult.SUCCESS, compactInliers { s with inliers_ := rt.2.1 } rt.2.2.1)

/-- The part of `addSecondFrame` after the disparity gate: `findFundamentalMat`,
the inlier gate and the cheirality stage. -/
def geometryStage (ext : Externals) (cfg : Config) (frame_ref frame_cur : Frame)
    (s : Initializer) : Option (InitResult × Initializer) :=
  match findFundamentalMat ext s.pts_ref_ s.pts_cur_ cfg.initSigma cfg.initMaxRansacIters
      s.rng with
  | none => none
  | some fm =>
    if fm.1 < cfg.initMinInliers then
      some (InitResult.FAILURE, { s with inliers_ := fm.2.2.1, rng := fm.2.2.2 })
    else
      cheiralityStage ext frame_ref frame_cur
        { s with inliers_ := fm.2.2.1, rng := fm.2.2.2 } fm.2.1

/-- The function `Initializer::addSecondFrame`: the result and the members after
the call; `none` when `frame_ref_` is null or an assertion fails on the way. -/
def addSecondFrame (ext : Externals) (cfg : Config) (s : Initializer) (frame_cur : Frame) :
    Option (InitResult × Initializer) :=
  match s.frame_ref_ with
  | none => none
  | some frame_ref =>
    match kltTrack ext frame_ref.img frame_cur.img s.pts_ref_ s.pts_cur_ with
    | none => none
    | some klt =>
      if klt.2.2.length < cfg.initMinTracked then some (InitResult.RESET, afterKlt s frame_cur klt)
      else if disparityGate klt.2.2 cfg.initMinDisparity then
        some (InitResult.FAILURE, afterKlt s frame_cur klt)
      else geometryStage ext cfg frame_ref frame_cur (afterKlt s frame_cur klt)

/-- The function `Initializer::getTrackedPoints`: the two output vectors after
the call; `none` when the loop reads `inliers_` past its end. -/
def getTrackedPoints (s : Initializer) (pts_ref pts_cur : List Point2f) :
    Option (List Point2f × List Point2f) :=
  if s.inliers_.length < s.pts_ref_.length then none
  else some ((List.range s.pts_ref_.length).foldl (fun acc i =>
    if s.inliers_.getD i 0 = 0 then acc
    else (acc.1 ++ [s.pts_ref_.getD i (0, 0)], acc.2 ++ [s.pts_cur_.getD i (0, 0)]))
    (pts_ref, pts_cur))

/-- A sequence of `addSecondFrame` calls, one per frame: the result of the last
call (`none` before the first call) and the members after it; `none` when one of
the calls does not return. -/
def addSecondFrames (ext : Externals) (cfg : Config) :
    Option InitResult × Initializer → List Frame → Option (Option InitResult × Initializer)
  | st, [] => some st
  | st, f :: fs =>
    match addSecondFrame ext cfg st.2 f with
    | none => none
    | some r => addSecondFrames ext cfg (some r.1, r.2) fs

/-- A freshly constructed `Initializer`. -/
def Initializer.init : Initializer :=
  { frame_ref_ := none, frame_cur_ := none, pts_ref_ := [], pts_cur_ := [], p3ds_ := [],
    disparities_ := [], inliers_ := [], rng := 0 }

/-! ## Example inputs -/

/-- An example heap: fresh keyframes without observations; the keyframe behind
pointer `p` has id `p`. -/
def exampleWorld : World :=
  freshWorld (fun _ => []) (fun _ => { isBad_ := false, obs_ := [] })

/-- A feature at the origin observing map-point `m`, stored under `m`. -/
def featureOf (m : Nat) : Nat × Feature := (m, { px_ := (0, 0), mpt_ := m })

/-- An example heap with map-points: keyframe 3 observes the map-points 0 to 4,
all of them also seen by keyframe 1 and the first three by keyframe 2. -/
def covisWorld : World :=
  freshWorld
    (fun p => if p = 3 then (List.range 5).map featureOf else
              if p = 1 then (List.range 5).map featureOf else
              if p = 2 then (List.range 3).map featureOf else [])
    (fun m => if m < 3 then { isBad_ := false, obs_ := [1, 2, 3] }
              else if m < 5 then { isBad_ := false, obs_ := [1, 3] }
              else { isBad_ := false, obs_ := [] })

/-- An example graph: keyframe 1 is linked with keyframe 2, which is also linked
with the keyframes 3 and 4. -/
def ringWorld : World :=
  runOps 10 exampleWorld
    [.addConnection 1 2 5, .addConnection 2 1 5, .addConnection 2 3 4, .addConnection 3 2 4,
     .addConnection 2 4 3, .addConnection 4 2 3]

/-- An example graph: the first ring of keyframe 1 is `2, 3`; keyframe 2 is also
linked with `4, 5, 6` and keyframe 3 with `4, 5`. -/
def ringWorld2 : World :=
  runOps 10 exampleWorld
    [.addConnection 1 2 9, .addConnection 2 1 9, .addConnection 1 3 8, .addConnection 3 1 8,
     .addConnection 2 4 7, .addConnection 4 2 7, .addConnection 2 5 6, .addConnection 5 2 6,
     .addConnection 2 6 5, .addConnection 6 2 5,
     .addConnection 3 4 4, .addConnection 4 3 4, .addConnection 3 5 3, .addConnection 5 3 3]

/-- The heap of the covisibility scenario: three fresh keyframes `A = 1`,
`B = 2`, `C = 3`; the map-points 0 to 29 are seen by `A` and `B`, 30 to 34 by `A`
and `C`, 35 to 54 by `B` and `C`. -/
def triWorld : World :=
  freshWorld
    (fun p => if p = 1 then (List.range 35).map featureOf
              else if p = 2 then
                (List.range 30 ++ (List.range 20).map (fun i => i + 35)).map featureOf
              else if p = 3 then ((List.range 25).map (fun i => i + 30)).map featureOf
              else [])
    (fun m => if m < 30 then { isBad_ := false, obs_ := [1, 2] }
              else if m < 35 then { isBad_ := false, obs_ := [1, 3] }
              else if m < 55 then { isBad_ := false, obs_ := [2, 3] }
              else { isBad_ := false, obs_ := [] })

/-- The parents of the three keyframes of the scenario. -/
def triParents (w : World) : Option Nat × Option Nat × Option Nat :=
  ((w.kfs 1).getParent, (w.kfs 2).getParent, (w.kfs 3).getParent)

/-- The heap of the scenario after the three keyframes have called
`updateConnections` in the given order, with threshold 10. -/
def triAfter (order : List Nat) : World :=
  runOps 10 triWorld (order.map GraphOp.updateConnections)

/-- An example keyframe with two features in `featuresInBow`, at `(3, 4)` and at
`(1, 1)`. -/
def bowKeyFrame : KeyFrame :=
  { KeyFrame.fresh 1 [] with
    featuresInBow := [{ px_ := (3, 4), mpt_ := 0 }, { px_ := (1, 1), mpt_ := 1 }] }

/-- Example values for the numeric routines, exact on the inputs of the example
run below: every point but the one at index 1 moves by one pixel along `x`, the
point at index 1 by five pixels along `y`; `Rand` draws index 0 each time; the
null vector of the design matrix and the factors of the singular value
decomposition are those of a translation along `x`; the triangulated point of a
correspondence at `(u, v)` is `(u, v, 1)`. -/
def exampleExternals : Externals :=
  { calcOpticalFlowPyrLK := fun _ _ pts_ref _ i =>
      if i = 1 then (((pts_ref.getD i (0, 0)).1, (pts_ref.getD i (0, 0)).2 + 5), 1)
      else (((pts_ref.getD i (0, 0)).1 + 1, (pts_ref.getD i (0, 0)).2), 1)
    sqrt := fun x => if x = 25 then 5 else if x = 1 then 1 else 0
    log := fun x => if x = 1 / 100 then -4605 / 1000 else -563 / 1000
    rand := fun _ => 0
    eigen := fun _ => List.replicate 8 (List.replicate 9 0) ++ [[0, 0, 0, 0, 0, -1, 0, 1, 0]]
    svd := fun _ => ([1, 1, 0], [[0, 0, 1], [1, 0, 0], [0, 1, 0]], [[0, 0, -1], [0, 1, 0], [1, 0, 0]])
    jacobiV := fun A => [[0, 0, 0, A.entry 0 2], [0, 0, 0, A.entry 1 2], [0, 0, 0, 1], [0, 0, 0, 1]]
    freshMat34 := [[0, 0, 0, 0], [0, 0, 0, 0], [0, 0, 0, 0]]
    maxOfOpenCV := true }

/-- An example keyframe with one feature in `featuresInBow`, at the `double`
values nearest to `0.28` and `0.96`. -/
def roundedKeyFrame : KeyFrame :=
  { KeyFrame.fresh 1 [] with
    featuresInBow :=
      [{ px_ := (1261007895663739 / 4503599627370496, 1080863910568919 / 1125899906842624),
         mpt_ := 0 }] }

/-- The correspondences of a scene with noise, first image. In both images the
points lie around `(20, 20)`, resp. `(22, 20)`: the first eight have the same
`y` in both images, the next two also, the two after them are shifted by 3
pixels along `y` and the last one by 5 pixels, while the shift along `x` is 2
pixels up to one pixel. -/
def noisyPrev : List Point2f :=
  [(6, 5), (6, 35), (34, 5), (34, 35), (5, 32), (35, 8), (35, 32), (20, 21), (5, 8), (20, 19),
   (20, 18), (20, 22), (25, 23)]

/-- The correspondences of the scene with noise, second image. -/
def noisyNext : List Point2f :=
  [(7, 5), (7, 35), (37, 5), (37, 35), (8, 32), (36, 8), (36, 32), (22, 21), (8, 8), (22, 19),
   (22, 15), (22, 25), (27, 28)]

/-- The numeric routines `ext` with the values of `Rand`, `cv::eigen` and
`cv::SVDecomp` for the scene with noise: `Rand` draws the indices 0 to 7;
`cv::eigen` returns, in the last row, the vector that stands for `v2 - v1 = 0`
for a system of eight correspondences (entry `(8, 8)` of the system is the
number of points) and the vector that stands for `u2 - u1 = 0` otherwise, both
up to the scale; `cv::SVDecomp` returns the factors of these two matrices. The
rows of `cv::eigen` above the last one are not read. -/
def noisyRoutines (ext : Externals) : Externals :=
  { ext with
    rand := fun k => if k < 7 then k else 5
    eigen := fun M => List.replicate 8 (List.replicate 9 0) ++
      [if M.entry 8 8 = 8 then [0, 0, 0, 0, 0, 1, 0, -1, 0] else [0, 0, 1, 0, 0, 0, -1, 0, 0]]
    svd := fun P =>
      if P.entry 0 2 = 0 then
        ([1, 1, 0], [[0, 0, 1], [1, 0, 0], [0, 1, 0]], [[0, 0, 1], [0, -1, 0], [1, 0, 0]])
      else ([1, 1, 0], [[1, 0, 0], [0, 0, 1], [0, 1, 0]], [[0, 0, 1], [-1, 0, 0], [0, 1, 0]]) }

/-- Example values for the optical flow: every point moves by one pixel along
`x`, and only the point at index 2 is tracked with success. -/
def lostTrackExternals : Externals :=
  { exampleExternals with
    calcOpticalFlowPyrLK := fun _ _ pts_ref _ i =>
      (((pts_ref.getD i (0, 0)).1 + 1, (pts_ref.getD i (0, 0)).2), if i = 2 then 1 else 0) }

/-- The pairs of the spec: the input pairs whose status flag is set, in index
order. -/
def trackedPairs (ext : Externals) (img_ref img_cur : Nat) (pts_ref pts_cur : List Point2f) :
    List (Point2f × Point2f) :=
  ((List.range pts_ref.length).filter
    (fun i => (ext.calcOpticalFlowPyrLK img_ref img_cur pts_ref pts_cur i).2 != 0)).map
    (fun i => (pts_ref.getD i (0, 0),
      (ext.calcOpticalFlowPyrLK img_ref img_cur pts_ref pts_cur i).1))

/-- Example values where a new `cv::Mat(3, 4, type)` holds the value 7 in every
entry. -/
def staleMemoryExternals : Externals :=
  { exampleExternals with
    freshMat34 := [[7, 7, 7, 7], [7, 7, 7, 7], [7, 7, 7, 7]] }

/-- Example options: at least 8 corners, tracked points and inliers, a mean
disparity of half a pixel, `sigma = 1`, one RANSAC iteration. -/
def exampleConfig : Config :=
  { initMinCorners := 8, initMinTracked := 8, initMinDisparity := 1 / 2, initSigma := 1,
    initMinInliers := 8, initMaxRansacIters := 1 }

/-- The example options with `sigma = 0`. -/
def zeroSigmaConfig : Config := { exampleConfig with initSigma := 0 }

/-- The numeric routines `ext` with the optical flow and the square root of the
example values: the other routines are left as they are. -/
def exampleFlow (ext : Externals) : Externals :=
  { ext with
    calcOpticalFlowPyrLK := exampleExternals.calcOpticalFlowPyrLK
    sqrt := exampleExternals.sqrt }

/-- An example frame: ten key-points at `(i, i * i mod 7)`, identity intrinsics. -/
def exampleFrame : Frame :=
  { kps_ := (List.range 10).map (fun i => { pt := (Nat.cast i, Nat.cast (i * i % 7)) }),
    img := 0, cvK := [[1, 0, 0], [0, 1, 0], [0, 0, 1]] }

/-- The initializer after `addFirstFrame` on the example frame. -/
def exampleFirst : Initializer := (addFirstFrame exampleConfig Initializer.init exampleFrame).2

/-- The initializer after `addFirstFrame` and one `addSecondFrame` on the example
frame, when that call returns. -/
def exampleSecond : Option (InitResult × Initializer) :=
  addSecondFrame exampleExternals exampleConfig exampleFirst exampleFrame

/-- The correspondences of the example that survive `kltTrack`, with their
disparities. -/
def exampleKlt : List Point2f × List Point2f × List ℚ :=
  ([(0, 0), (1, 1), (2, 4), (3, 2), (4, 2), (5, 4), (6, 1), (7, 0), (8, 1), (9, 4)],
   [(1, 0), (1, 6), (3, 4), (4, 2), (5, 2), (6, 4), (7, 1), (8, 0), (9, 1), (10, 4)],
   [1, 5, 1, 1, 1, 1, 1, 1, 1, 1])

/-! # Theorems -/

/-! ## Lemmas on the containers -/

theorem mapContains_eq_false_iff {V : Type} (m : List (Nat × V)) (k : Nat) :
    mapContains m k = false ↔ ∀ e ∈ m, e.1 ≠ k := by
  simp [mapContains]

theorem mapContains_mapErase {V : Type} (m : List (Nat × V)) (k : Nat) :
    mapContains (mapErase m k) k = false := by
  simp [mapContains, mapErase]

theorem updateOrderedConnections_connected (kf : KeyFrame) :
    kf.updateOrderedConnections.connectedKeyFrames_ = kf.connectedKeyFrames_ := rfl

theorem removeConnection_not_contains (kf : KeyFrame) (a : Nat) :
    mapContains (kf.removeConnection a).connectedKeyFrames_ a = false := by
  unfold KeyFrame.removeConnection
  by_cases h : mapContains kf.connectedKeyFrames_ a = true
  · simp [h, updateOrderedConnections_connected, mapContains_mapErase]
  · simp only [h, Bool.false_eq_true, if_false, updateOrderedConnections_connected]

/-! ## `setBad` -/

theorem removeFromNeighbours_keeps_absent (a : Nat) (l : List (Nat × Int)) :
    ∀ (w : World) (b : Nat), mapContains (w.kfs b).connectedKeyFrames_ a = false →
      mapContains ((removeFromNeighbours a w l).kfs b).connectedKeyFrames_ a = false := by
  induction l with
  | nil => intro w b h; exact h
  | cons c t ih =>
    intro w b h
    simp only [removeFromNeighbours, List.foldl_cons]
    apply ih
    simp only [World.setKF]
    split
    · exact removeConnection_not_contains _ a
    · exact h

theorem removeFromNeighbours_removes (a : Nat) (l : List (Nat × Int)) :
    ∀ (w : World) (b : Nat), mapContains l b = true →
      mapContains ((removeFromNeighbours a w l).kfs b).connectedKeyFrames_ a = false := by
  induction l with
  | nil => intro w b h; simp [mapContains] at h
  | cons c t ih =>
    intro w b h
    simp only [removeFromNeighbours, List.foldl_cons]
    by_cases hc : c.1 = b
    · apply removeFromNeighbours_keeps_absent
      simp only [World.setKF, hc, if_true]
      exact removeConnection_not_contains _ a
    · apply ih
      simp only [mapContains, List.any_cons, Bool.or_eq_true, beq_iff_eq] at h
      rcases h with h | h
      · exact absurd h hc
      · exact h

theorem removeObservations_kfs (a : Nat) (l : List (Nat × Feature)) :
    ∀ w : World, (removeObservations a w l).kfs = w.kfs := by
  induction l with
  | nil => intro w; rfl
  | cons c t ih => intro w; simp only [removeObservations, List.foldl_cons]; exact ih _

/-- C2 (as amended): when `A` is not the first keyframe (`id_ ≠ 0`) and is not
protected (`notErase` is false), then after `A.setBad()` no keyframe `B` that was a
key of `A`'s connected map has an entry for `A` in its own connected map. -/
theorem C2_setBad_severs_back_edges (w : World) (a b : Nat)
    (hid : (w.kfs a).id_ ≠ 0) (hne : (w.kfs a).notErase = false)
    (hb : mapContains (w.kfs a).connectedKeyFrames_ b = true) :
    mapContains ((setBad w a).kfs b).connectedKeyFrames_ a = false := by
  simp only [setBad, hid, hne, if_false, Bool.false_eq_true]
  simp only [World.setKF]
  split
  · simp [mapContains]
  · apply removeFromNeighbours_removes
    simpa [removeObservations_kfs] using hb

/-- C2, the claim as stated fails: the first keyframe (id 0) is connected to
keyframe 1 in both directions; `setBad` on it returns at once and keyframe 1 still
holds its entry for keyframe 0. -/
theorem C2_counterexample :
    let w := runOps 10 exampleWorld [.addConnection 0 1 5, .addConnection 1 0 5]
    mapContains (w.kfs 0).connectedKeyFrames_ 1 = true ∧
    mapContains ((setBad w 0).kfs 1).connectedKeyFrames_ 0 = true := by
  decide

/-- C2, witness: keyframe 1 (id 1, not protected) is connected to keyframe 2 in
both directions; after `setBad` on it keyframe 2 has no entry for keyframe 1. -/
theorem C2_witness :
    let w := runOps 10 exampleWorld [.addConnection 1 2 5, .addConnection 2 1 5]
    (w.kfs 1).id_ ≠ 0 ∧ (w.kfs 1).notErase = false ∧
    mapContains (w.kfs 1).connectedKeyFrames_ 2 = true ∧
    mapContains (w.kfs 2).connectedKeyFrames_ 1 = true ∧
    mapContains ((setBad w 1).kfs 2).connectedKeyFrames_ 1 = false :=
  ⟨by decide, by decide, by decide, by decide,
    C2_setBad_severs_back_edges _ 1 2 (by decide) (by decide) (by decide)⟩

/-! ## Loop edges -/

theorem setBad_of_notErase (w : World) (a : Nat) (h : (w.kfs a).notErase = true) :
    (setBad w a).mpts = w.mpts ∧
    (∀ b, b ≠ a → (setBad w a).kfs b = w.kfs b) ∧
    ((setBad w a).kfs a = w.kfs a ∨ (setBad w a).kfs a = { w.kfs a with toBeErase := true }) := by
  unfold setBad
  by_cases hid : (w.kfs a).id_ = 0
  · simp [hid]
  · simp only [hid, if_false, h, if_true]
    refine ⟨rfl, ?_, ?_⟩
    · intro b hb; simp [World.setKF, hb]
    · right; simp [World.setKF]

theorem setBadTimes_of_notErase (a : Nat) (n : Nat) :
    ∀ w : World, (w.kfs a).notErase = true →
      (setBadTimes a n w).mpts = w.mpts ∧
      (∀ b, b ≠ a → (setBadTimes a n w).kfs b = w.kfs b) ∧
      ((setBadTimes a n w).kfs a = w.kfs a ∨
        (setBadTimes a n w).kfs a = { w.kfs a with toBeErase := true }) := by
  induction n with
  | zero => intro w _; exact ⟨rfl, fun _ _ => rfl, Or.inl rfl⟩
  | succ n ih =>
    intro w h
    obtain ⟨h1, h2, h3⟩ := setBad_of_notErase w a h
    have hne : ((setBad w a).kfs a).notErase = true := by
      rcases h3 with h3 | h3 <;> rw [h3] <;> exact h
    obtain ⟨i1, i2, i3⟩ := ih (setBad w a) hne
    simp only [setBadTimes]
    refine ⟨i1.trans h1, fun b hb => (i2 b hb).trans (h2 b hb), ?_⟩
    rcases i3 with i3 | i3 <;> rcases h3 with h3 | h3 <;> rw [i3, h3] <;> simp

theorem setKF_other (w : World) (p q : Nat) (kf : KeyFrame) (h : ¬ q = p) :
    (w.setKF p kf).kfs q = w.kfs q := by
  simp [World.setKF, h]

theorem removeConnection_keeps (kf : KeyFrame) (k : Nat) :
    (kf.removeConnection k).isBad_ = kf.isBad_ ∧
    (kf.removeConnection k).mpt_fts_ = kf.mpt_fts_ ∧
    (kf.removeConnection k).notErase = kf.notErase ∧
    (kf.removeConnection k).id_ = kf.id_ ∧
    (∀ e ∈ kf.connectedKeyFrames_, e.1 ≠ k → e ∈ (kf.removeConnection k).connectedKeyFrames_) := by
  unfold KeyFrame.removeConnection
  refine ⟨?_, ?_, ?_, ?_, ?_⟩
  · split <;> rfl
  · split <;> rfl
  · split <;> rfl
  · split <;> rfl
  · intro e he hk
    rw [updateOrderedConnections_connected]
    split
    · simp only [mapErase, List.mem_filter, bne_iff_ne, ne_eq]
      exact ⟨he, hk⟩
    · exact he

theorem removeFromNeighbours_keeps (k a : Nat) (l : List (Nat × Int)) :
    ∀ w : World,
      ((removeFromNeighbours k w l).kfs a).isBad_ = (w.kfs a).isBad_ ∧
      ((removeFromNeighbours k w l).kfs a).mpt_fts_ = (w.kfs a).mpt_fts_ ∧
      ((removeFromNeighbours k w l).kfs a).notErase = (w.kfs a).notErase ∧
      ((removeFromNeighbours k w l).kfs a).id_ = (w.kfs a).id_ ∧
      (∀ e ∈ (w.kfs a).connectedKeyFrames_, e.1 ≠ k →
        e ∈ ((removeFromNeighbours k w l).kfs a).connectedKeyFrames_) := by
  induction l with
  | nil => intro w; exact ⟨rfl, rfl, rfl, rfl, fun _ he _ => he⟩
  | cons c t ih =>
    intro w
    simp only [removeFromNeighbours, List.foldl_cons]
    obtain ⟨i1, i2, i3, i4, i5⟩ :=
      ih (w.setKF c.1 ((w.kfs c.1).removeConnection k))
    have hstep : ((w.setKF c.1 ((w.kfs c.1).removeConnection k)).kfs a).isBad_ = (w.kfs a).isBad_ ∧
        ((w.setKF c.1 ((w.kfs c.1).removeConnection k)).kfs a).mpt_fts_ = (w.kfs a).mpt_fts_ ∧
        ((w.setKF c.1 ((w.kfs c.1).removeConnection k)).kfs a).notErase = (w.kfs a).notErase ∧
        ((w.setKF c.1 ((w.kfs c.1).removeConnection k)).kfs a).id_ = (w.kfs a).id_ ∧
        (∀ e ∈ (w.kfs a).connectedKeyFrames_, e.1 ≠ k →
          e ∈ ((w.setKF c.1 ((w.kfs c.1).removeConnection k)).kfs a).connectedKeyFrames_) := by
      by_cases hac : a = c.1
      · have hk : (w.setKF c.1 ((w.kfs c.1).removeConnection k)).kfs a =
            (w.kfs a).removeConnection k := by
          subst hac; simp [World.setKF]
        rw [hk]
        exact removeConnection_keeps _ _
      · rw [setKF_other w c.1 a _ hac]
        exact ⟨rfl, rfl, rfl, rfl, fun _ he _ => he⟩
    obtain ⟨s1, s2, s3, s4, s5⟩ := hstep
    exact ⟨i1.trans s1, i2.trans s2, i3.trans s3, i4.trans s4,
      fun e he hk => i5 e (s5 e he hk) hk⟩

theorem setBad_full (w : World) (k : Nat) (h1 : ¬ (w.kfs k).id_ = 0)
    (h2 : ¬ (w.kfs k).notErase = true) :
    ∃ (W : World) (l : List (Nat × Int)) (kf' : KeyFrame),
      setBad w k = (removeFromNeighbours k W l).setKF k kf' ∧
      ∀ a, ¬ a = k → W.kfs a = w.kfs a := by
  unfold setBad
  rw [if_neg h1, if_neg h2]
  refine ⟨_, _, _, rfl, fun a ha => ?_⟩
  rw [setKF_other _ k a _ ha, removeObservations_kfs]

theorem setBad_keeps_protected (w : World) (a k : Nat) (hne : (w.kfs a).notErase = true) :
    ((setBad w k).kfs a).isBad_ = (w.kfs a).isBad_ ∧
    ((setBad w k).kfs a).mpt_fts_ = (w.kfs a).mpt_fts_ ∧
    ((setBad w k).kfs a).notErase = true ∧
    (∀ e ∈ (w.kfs a).connectedKeyFrames_, e.1 ≠ k →
      e ∈ ((setBad w k).kfs a).connectedKeyFrames_) := by
  by_cases hka : k = a
  · subst hka
    obtain ⟨_, _, h3⟩ := setBad_of_notErase w k hne
    rcases h3 with h3 | h3 <;> rw [h3]
    · exact ⟨rfl, rfl, hne, fun _ he _ => he⟩
    · exact ⟨rfl, rfl, hne, fun _ he _ => he⟩
  · have hak : ¬ a = k := fun e => hka e.symm
    by_cases h1 : (w.kfs k).id_ = 0
    · unfold setBad
      rw [if_pos h1]
      exact ⟨rfl, rfl, hne, fun _ he _ => he⟩
    · by_cases h2 : (w.kfs k).notErase = true
      · unfold setBad
        rw [if_neg h1, if_pos h2, setKF_other w k a _ hak]
        exact ⟨rfl, rfl, hne, fun _ he _ => he⟩
      · obtain ⟨W, l, kf', hW, hWa⟩ := setBad_full w k h1 h2
        rw [hW, setKF_other _ k a _ hak]
        obtain ⟨r1, r2, r3, _, r5⟩ := removeFromNeighbours_keeps k a l W
        rw [hWa a hak] at r1 r2 r3 r5
        exact ⟨r1, r2, r3.trans hne, r5⟩

theorem setBadAll_keeps_protected (a : Nat) (ks : List Nat) :
    ∀ w : World, (w.kfs a).notErase = true →
      ((ks.foldl setBad w).kfs a).isBad_ = (w.kfs a).isBad_ ∧
      ((ks.foldl setBad w).kfs a).mpt_fts_ = (w.kfs a).mpt_fts_ ∧
      (∀ e ∈ (w.kfs a).connectedKeyFrames_, e.1 ∉ ks →
        e ∈ ((ks.foldl setBad w).kfs a).connectedKeyFrames_) := by
  induction ks with
  | nil => intro w _; exact ⟨rfl, rfl, fun _ he _ => he⟩
  | cons k t ih =>
    intro w hne
    simp only [List.foldl_cons]
    obtain ⟨s1, s2, s3, s4⟩ := setBad_keeps_protected w a k hne
    obtain ⟨i1, i2, i3⟩ := ih (setBad w k) s3
    refine ⟨i1.trans s1, i2.trans s2, fun e he hk => ?_⟩
    simp only [List.mem_cons, not_or] at hk
    exact i3 e (s4 e he hk.1) hk.2

/-- C3: after `addLoopEdge(D)` on the keyframe behind `a`, any number `n` of
`setBad` calls on it leaves it alive: `isBad_` is what it was before (so it stays
false on a keyframe that was not bad), its connected map, its ordered view and its
observations `mpt_fts_` are what they were, no map-point lost an observation and
no other keyframe changed. When the `setBad` calls go to any keyframes `ks`
instead, `isBad_` and the observations of `a` are still what they were, and its
connected map keeps every edge that does not lead to a keyframe of `ks`. -/
theorem C3_loop_edge_keeps_alive (w : World) (a D : Nat) (n : Nat) :
    let w1 := w.setKF a ((w.kfs a).addLoopEdge D)
    let w2 := setBadTimes a n w1
    (isBad w2 a = isBad w a ∧
     (w2.kfs a).connectedKeyFrames_ = (w.kfs a).connectedKeyFrames_ ∧
     (w2.kfs a).orderedConnectedKeyFrames_ = (w.kfs a).orderedConnectedKeyFrames_ ∧
     (w2.kfs a).mpt_fts_ = (w.kfs a).mpt_fts_ ∧
     w2.mpts = w.mpts ∧
     ∀ b, b ≠ a → w2.kfs b = w.kfs b) ∧
    ∀ ks : List Nat,
      isBad (ks.foldl setBad w1) a = isBad w a ∧
      ((ks.foldl setBad w1).kfs a).mpt_fts_ = (w.kfs a).mpt_fts_ ∧
      ∀ e ∈ (w.kfs a).connectedKeyFrames_, e.1 ∉ ks →
        e ∈ ((ks.foldl setBad w1).kfs a).connectedKeyFrames_ := by
  intro w1 w2
  have hne : (w1.kfs a).notErase = true := by simp [w1, World.setKF, KeyFrame.addLoopEdge]
  obtain ⟨h1, h2, h3⟩ := setBadTimes_of_notErase a n w1 hne
  have hk : w1.kfs a = (w.kfs a).addLoopEdge D := by simp [w1, World.setKF]
  refine ⟨⟨?_, ?_, ?_, ?_, h1, ?_⟩, ?_⟩
  · rcases h3 with h3 | h3 <;> simp only [isBad, w2, h3, hk] <;> rfl
  · rcases h3 with h3 | h3 <;> simp only [w2, h3, hk] <;> rfl
  · rcases h3 with h3 | h3 <;> simp only [w2, h3, hk] <;> rfl
  · rcases h3 with h3 | h3 <;> simp only [w2, h3, hk] <;> rfl
  · intro b hb
    rw [h2 b hb]
    simp [w1, World.setKF, hb]
  · intro ks
    obtain ⟨g1, g2, g3⟩ := setBadAll_keeps_protected a ks w1 hne
    rw [hk] at g1 g2 g3
    exact ⟨g1, g2, g3⟩

/-! ## The ordered view -/

/-- C1, the invariant fails on reachable states of keyframes that are not bad.
On a fresh keyframe, `getWight(7)` default-inserts `7 -> 0` into the connected map
and leaves the ordered view empty; `addConnection(2, 5)` then
`removeConnection(2)` leaves both maps empty and `parent_` still set to 2; after
`addConnection(2, 5)`, `getWight(7)`, `removeConnection(2)` the view holds the
pair `(0, 7)` that no caller added while `parent_` is keyframe 2; and in
`covisWorld`, `addConnection(7, 50)` then `updateConnections()` on keyframe 3
leaves the view `(5, 1)` with `parent_` still keyframe 7, since
`updateConnections` rebuilds both maps without touching `parent_`. -/
theorem C1_ordered_view_invariant_fails :
    (let kf := (runOps 10 exampleWorld [.getWight 1 7]).kfs 1
     kf.isBad_ = false ∧ kf.connectedKeyFrames_ = [(7, 0)] ∧ kf.orderedView = [] ∧
     ¬ OrderedViewOK kf) ∧
    (let kf := (runOps 10 exampleWorld [.addConnection 1 2 5, .removeConnection 1 2]).kfs 1
     kf.isBad_ = false ∧ kf.connectedKeyFrames_ = [] ∧ kf.orderedView = [] ∧
     kf.parent_ = some 2 ∧ ¬ OrderedViewOK kf) ∧
    (let kf := (runOps 10 exampleWorld
        [.addConnection 1 2 5, .getWight 1 7, .removeConnection 1 2]).kfs 1
     kf.isBad_ = false ∧ kf.orderedView = [(0, 7)] ∧ kf.parent_ = some 2 ∧
     ¬ OrderedViewOK kf) ∧
    (let kf := (runOps 4 covisWorld [.addConnection 3 7 50, .updateConnections 3]).kfs 3
     kf.isBad_ = false ∧ kf.connectedKeyFrames_ = [(1, 5)] ∧ kf.orderedView = [(5, 1)] ∧
     kf.parent_ = some 7 ∧ ¬ OrderedViewOK kf) := by
  decide

/-! ## `updateConnections` -/

theorem mapFind_nil {V : Type} (b : Nat) : mapFind ([] : List (Nat × V)) b = none := rfl

theorem mapFind_cons {V : Type} (k : Nat) (v : V) (t : List (Nat × V)) (b : Nat) :
    mapFind ((k, v) :: t) b = if k = b then some v else mapFind t b := by
  by_cases h : k = b <;> simp [mapFind, List.find?_cons, h]

theorem mapFind_mapAssign {V : Type} (m : List (Nat × V)) (k : Nat) (v : V) (b : Nat) :
    mapFind (mapAssign m k v) b = if b = k then some v else mapFind m b := by
  induction m with
  | nil =>
    by_cases hb : b = k
    · subst hb; simp [mapAssign, mapFind_cons]
    · have hb' : ¬ k = b := fun e => hb e.symm
      simp [mapAssign, mapFind_cons, mapFind_nil, hb, hb']
  | cons e t ih =>
    obtain ⟨k', v'⟩ := e
    by_cases hb : b = k
    · subst hb
      by_cases h1 : b < k'
      · simp [mapAssign, h1, mapFind_cons]
      · by_cases h2 : b = k'
        · subst h2; simp [mapAssign, mapFind_cons]
        · have h2' : ¬ k' = b := fun e => h2 e.symm
          simp [mapAssign, h1, h2, h2', mapFind_cons, ih]
    · have hb' : ¬ k = b := fun e => hb e.symm
      by_cases h1 : k < k'
      · simp [mapAssign, h1, mapFind_cons, hb, hb']
      · by_cases h2 : k = k'
        · subst h2; simp [mapAssign, mapFind_cons, hb, hb']
        · simp [mapAssign, h1, h2, mapFind_cons, hb, ih]

/-- A counter `c` holds the positive values of `f` and nothing else. -/
theorem counterIncr_rep (c : List (Nat × Int)) (f : Nat → Nat) (k : Nat)
    (h : ∀ b, mapFind c b = if 0 < f b then some (f b : Int) else none) :
    ∀ b, mapFind (counterIncr c k) b =
      if 0 < f b + (if b = k then 1 else 0) then some ((f b + (if b = k then 1 else 0) : Nat) : Int)
      else none := by
  intro b
  simp only [counterIncr, mapFind_mapAssign]
  by_cases hb : b = k
  · subst hb
    simp only [if_true, h b]
    by_cases hf : 0 < f b
    · simp [hf]
    · have : f b = 0 := by omega
      simp [this]
  · simp [hb, h b]

theorem innerTally_rep (w : World) (a : Nat) (l : List Nat) :
    ∀ (c : List (Nat × Int)) (f : Nat → Nat),
      (∀ b, mapFind c b = if 0 < f b then some (f b : Int) else none) →
      ∀ b, mapFind (l.foldl
          (fun c obs => if (w.kfs obs).id_ = (w.kfs a).id_ then c else counterIncr c obs) c) b =
        if 0 < f b + (if (w.kfs b).id_ = (w.kfs a).id_ then 0 else l.count b)
        then some ((f b + (if (w.kfs b).id_ = (w.kfs a).id_ then 0 else l.count b) : Nat) : Int)
        else none := by
  induction l with
  | nil => intro c f h b; simpa using h b
  | cons o t ih =>
    intro c f h b
    simp only [List.foldl_cons]
    by_cases ho : (w.kfs o).id_ = (w.kfs a).id_
    · simp only [ho, if_true]
      rw [ih c f h b]
      by_cases hb : (w.kfs b).id_ = (w.kfs a).id_
      · simp [hb]
      · have hne : ¬ o = b := fun e => hb (e ▸ ho)
        simp [hb, List.count_cons, hne]
    · simp only [ho, if_false]
      rw [ih _ _ (counterIncr_rep c f o h) b]
      by_cases hb : (w.kfs b).id_ = (w.kfs a).id_
      · have hne : ¬ b = o := fun e => ho (e ▸ hb)
        simp [hb, hne]
      · by_cases hbo : b = o
        · subst hbo
          simp only [hb, if_false, if_true, List.count_cons_self]
          have e : f b + 1 + List.count b t = f b + (List.count b t + 1) := by omega
          rw [e]
        · have hbo' : ¬ o = b := fun e => hbo e.symm
          simp [hb, hbo, hbo', List.count_cons]

theorem tallyStep_frame (a : Nat) (st : World × List (Nat × Int)) (ft : Feature) :
    (tallyStep a st ft).1.mpts = st.1.mpts ∧
    ∀ p, ((tallyStep a st ft).1.kfs p).id_ = (st.1.kfs p).id_ := by
  unfold tallyStep
  by_cases hbad : (st.1.mpts ft.mpt_).isBad = true
  · simp only [hbad, if_true]
    refine ⟨rfl, fun p => ?_⟩
    simp only [World.setKF]
    split
    · next h => subst h; rfl
    · rfl
  · simp only [hbad, if_false]
    exact ⟨rfl, fun _ => rfl⟩

theorem tallyStep_rep (w : World) (a : Nat) (hobs : ∀ m, (w.mpts m).obs_.Nodup)
    (st : World × List (Nat × Int)) (ft : Feature) (f : Nat → Nat)
    (hm : st.1.mpts = w.mpts) (hi : ∀ p, (st.1.kfs p).id_ = (w.kfs p).id_)
    (h : ∀ b, mapFind st.2 b = if 0 < f b then some (f b : Int) else none) (b : Nat) :
    mapFind (tallyStep a st ft).2 b =
      if 0 < f b + (if (w.kfs b).id_ = (w.kfs a).id_ then 0 else
          ([ft.mpt_].filter (fun m => !(w.mpts m).isBad_ && decide (b ∈ (w.mpts m).obs_))).length)
      then some ((f b + (if (w.kfs b).id_ = (w.kfs a).id_ then 0 else
          ([ft.mpt_].filter (fun m => !(w.mpts m).isBad_ && decide (b ∈ (w.mpts m).obs_))).length)
          : Nat) : Int)
      else none := by
  unfold tallyStep
  by_cases hbad : (w.mpts ft.mpt_).isBad_ = true
  · simp only [hm, MapPoint.isBad, hbad, if_true]
    simp [hbad, h b]
  · have hbad' : (w.mpts ft.mpt_).isBad_ = false := by simpa using hbad
    simp only [hm, MapPoint.isBad, hbad', Bool.false_eq_true, if_false, MapPoint.getObservations]
    rw [innerTally_rep st.1 a _ st.2 f h b]
    simp only [hi]
    by_cases hb : (w.kfs b).id_ = (w.kfs a).id_
    · simp [hb]
    · by_cases hmem : b ∈ (w.mpts ft.mpt_).obs_
      · have : List.count b (w.mpts ft.mpt_).obs_ = 1 := List.count_eq_one_of_mem (hobs _) hmem
        simp [hb, hmem, this, hbad', List.filter_cons]
      · have : List.count b (w.mpts ft.mpt_).obs_ = 0 := List.count_eq_zero_of_not_mem hmem
        simp [hb, hmem, this, hbad', List.filter_cons]

theorem tallyFold_rep (w : World) (a : Nat) (hobs : ∀ m, (w.mpts m).obs_.Nodup)
    (fts : List Feature) :
    ∀ (st : World × List (Nat × Int)) (f : Nat → Nat),
      st.1.mpts = w.mpts → (∀ p, (st.1.kfs p).id_ = (w.kfs p).id_) →
      (∀ b, mapFind st.2 b = if 0 < f b then some (f b : Int) else none) →
      ∀ b, mapFind (fts.foldl (tallyStep a) st).2 b =
        if 0 < f b + (if (w.kfs b).id_ = (w.kfs a).id_ then 0 else
            ((fts.map Feature.mpt_).filter
              (fun m => !(w.mpts m).isBad_ && decide (b ∈ (w.mpts m).obs_))).length)
        then some ((f b + (if (w.kfs b).id_ = (w.kfs a).id_ then 0 else
            ((fts.map Feature.mpt_).filter
              (fun m => !(w.mpts m).isBad_ && decide (b ∈ (w.mpts m).obs_))).length) : Nat) : Int)
        else none := by
  induction fts with
  | nil => intro st f _ _ h b; simpa using h b
  | cons ft t ih =>
    intro st f hm hi h b
    simp only [List.foldl_cons]
    have hfr := tallyStep_frame a st ft
    rw [ih (tallyStep a st ft) _ (hfr.1.trans hm) (fun p => (hfr.2 p).trans (hi p))
      (tallyStep_rep w a hobs st ft f hm hi h) b]
    by_cases hb : (w.kfs b).id_ = (w.kfs a).id_
    · simp [hb]
    · simp only [hb, if_false, List.map_cons, List.filter_cons, List.filter_nil]
      by_cases hp : (!(w.mpts ft.mpt_).isBad_ && decide (b ∈ (w.mpts ft.mpt_).obs_)) = true
      · simp only [hp, if_true, List.length_cons, List.length_nil]
        have e : ∀ x : Nat, f b + (0 + 1) + x = f b + (x + 1) := fun x => by omega
        rw [e]
      · simp only [hp, if_false, List.length_nil, Nat.add_zero]
        simp

theorem mem_of_mapFind_eq_some {V : Type} (m : List (Nat × V)) (b : Nat) (c : V)
    (h : mapFind m b = some c) : (b, c) ∈ m := by
  induction m with
  | nil => simp [mapFind_nil] at h
  | cons e t ih =>
    obtain ⟨k, v⟩ := e
    rw [mapFind_cons] at h
    by_cases hk : k = b
    · simp only [hk, if_true, Option.some.injEq] at h
      simp [hk, h]
    · simp only [hk, if_false] at h
      exact List.mem_cons_of_mem _ (ih h)

theorem mapFind_eq_some_of_mem {V : Type} (m : List (Nat × V)) (b : Nat) (c : V)
    (hnd : (m.map Prod.fst).Nodup) (h : (b, c) ∈ m) : mapFind m b = some c := by
  induction m with
  | nil => simp at h
  | cons e t ih =>
    obtain ⟨k, v⟩ := e
    simp only [List.map_cons, List.nodup_cons] at hnd
    rw [mapFind_cons]
    rcases List.mem_cons.1 h with h | h
    · simp only [Prod.mk.injEq] at h
      simp [h.1, h.2]
    · have hk : ¬ k = b := by
        intro e
        apply hnd.1
        rw [e]
        exact List.mem_map_of_mem Prod.fst h
      simp only [hk, if_false]
      exact ih hnd.2 h

theorem mapAssign_keys {V : Type} (m : List (Nat × V)) (k : Nat) (v : V) :
    ∀ x ∈ (mapAssign m k v).map Prod.fst, x = k ∨ x ∈ m.map Prod.fst := by
  induction m with
  | nil => intro x hx; simp [mapAssign] at hx; exact Or.inl hx
  | cons e t ih =>
    obtain ⟨k', v'⟩ := e
    intro x hx
    simp only [mapAssign] at hx
    split_ifs at hx with h1 h2
    · simp only [List.map_cons, List.mem_cons] at hx ⊢
      tauto
    · simp only [List.map_cons, List.mem_cons] at hx ⊢
      tauto
    · simp only [List.map_cons, List.mem_cons] at hx ⊢
      rcases hx with hx | hx
      · tauto
      · rcases ih x hx with h | h <;> tauto

theorem mapAssign_sorted {V : Type} (m : List (Nat × V)) (k : Nat) (v : V)
    (h : (m.map Prod.fst).Sorted (· < ·)) : ((mapAssign m k v).map Prod.fst).Sorted (· < ·) := by
  induction m with
  | nil => simp [mapAssign]
  | cons e t ih =>
    obtain ⟨k', v'⟩ := e
    simp only [List.map_cons, List.sorted_cons] at h
    simp only [mapAssign]
    split_ifs with h1 h2
    · simp only [List.map_cons, List.sorted_cons, List.mem_cons]
      refine ⟨?_, h.1, h.2⟩
      intro b hb
      rcases hb with hb | hb
      · omega
      · have := h.1 b hb; omega
    · subst h2
      simp only [List.map_cons, List.sorted_cons]
      exact h
    · simp only [List.map_cons, List.sorted_cons]
      refine ⟨?_, ih h.2⟩
      intro b hb
      rcases mapAssign_keys t k v b hb with hb | hb
      · omega
      · exact h.1 b hb

theorem tallyLoop_sorted (w : World) (a : Nat) :
    ((tallyLoop w a).2.map Prod.fst).Sorted (· < ·) := by
  unfold tallyLoop
  suffices H : ∀ (fts : List Feature) (st : World × List (Nat × Int)),
      (st.2.map Prod.fst).Sorted (· < ·) →
      ((fts.foldl (tallyStep a) st).2.map Prod.fst).Sorted (· < ·) from H _ _ (by simp)
  intro fts
  induction fts with
  | nil => intro st h; exact h
  | cons ft t ih =>
    intro st h
    simp only [List.foldl_cons]
    apply ih
    unfold tallyStep
    by_cases hbad : (st.1.mpts ft.mpt_).isBad = true
    · simp only [hbad, if_true]
      exact h
    · simp only [hbad, if_false]
      generalize (st.1.mpts ft.mpt_).getObservations = l
      generalize st.2 = c at h
      induction l generalizing c with
      | nil => exact h
      | cons o l ihl =>
        simp only [List.foldl_cons]
        apply ihl
        split
        · exact h
        · exact mapAssign_sorted _ _ _ h

theorem tallyLoop_counter (w : World) (a : Nat) (hobs : ∀ m, (w.mpts m).obs_.Nodup)
    (hmp : (w.kfs a).observedMapPoints.Nodup) (b : Nat) :
    mapFind (tallyLoop w a).2 b =
      if 0 < coObservations w a b then some (coObservations w a b) else none := by
  have h := tallyFold_rep w a hobs ((w.kfs a).mpt_fts_.map Prod.snd) (w, []) (fun _ => 0)
    rfl (fun _ => rfl) (fun b => by simp [mapFind_nil]) b
  have hmap : List.map Feature.mpt_ (List.map Prod.snd (w.kfs a).mpt_fts_) =
      (w.kfs a).observedMapPoints := by
    simp [KeyFrame.observedMapPoints, List.map_map, Function.comp_def]
  rw [hmap] at h
  unfold tallyLoop
  rw [h]
  unfold coObservations
  rw [hmp.dedup]
  by_cases hb : (w.kfs b).id_ = (w.kfs a).id_
  · simp [hb]
  · simp [hb]

theorem partition_wc (a : Nat) (thr : Int) (l : List (Nat × Int)) :
    ∀ st : World × Option Nat × Int × List (Int × Nat),
      (l.foldl (partitionStep a thr) st).2.2.2 =
        st.2.2.2 ++ (l.filter (fun e => decide (thr ≤ e.2))).map (fun e => (e.2, e.1)) := by
  induction l with
  | nil => intro st; simp
  | cons e t ih =>
    intro st
    simp only [List.foldl_cons]
    rw [ih]
    unfold partitionStep
    by_cases h : e.2 < thr
    · have h' : ¬ thr ≤ e.2 := by omega
      simp [h, h', List.filter_cons]
    · have h' : thr ≤ e.2 := by omega
      simp [h, h', List.filter_cons]

theorem partition_untouched (a : Nat) (thr : Int) (l : List (Nat × Int)) (b : Nat) :
    ∀ st : World × Option Nat × Int × List (Int × Nat), b ∉ l.map Prod.fst →
      (l.foldl (partitionStep a thr) st).1.kfs b = st.1.kfs b := by
  induction l with
  | nil => intro st _; rfl
  | cons e t ih =>
    intro st hb
    simp only [List.map_cons, List.mem_cons, not_or] at hb
    simp only [List.foldl_cons]
    rw [ih _ hb.2]
    unfold partitionStep
    by_cases h : e.2 < thr
    · simp [h]
    · simp [h, World.setKF, hb.1]

theorem addConnection_find (kf : KeyFrame) (k : Nat) (weight : Int) :
    mapFind (kf.addConnection k weight).connectedKeyFrames_ k = some weight := by
  unfold KeyFrame.addConnection
  by_cases h1 : mapContains kf.connectedKeyFrames_ k = true
  · by_cases h2 : mapFind kf.connectedKeyFrames_ k = some weight
    · simp [h1, h2]
    · simp [h1, h2, updateOrderedConnections_connected, mapFind_mapAssign]
  · simp [h1, updateOrderedConnections_connected, mapFind_mapAssign]

theorem partition_reverse_edge (a : Nat) (thr : Int) (l : List (Nat × Int)) (b : Nat) (c : Int)
    (hc : thr ≤ c) :
    ∀ st : World × Option Nat × Int × List (Int × Nat), (l.map Prod.fst).Nodup → (b, c) ∈ l →
      mapFind ((l.foldl (partitionStep a thr) st).1.kfs b).connectedKeyFrames_ a = some c := by
  induction l with
  | nil => intro st _ h; simp at h
  | cons e t ih =>
    intro st hnd hmem
    simp only [List.map_cons, List.nodup_cons] at hnd
    simp only [List.foldl_cons]
    rcases List.mem_cons.1 hmem with h | h
    · subst h
      rw [partition_untouched a thr t b _ hnd.1]
      unfold partitionStep
      have h' : ¬ c < thr := by omega
      simp [h', World.setKF, addConnection_find]
    · exact ih _ hnd.2 h

theorem mapFind_mapInsert_of_absent {V : Type} (m : List (Nat × V)) (k : Nat) (v : V) (b : Nat)
    (h : mapFind m k = none) :
    mapFind (mapInsert m k v) b = if b = k then some v else mapFind m b := by
  induction m with
  | nil =>
    by_cases hb : b = k
    · subst hb; simp [mapInsert, mapFind_cons]
    · have hb' : ¬ k = b := fun e => hb e.symm
      simp [mapInsert, mapFind_cons, mapFind_nil, hb, hb']
  | cons e t ih =>
    obtain ⟨k', v'⟩ := e
    rw [mapFind_cons] at h
    have hk : ¬ k' = k := by
      intro e; simp [e] at h
    have hk' : ¬ k = k' := fun e => hk e.symm
    simp only [hk, if_false] at h
    by_cases hb : b = k
    · subst hb
      by_cases h1 : b < k'
      · simp [mapInsert, h1, mapFind_cons]
      · simp [mapInsert, h1, hk, hk', mapFind_cons, ih h]
    · have hb' : ¬ k = b := fun e => hb e.symm
      by_cases h1 : k < k'
      · simp [mapInsert, h1, mapFind_cons, hb, hb']
      · simp [mapInsert, h1, hk', mapFind_cons, hb, ih h]

theorem mapInsert_keys {V : Type} (m : List (Nat × V)) (k : Nat) (v : V) :
    ∀ x ∈ (mapInsert m k v).map Prod.fst, x = k ∨ x ∈ m.map Prod.fst := by
  induction m with
  | nil => intro x hx; simp [mapInsert] at hx; exact Or.inl hx
  | cons e t ih =>
    obtain ⟨k', v'⟩ := e
    intro x hx
    simp only [mapInsert] at hx
    split_ifs at hx with h1 h2
    · simp only [List.map_cons, List.mem_cons] at hx ⊢
      tauto
    · simp only [List.map_cons, List.mem_cons] at hx ⊢
      tauto
    · simp only [List.map_cons, List.mem_cons] at hx ⊢
      rcases hx with hx | hx
      · tauto
      · rcases ih x hx with h | h <;> tauto

theorem mapInsert_sorted {V : Type} (m : List (Nat × V)) (k : Nat) (v : V)
    (h : (m.map Prod.fst).Sorted (· < ·)) : ((mapInsert m k v).map Prod.fst).Sorted (· < ·) := by
  induction m with
  | nil => simp [mapInsert]
  | cons e t ih =>
    obtain ⟨k', v'⟩ := e
    simp only [List.map_cons, List.sorted_cons] at h
    simp only [mapInsert]
    split_ifs with h1 h2
    · simp only [List.map_cons, List.sorted_cons, List.mem_cons]
      refine ⟨?_, h.1, h.2⟩
      intro b hb
      rcases hb with hb | hb
      · omega
      · have := h.1 b hb; omega
    · simp only [List.map_cons, List.sorted_cons]
      exact h
    · simp only [List.map_cons, List.sorted_cons]
      refine ⟨?_, ih h.2⟩
      intro b hb
      rcases mapInsert_keys t k v b hb with hb | hb
      · omega
      · exact h.1 b hb

theorem insertAll_sorted (l : List (Int × Nat)) :
    ∀ m : List (Nat × Int), (m.map Prod.fst).Sorted (· < ·) →
      ((l.foldl (fun m item => mapInsert m item.2 item.1) m).map Prod.fst).Sorted (· < ·) := by
  induction l with
  | nil => intro m h; exact h
  | cons e t ih => intro m h; exact ih _ (mapInsert_sorted m e.2 e.1 h)

theorem insertAll_find (l : List (Int × Nat)) :
    ∀ m : List (Nat × Int), (l.map Prod.snd).Nodup → (∀ e ∈ l, mapFind m e.2 = none) →
      ∀ b c, mapFind (l.foldl (fun m item => mapInsert m item.2 item.1) m) b = some c ↔
        (mapFind m b = some c ∨ (c, b) ∈ l) := by
  induction l with
  | nil => intro m _ _ b c; simp
  | cons e t ih =>
    obtain ⟨c0, k0⟩ := e
    intro m hnd hab b c
    simp only [List.map_cons, List.nodup_cons] at hnd
    simp only [List.foldl_cons]
    have h0 : mapFind m k0 = none := hab (c0, k0) (List.mem_cons_self _ _)
    have hab' : ∀ e ∈ t, mapFind (mapInsert m k0 c0) e.2 = none := by
      intro e he
      have hne : ¬ e.2 = k0 := by
        intro h; apply hnd.1; rw [← h]; exact List.mem_map_of_mem Prod.snd he
      rw [mapFind_mapInsert_of_absent m k0 c0 e.2 h0]
      simp only [hne, if_false]
      exact hab e (List.mem_cons_of_mem _ he)
    rw [ih _ hnd.2 hab' b c, mapFind_mapInsert_of_absent m k0 c0 b h0]
    by_cases hb : b = k0
    · subst hb
      simp only [if_true, h0, List.mem_cons, Prod.mk.injEq]
      constructor
      · rintro (h | h)
        · right; left; exact ⟨(Option.some.inj h).symm, trivial⟩
        · right; right; exact h
      · rintro (h | h | h)
        · simp at h
        · left; rw [h.1]
        · right; exact h
    · simp only [hb, if_false, List.mem_cons, Prod.mk.injEq]
      constructor
      · rintro (h | h)
        · left; exact h
        · right; right; exact h
      · rintro (h | h | h)
        · left; exact h
        · exact h.2.elim
        · right; exact h

theorem updateConnections_eq (thr : Int) (w : World) (a : Nat)
    (hbad : isBad w a = false)
    (hwc : ((tallyLoop w a).2.filter (fun e => decide (thr ≤ e.2))) ≠ []) :
    updateConnections thr w a =
      let p := (tallyLoop w a).2.foldl (partitionStep a thr) ((tallyLoop w a).1, none, 0, [])
      let weight_connections := sortByWeight
        (((tallyLoop w a).2.filter (fun e => decide (thr ≤ e.2))).map (fun e => (e.2, e.1)))
      p.1.setKF a { p.1.kfs a with
        connectedKeyFrames_ := weight_connections.foldl (fun m item => mapInsert m item.2 item.1) [],
        orderedConnectedKeyFrames_ := multimapOfRange weight_connections } := by
  have hne : (tallyLoop w a).2 ≠ [] := by
    intro h; apply hwc; rw [h]; rfl
  have hwc' : ((tallyLoop w a).2.foldl (partitionStep a thr) ((tallyLoop w a).1, none, 0, [])).2.2.2
      = ((tallyLoop w a).2.filter (fun e => decide (thr ≤ e.2))).map (fun e => (e.2, e.1)) := by
    rw [partition_wc]; simp
  unfold updateConnections
  simp only [hbad, Bool.false_eq_true, if_false]
  have e1 : (tallyLoop w a).2.isEmpty = false := by
    cases h : (tallyLoop w a).2 with
    | nil => exact absurd h hne
    | cons _ _ => rfl
  simp only [e1, Bool.false_eq_true, if_false, hwc']
  have e2 : (((tallyLoop w a).2.filter (fun e => decide (thr ≤ e.2))).map (fun e => (e.2, e.1))).isEmpty = false := by
    cases h : (tallyLoop w a).2.filter (fun e => decide (thr ≤ e.2)) with
    | nil => exact absurd h hwc
    | cons _ _ => rfl
  simp only [e2, Bool.false_eq_true, if_false]

/-- C9: let the keyframe behind `a` be not bad, let every observation map and
the keyframe's own map-point list be free of repetitions, and let some neighbour
reach the threshold. Then after `updateConnections` the connected map of `a` maps
`b` to `c` exactly when `c` is the tally of `b`, `b` is in the tally (`0 < c`) and
`c` reaches the threshold; the map is in key order; and every such `b` holds the
reverse edge `a -> tally(b)`. -/
theorem C9_updateConnections_edges (thr : Int) (w : World) (a : Nat)
    (hbad : isBad w a = false)
    (hobs : ∀ m, (w.mpts m).obs_.Nodup)
    (hmp : (w.kfs a).observedMapPoints.Nodup)
    (hex : ∃ b, 0 < coObservations w a b ∧ thr ≤ coObservations w a b) :
    (∀ b c, mapFind ((updateConnections thr w a).kfs a).connectedKeyFrames_ b = some c ↔
      (c = coObservations w a b ∧ 0 < c ∧ thr ≤ c)) ∧
    (((updateConnections thr w a).kfs a).connectedKeyFrames_.map Prod.fst).Sorted (· < ·) ∧
    (∀ b, 0 < coObservations w a b → thr ≤ coObservations w a b →
      mapFind ((updateConnections thr w a).kfs b).connectedKeyFrames_ a =
        some (coObservations w a b)) := by
  have hrep := tallyLoop_counter w a hobs hmp
  have hnd : ((tallyLoop w a).2.map Prod.fst).Nodup := (tallyLoop_sorted w a).nodup
  have hin : ∀ b, 0 < coObservations w a b → (b, coObservations w a b) ∈ (tallyLoop w a).2 := by
    intro b hb
    apply mem_of_mapFind_eq_some
    rw [hrep b]; simp [hb]
  have hwc : ((tallyLoop w a).2.filter (fun e => decide (thr ≤ e.2))) ≠ [] := by
    obtain ⟨b0, h1, h2⟩ := hex
    intro h
    have : (b0, coObservations w a b0) ∈
        (tallyLoop w a).2.filter (fun e => decide (thr ≤ e.2)) := by
      simp [List.mem_filter, hin b0 h1, h2]
    rw [h] at this
    simp at this
  rw [updateConnections_eq thr w a hbad hwc]
  simp only [World.setKF, if_true]
  have hkeys : (List.map Prod.snd (sortByWeight
      (((tallyLoop w a).2.filter (fun e => decide (thr ≤ e.2))).map (fun e => (e.2, e.1))))).Nodup := by
    have hperm : List.Perm (sortByWeight
        (((tallyLoop w a).2.filter (fun e => decide (thr ≤ e.2))).map (fun e => (e.2, e.1))))
        (((tallyLoop w a).2.filter (fun e => decide (thr ≤ e.2))).map (fun e => (e.2, e.1))) :=
      List.perm_insertionSort _ _
    rw [(hperm.map Prod.snd).nodup_iff]
    simp only [List.map_map, Function.comp_def]
    exact (hnd.sublist ((List.filter_sublist _).map Prod.fst))
  refine ⟨?_, ?_, ?_⟩
  · intro b c
    rw [insertAll_find _ [] hkeys (fun _ _ => rfl) b c]
    simp only [mapFind_nil, false_or, reduceCtorEq]
    unfold sortByWeight
    rw [(List.perm_insertionSort _ _).mem_iff]
    simp only [List.mem_map, List.mem_filter, decide_eq_true_eq, Prod.mk.injEq, Prod.exists]
    constructor
    · rintro ⟨k, v, ⟨hmem, hthr⟩, hv, hk⟩
      subst hv; subst hk
      have hf := mapFind_eq_some_of_mem _ _ _ hnd hmem
      rw [hrep k] at hf
      by_cases hpos : 0 < coObservations w a k
      · simp only [hpos, if_true, Option.some.injEq] at hf
        rw [← hf]; exact ⟨rfl, hpos, hf ▸ hthr⟩
      · simp [hpos] at hf
    · rintro ⟨hc, hpos, hthr⟩
      subst hc
      exact ⟨b, _, ⟨hin b hpos, hthr⟩, rfl, rfl⟩
  · exact insertAll_sorted _ [] (by simp)
  · intro b hpos hthr
    have hba : ¬ b = a := by
      intro h
      rw [h] at hpos
      simp [coObservations] at hpos
    simp only [hba, if_false]
    exact partition_reverse_edge a thr _ b _ hthr _ hnd (hin b hpos)

theorem covisWorld_obs_nodup : ∀ m, (covisWorld.mpts m).obs_.Nodup := by
  intro m
  simp only [covisWorld, freshWorld]
  split_ifs <;> decide

/-- C9, witness: in `covisWorld` with threshold 4, keyframe 3 has the tally
`1 -> 5, 2 -> 3`; after `updateConnections` its connected map is `1 -> 5` and
keyframe 1 holds the reverse edge `3 -> 5`. -/
theorem C9_witness :
    isBad covisWorld 3 = false ∧
    (covisWorld.kfs 3).observedMapPoints.Nodup ∧
    (0 < coObservations covisWorld 3 1 ∧ (4 : Int) ≤ coObservations covisWorld 3 1) ∧
    ((updateConnections 4 covisWorld 3).kfs 3).connectedKeyFrames_ = [(1, 5)] ∧
    ((∀ b c, mapFind ((updateConnections 4 covisWorld 3).kfs 3).connectedKeyFrames_ b = some c ↔
      (c = coObservations covisWorld 3 b ∧ 0 < c ∧ 4 ≤ c)) ∧
    (((updateConnections 4 covisWorld 3).kfs 3).connectedKeyFrames_.map Prod.fst).Sorted (· < ·) ∧
    (∀ b, 0 < coObservations covisWorld 3 b → 4 ≤ coObservations covisWorld 3 b →
      mapFind ((updateConnections 4 covisWorld 3).kfs b).connectedKeyFrames_ 3 =
        some (coObservations covisWorld 3 b))) :=
  ⟨by decide, by decide, by decide, by decide,
    C9_updateConnections_edges 4 covisWorld 3 (by decide) covisWorld_obs_nodup (by decide)
      ⟨1, by decide, by decide⟩⟩

/-- C10, the fallback is the last neighbour below the threshold, not the best
one. In `covisWorld` with threshold 10 keyframe 3 is not bad, its tally is
`1 -> 5, 2 -> 3` and no neighbour reaches the threshold; after
`updateConnections` its connected map holds the single edge `2 -> 3`, although
keyframe 1 has the larger tally 5. Keyframe 2 received the reverse edge and
keyframe 1 none. -/
theorem C10_fallback_is_last_not_best :
    isBad covisWorld 3 = false ∧
    (tallyLoop covisWorld 3).2 = [(1, 5), (2, 3)] ∧
    coObservations covisWorld 3 1 = 5 ∧ coObservations covisWorld 3 2 = 3 ∧
    ((updateConnections 10 covisWorld 3).kfs 3).connectedKeyFrames_ = [(2, 3)] ∧
    ((updateConnections 10 covisWorld 3).kfs 2).connectedKeyFrames_ = [(3, 3)] ∧
    ((updateConnections 10 covisWorld 3).kfs 1).connectedKeyFrames_ = [] := by
  decide

/-! ## `addFirstFrame` -/

/-- C7: `addFirstFrame` returns `RESET` exactly when the frame has fewer
key-points than `initMinCorners`, and `SUCCESS` otherwise; in both cases `p3ds_`,
`disparities_` and `inliers_` are empty afterwards; on `SUCCESS` `pts_ref_` is the
list of key-point positions in order and `pts_cur_` equals `pts_ref_`; on `RESET`
both are empty. -/
theorem C7_addFirstFrame (cfg : Config) (s : Initializer) (frame_ref : Frame) :
    ((addFirstFrame cfg s frame_ref).1 = InitResult.RESET ↔
      frame_ref.kps_.length < cfg.initMinCorners) ∧
    ((addFirstFrame cfg s frame_ref).1 = InitResult.SUCCESS ↔
      ¬ frame_ref.kps_.length < cfg.initMinCorners) ∧
    (addFirstFrame cfg s frame_ref).2.p3ds_ = [] ∧
    (addFirstFrame cfg s frame_ref).2.disparities_ = [] ∧
    (addFirstFrame cfg s frame_ref).2.inliers_ = [] ∧
    ((addFirstFrame cfg s frame_ref).1 = InitResult.SUCCESS →
      (addFirstFrame cfg s frame_ref).2.pts_ref_ = frame_ref.kps_.map KeyPoint.pt ∧
      (addFirstFrame cfg s frame_ref).2.pts_cur_ = (addFirstFrame cfg s frame_ref).2.pts_ref_ ∧
      (addFirstFrame cfg s frame_ref).2.frame_ref_ = some frame_ref) ∧
    ((addFirstFrame cfg s frame_ref).1 = InitResult.RESET →
      (addFirstFrame cfg s frame_ref).2.pts_ref_ = [] ∧
      (addFirstFrame cfg s frame_ref).2.pts_cur_ = []) := by
  unfold addFirstFrame
  by_cases h : frame_ref.kps_.length < cfg.initMinCorners
  · simp [h]
  · simp [h, KeyPoint.convert]

/-! ## `kltTrack` -/

theorem kltStep_inv (ext : Externals) (s : KltState)
    (h1 : s.pts_ref.length = s.pts_cur.length) (h2 : s.disparities.length = s.j)
    (h3 : s.j < s.pts_ref.length) :
    (kltStep ext s).pts_ref.length = (kltStep ext s).pts_cur.length ∧
    (kltStep ext s).disparities.length = (kltStep ext s).j ∧
    (kltStep ext s).j ≤ (kltStep ext s).pts_ref.length ∧
    (kltStep ext s).pts_ref.length - (kltStep ext s).j + 1 = s.pts_ref.length - s.j := by
  unfold kltStep
  by_cases hs : s.status.getD s.i 0 = 0
  · simp only [hs, if_true, List.length_dropLast, List.length_set]
    omega
  · simp only [hs, if_false, List.length_append, List.length_singleton]
    omega

theorem kltLoop_spec (ext : Externals) :
    ∀ (fuel : Nat) (s : KltState), s.pts_ref.length = s.pts_cur.length →
      s.disparities.length = s.j → s.j ≤ s.pts_ref.length → s.pts_ref.length - s.j ≤ fuel →
      ∃ s', kltLoop ext fuel s = some s' ∧ s'.pts_ref.length = s'.pts_cur.length ∧
        s'.disparities.length = s'.pts_ref.length := by
  intro fuel
  induction fuel with
  | zero =>
    intro s h1 h2 h3 h4
    have hj : s.j = s.pts_ref.length := by omega
    exact ⟨s, by simp [kltLoop, hj], h1, by omega⟩
  | succ fuel ih =>
    intro s h1 h2 h3 h4
    by_cases hj : s.j = s.pts_ref.length
    · exact ⟨s, by simp [kltLoop, hj], h1, by omega⟩
    · have hlt : s.j < s.pts_ref.length := by omega
      obtain ⟨k1, k2, k3, k4⟩ := kltStep_inv ext s h1 h2 hlt
      obtain ⟨s', e, r1, r2⟩ := ih (kltStep ext s) k1 k2 k3 (by omega)
      exact ⟨s', by simp only [kltLoop, hj, if_false]; exact e, r1, r2⟩

/-- The loop of `kltTrack` ends within its bound, and leaves `pts_ref`, `pts_cur`
and `disparities` with one common length. -/
theorem kltTrack_spec (ext : Externals) (img_ref img_cur : Nat) (pts_ref pts_cur : List Point2f)
    (h : pts_cur.length = pts_ref.length) :
    ∃ klt, kltTrack ext img_ref img_cur pts_ref pts_cur = some klt ∧
      klt.1.length = klt.2.1.length ∧ klt.2.2.length = klt.1.length := by
  unfold kltTrack
  simp only [h, ne_eq, not_true_eq_false, if_false]
  obtain ⟨s', e, r1, r2⟩ := kltLoop_spec ext pts_ref.length
    { i := 0, j := 0, size := pts_ref.length, pts_ref := pts_ref,
      pts_cur := ((List.range pts_ref.length).map
        (ext.calcOpticalFlowPyrLK img_ref img_cur pts_ref pts_cur)).map Prod.fst,
      status := ((List.range pts_ref.length).map
        (ext.calcOpticalFlowPyrLK img_ref img_cur pts_ref pts_cur)).map Prod.snd,
      disparities := [] }
    (by simp) rfl (Nat.zero_le _) (by simp)
  exact ⟨(s'.pts_ref, s'.pts_cur, s'.disparities), by rw [e]; rfl, r1, r2⟩

theorem kltTrack_some (ext : Externals) (img_ref img_cur : Nat) (pts_ref pts_cur : List Point2f)
    (klt : List Point2f × List Point2f × List ℚ)
    (h : kltTrack ext img_ref img_cur pts_ref pts_cur = some klt) :
    pts_cur.length = pts_ref.length ∧
    klt.1.length = klt.2.1.length ∧ klt.2.2.length = klt.1.length := by
  by_cases hl : pts_cur.length = pts_ref.length
  · obtain ⟨klt', e, r⟩ := kltTrack_spec ext img_ref img_cur pts_ref pts_cur hl
    rw [e] at h
    cases h
    exact ⟨hl, r⟩
  · simp [kltTrack, hl] at h

/-! ## `runRANSAC` -/

theorem sampleFold_length (ext : Externals) (pts_prev pts_next : List Point2f) (l : List Nat) :
    ∀ st : List Nat × Nat × List Point2f × List Point2f,
      (l.foldl (fun st _ => sampleStep ext pts_prev pts_next st) st).2.2.1.length =
        st.2.2.1.length + l.length ∧
      (l.foldl (fun st _ => sampleStep ext pts_prev pts_next st) st).2.2.2.length =
        st.2.2.2.length + l.length := by
  induction l with
  | nil => intro st; simp
  | cons a t ih =>
    intro st
    simp only [List.foldl_cons, List.length_cons]
    obtain ⟨h1, h2⟩ := ih (sampleStep ext pts_prev pts_next st)
    rw [h1, h2]
    simp only [sampleStep, List.length_append, List.length_singleton]
    omega

theorem sample8_length (ext : Externals) (pts_prev pts_next : List Point2f)
    (total_points : List Nat) (rng : Nat) :
    (sample8 ext pts_prev pts_next total_points rng).2.2.1.length = 8 ∧
    (sample8 ext pts_prev pts_next total_points rng).2.2.2.length = 8 := by
  have h := sampleFold_length ext pts_prev pts_next (List.range 8) (total_points, rng, [], [])
  simpa [sample8] using h

theorem run8point_isSome (ext : Externals) (pts_prev pts_next : List Point2f) :
    (run8point ext pts_prev pts_next).isSome = true ↔ 8 ≤ pts_prev.length := by
  unfold run8point
  by_cases h : pts_prev.length < 8
  · simp [h]
  · simp [h]; omega

theorem scoreFold_length (ext : Externals) (F : Mat) (threshold : ℚ)
    (pts_prev pts_next : List Point2f) (l : List Nat) :
    ∀ acc : List Nat × Int,
      (l.foldl (fun acc n =>
        if errorBelow ext F threshold (pts_prev.getD n (0, 0)) (pts_next.getD n (0, 0)) then
          (acc.1 ++ [255], acc.2 + 1)
        else (acc.1 ++ [0], acc.2))
        acc).1.length = acc.1.length + l.length := by
  induction l with
  | nil => intro acc; simp
  | cons a t ih =>
    intro acc
    simp only [List.foldl_cons, List.length_cons]
    rw [ih]
    split <;> simp only [List.length_append, List.length_singleton] <;> omega

theorem scoreInliers_length (ext : Externals) (F : Mat) (threshold : ℚ)
    (pts_prev pts_next : List Point2f) :
    (scoreInliers ext F threshold pts_prev pts_next).1.length = pts_prev.length := by
  unfold scoreInliers
  rw [scoreFold_length]
  simp

theorem cround_le (x : ℚ) (M : Int) (hM : 0 ≤ M) (hx : x < M) : cround x ≤ M := by
  unfold cround
  by_cases h0 : 0 ≤ x
  · simp only [h0, if_true]
    have h1 : (⌊x + 1 / 2⌋ : ℚ) ≤ x + 1 / 2 := Int.floor_le _
    have h2 : ((⌊x + 1 / 2⌋ : Int) : ℚ) < (M : ℚ) + 1 := by linarith
    have h3 : ⌊x + 1 / 2⌋ < M + 1 := by exact_mod_cast h2
    omega
  · simp only [h0, if_false]
    have h1 : 0 ≤ ⌊-x + 1 / 2⌋ := by
      apply Int.floor_nonneg.2
      linarith [not_le.1 h0]
    omega

theorem niters_bound (num denom : ℚ) (M : Int) (hM : 0 ≤ M) (hc1 : denom < 0)
    (hc2 : -num < (M : ℚ) * -denom) : cround (num / denom) ≤ M := by
  apply cround_le _ _ hM
  have hd : 0 < -denom := by linarith
  rw [← neg_div_neg_eq, div_lt_iff₀ hd]
  linarith

theorem ransacBody_spec (ext : Externals) (pts_prev pts_next : List Point2f) (threshold : ℚ)
    (max_iters : Int) (st : RansacState) (hM : 0 ≤ max_iters)
    (hn : st.niters ≤ max_iters) (hl : st.inliers.length = pts_prev.length) :
    ∃ r, ransacBody ext pts_prev pts_next threshold max_iters st = some r ∧
      r.1.niters ≤ max_iters ∧ r.1.inliers.length = pts_prev.length := by
  unfold ransacBody
  have h8 := (sample8_length ext pts_prev pts_next (List.range pts_prev.length) st.rng).1
  have hsome := (run8point_isSome ext
    (sample8 ext pts_prev pts_next (List.range pts_prev.length) st.rng).2.2.1
    (sample8 ext pts_prev pts_next (List.range pts_prev.length) st.rng).2.2.2).2 (by omega)
  obtain ⟨F, hF⟩ := Option.isSome_iff_exists.1 hsome
  simp only [hF]
  by_cases h1 : (scoreInliers ext F threshold pts_prev pts_next).2 > st.max_inliers
  · rw [if_pos h1]
    by_cases h2 : (scoreInliers ext F threshold pts_prev pts_next).2 < (pts_prev.length : Int)
    · rw [if_pos h2]
      refine ⟨_, rfl, ?_, scoreInliers_length _ _ _ _ _⟩
      simp only
      split
      · exact le_refl _
      · next hc =>
        simp only [not_or, not_le, ge_iff_le] at hc
        exact niters_bound _ _ _ hM hc.1 hc.2
    · rw [if_neg h2]
      exact ⟨_, rfl, hn, scoreInliers_length _ _ _ _ _⟩
  · rw [if_neg h1]
    exact ⟨_, rfl, hn, hl⟩

theorem ransacLoop_spec (ext : Externals) (pts_prev pts_next : List Point2f) (threshold : ℚ)
    (max_iters : Int) (hM : 0 ≤ max_iters) :
    ∀ (fuel : Nat) (iter : Int) (st : RansacState), st.niters ≤ max_iters →
      max_iters ≤ iter + fuel → st.inliers.length = pts_prev.length →
      ∃ st', ransacLoop ext pts_prev pts_next threshold max_iters fuel iter st = some st' ∧
        st'.inliers.length = pts_prev.length := by
  intro fuel
  induction fuel with
  | zero =>
    intro iter st hn hf hl
    have : ¬ iter < st.niters := by simp at hf; omega
    exact ⟨st, by simp [ransacLoop, this], hl⟩
  | succ fuel ih =>
    intro iter st hn hf hl
    by_cases hi : iter < st.niters
    · obtain ⟨r, hr, r1, r2⟩ := ransacBody_spec ext pts_prev pts_next threshold max_iters st hM hn hl
      obtain ⟨st1, b⟩ := r
      cases b with
      | true => exact ⟨st1, by simp [ransacLoop, hi, hr], r2⟩
      | false =>
        obtain ⟨st', e, l'⟩ := ih (iter + 1) st1 r1 (by push_cast at hf; omega) r2
        exact ⟨st', by simp only [ransacLoop, hi, if_true, hr]; exact e, l'⟩
    · exact ⟨st, by simp [ransacLoop, hi], hl⟩

/-- The RANSAC loop ends within its bound whenever there are at least 8
correspondences, and its mask has one entry per correspondence. -/
theorem ransacBest_spec (ext : Externals) (pts_prev pts_next : List Point2f) (sigma : ℚ)
    (max_iterations : Int) (rng : Nat) (h8 : 8 ≤ pts_prev.length) :
    ∃ st, ransacBest ext pts_prev pts_next sigma max_iterations rng = some st ∧
      st.inliers.length = pts_prev.length := by
  unfold ransacBest
  have h : ¬ pts_prev.length < 8 := by omega
  simp only [h, if_false]
  apply ransacLoop_spec
  · omega
  · exact le_refl _
  · simp only [Int.toNat_of_nonneg (show (0 : Int) ≤ min (max max_iterations 1) 1000 by omega)]
    omega
  · simp

theorem ransacBest_some (ext : Externals) (pts_prev pts_next : List Point2f) (sigma : ℚ)
    (max_iterations : Int) (rng : Nat) (st : RansacState)
    (h : ransacBest ext pts_prev pts_next sigma max_iterations rng = some st) :
    8 ≤ pts_prev.length ∧ st.inliers.length = pts_prev.length := by
  by_cases h8 : 8 ≤ pts_prev.length
  · obtain ⟨st', e, l⟩ := ransacBest_spec ext pts_prev pts_next sigma max_iterations rng h8
    rw [e] at h
    cases h
    exact ⟨h8, l⟩
  · have : pts_prev.length < 8 := by omega
    simp [ransacBest, this] at h

theorem findFundamentalMat_some (ext : Externals) (pts_prev pts_next : List Point2f)
    (sigma : ℚ) (max_iterations : Int) (rng : Nat) (fm : Int × Mat × List Nat × Nat)
    (h : findFundamentalMat ext pts_prev pts_next sigma max_iterations rng = some fm) :
    pts_prev.length = pts_next.length ∧ 8 ≤ pts_prev.length ∧
    fm.2.2.1.length = pts_prev.length := by
  unfold findFundamentalMat at h
  by_cases hl : pts_prev.length = pts_next.length
  · simp only [hl, ne_eq, not_true_eq_false, if_false] at h
    unfold runRANSAC at h
    cases hb : ransacBest ext pts_prev pts_next sigma max_iterations rng with
    | none => simp [hb] at h
    | some st =>
      obtain ⟨h8, hlen⟩ := ransacBest_some _ _ _ _ _ _ _ hb
      simp only [hb] at h
      cases hr : run8point ext (selectByMask st.inliers pts_prev)
          (selectByMask st.inliers pts_next) with
      | none => simp [hr] at h
      | some F =>
        simp only [hr, Option.some.injEq] at h
        subst h
        exact ⟨hl, h8, hlen⟩
  · simp [hl] at h

/-! ## `findBestRT` -/

theorem triangulate_isSome (ext : Externals) (P1 P2 : Mat) (pts1 pts2 : List Point2f)
    (mask : List Nat) :
    (triangulate ext P1 P2 pts1 pts2 mask).isSome = true ↔
      (pts1.length = pts2.length ∧ mask.length = pts1.length) := by
  unfold triangulate
  by_cases h : pts1.length ≠ pts2.length ∨ mask.length ≠ pts1.length
  · simp only [h, if_true, Option.isSome_none, Bool.false_eq_true, false_iff]
    intro hc
    rcases h with h | h
    · exact h hc.1
    · exact h hc.2
  · simp only [h, if_false, Option.isSome_some, true_iff]
    simp only [not_or, ne_eq, not_not] at h
    exact h

theorem cheirality_length (P : Mat) (mask : List Nat) (X : List (List ℚ)) :
    (cheirality P mask X).1.length = mask.length := by
  simp [cheirality]

theorem findBestRT_some (ext : Externals) (R1 R2 : Mat) (t : List ℚ) (K1 K2 : Mat)
    (pts1 pts2 : List Point2f) (mask : List Nat) (rt : Bool × List Nat × List (List ℚ) × Mat)
    (h : findBestRT ext R1 R2 t K1 K2 pts1 pts2 mask = some rt) :
    pts1.length = pts2.length ∧ rt.2.1.length = pts1.length := by
  unfold findBestRT at h
  by_cases hl : pts1.length = pts2.length
  · rw [if_neg (not_not.2 hl)] at h
    refine ⟨hl, ?_⟩
    simp only at h
    generalize (if mask.isEmpty = true then List.replicate pts1.length 255 else mask) = mask' at h
    split at h
    · next X1 X2 X3 X4 e1 e2 e3 e4 =>
      have hm := ((triangulate_isSome _ _ _ _ _ _).1 (by rw [e1]; rfl)).2
      split_ifs at h <;> cases h <;> simp only [cheirality_length] <;> exact hm
    · cases h
  · simp [hl] at h

theorem findBestRT_defined (ext : Externals) (R1 R2 : Mat) (t : List ℚ) (K1 K2 : Mat)
    (pts1 pts2 : List Point2f) (mask : List Nat)
    (h1 : pts1.length = pts2.length) (h2 : mask.length = pts1.length) :
    ∃ rt, findBestRT ext R1 R2 t K1 K2 pts1 pts2 mask = some rt := by
  unfold findBestRT
  rw [if_neg (not_not.2 h1)]
  simp only
  have hm : (if mask.isEmpty = true then List.replicate pts1.length 255 else mask).length =
      pts1.length := by
    split
    · simp
    · exact h2
  generalize (if mask.isEmpty = true then List.replicate pts1.length 255 else mask) = mask' at hm ⊢
  have hs : ∀ P Q, ∃ X, triangulate ext P Q pts1 pts2 mask' = some X := by
    intro P Q
    apply Option.isSome_iff_exists.1
    rw [triangulate_isSome]
    exact ⟨h1, hm⟩
  obtain ⟨X1, e1⟩ := hs ((List.range 3).map (fun i => (K1.row i).take 3 ++ [0])) (K2.mul (hconcat R1 t))
  obtain ⟨X2, e2⟩ := hs ((List.range 3).map (fun i => (K1.row i).take 3 ++ [0])) (K2.mul (hconcat R2 t))
  obtain ⟨X3, e3⟩ := hs ((List.range 3).map (fun i => (K1.row i).take 3 ++ [0]))
    (K2.mul (hconcat R1 (t.map (fun x => x * -1))))
  obtain ⟨X4, e4⟩ := hs ((List.range 3).map (fun i => (K1.row i).take 3 ++ [0]))
    (K2.mul (hconcat R2 (t.map (fun x => x * -1))))
  simp only [e1, e2, e3, e4]
  split_ifs <;> exact ⟨_, rfl⟩

/-! ## `addSecondFrame` -/

theorem compactFold (pts_ref_ pts_cur_ : List Point2f) (inliers : List Nat)
    (P3Ds : List (List ℚ)) (l : List Nat) :
    ∀ acc : List Point2f × List Point2f × List (ℚ × ℚ × ℚ),
      l.foldl (compactStep pts_ref_ pts_cur_ inliers P3Ds) acc =
        (acc.1 ++ (l.filter (fun i => inliers.getD i 0 != 0)).map (fun i => pts_ref_.getD i (0, 0)),
         acc.2.1 ++ (l.filter (fun i => inliers.getD i 0 != 0)).map (fun i => pts_cur_.getD i (0, 0)),
         acc.2.2 ++ (l.filter (fun i => inliers.getD i 0 != 0)).map (point3 P3Ds)) := by
  induction l with
  | nil => intro acc; simp
  | cons a t ih =>
    intro acc
    simp only [List.foldl_cons]
    rw [ih]
    unfold compactStep
    by_cases h : inliers.getD a 0 = 0
    · have hf : (inliers.getD a 0 != 0) = false := by rw [h]; rfl
      rw [if_pos h]
      simp only [List.filter_cons, hf, Bool.false_eq_true, if_false]
    · have hf : (inliers.getD a 0 != 0) = true := bne_iff_ne.2 h
      rw [if_neg h]
      simp only [List.filter_cons, hf, if_true, List.map_cons, List.append_assoc,
        List.singleton_append]

/-- The compaction loop keeps exactly the entries whose mask entry is set, in
increasing index order, and appends their 3-D points to `p3ds_`. -/
theorem compactInliers_spec (s : Initializer) (P3Ds : List (List ℚ)) :
    (compactInliers s P3Ds).pts_ref_ =
      (inlierIndices s.inliers_ s.pts_ref_.length).map (fun i => s.pts_ref_.getD i (0, 0)) ∧
    (compactInliers s P3Ds).pts_cur_ =
      (inlierIndices s.inliers_ s.pts_ref_.length).map (fun i => s.pts_cur_.getD i (0, 0)) ∧
    (compactInliers s P3Ds).p3ds_ =
      s.p3ds_ ++ (inlierIndices s.inliers_ s.pts_ref_.length).map (point3 P3Ds) ∧
    (compactInliers s P3Ds).inliers_ = s.inliers_ := by
  unfold compactInliers
  simp only [compactFold, inlierIndices, List.nil_append, and_self]

theorem cheiralityStage_some (ext : Externals) (frame_ref frame_cur : Frame) (s : Initializer)
    (F : Mat) (r : InitResult) (s' : Initializer)
    (h : cheiralityStage ext frame_ref frame_cur s F = some (r, s')) :
    ∃ rt, findBestRT ext
        (decomposeEssentialMat ext ((frame_ref.cvK.t.mul F).mul frame_cur.cvK)).1
        (decomposeEssentialMat ext ((frame_ref.cvK.t.mul F).mul frame_cur.cvK)).2.1
        (decomposeEssentialMat ext ((frame_ref.cvK.t.mul F).mul frame_cur.cvK)).2.2
        frame_ref.cvK frame_cur.cvK s.pts_ref_ s.pts_cur_ s.inliers_ = some rt ∧
      ((rt.1 = false ∧ r = InitResult.FAILURE ∧ s' = { s with inliers_ := rt.2.1 }) ∨
       (rt.1 = true ∧ r = InitResult.SUCCESS ∧
        s' = compactInliers { s with inliers_ := rt.2.1 } rt.2.2.1)) := by
  unfold cheiralityStage at h
  simp only at h
  split at h
  · cases h
  · next rt e =>
    refine ⟨rt, e, ?_⟩
    cases hb : rt.1 with
    | false =>
      simp only [hb, Bool.not_false, if_true, Option.some.injEq, Prod.mk.injEq] at h
      exact Or.inl ⟨rfl, h.1.symm, h.2.symm⟩
    | true =>
      simp only [hb, Bool.not_true, Bool.false_eq_true, if_false, Option.some.injEq,
        Prod.mk.injEq] at h
      exact Or.inr ⟨rfl, h.1.symm, h.2.symm⟩

theorem geometryStage_some (ext : Externals) (cfg : Config) (frame_ref frame_cur : Frame)
    (s : Initializer) (r : InitResult) (s' : Initializer)
    (h : geometryStage ext cfg frame_ref frame_cur s = some (r, s')) :
    ∃ fm, findFundamentalMat ext s.pts_ref_ s.pts_cur_ cfg.initSigma cfg.initMaxRansacIters
        s.rng = some fm ∧
      ((fm.1 < cfg.initMinInliers ∧ r = InitResult.FAILURE ∧
        s' = { s with inliers_ := fm.2.2.1, rng := fm.2.2.2 }) ∨
       (¬ fm.1 < cfg.initMinInliers ∧
        cheiralityStage ext frame_ref frame_cur
          { s with inliers_ := fm.2.2.1, rng := fm.2.2.2 } fm.2.1 = some (r, s'))) := by
  unfold geometryStage at h
  split at h
  · cases h
  · next fm e =>
    refine ⟨fm, e, ?_⟩
    by_cases hc : fm.1 < cfg.initMinInliers
    · rw [if_pos hc] at h
      simp only [Option.some.injEq, Prod.mk.injEq] at h
      exact Or.inl ⟨hc, h.1.symm, h.2.symm⟩
    · rw [if_neg hc] at h
      exact Or.inr ⟨hc, h⟩

theorem addSecondFrame_some (ext : Externals) (cfg : Config) (s : Initializer)
    (frame_cur : Frame) (r : InitResult) (s' : Initializer)
    (h : addSecondFrame ext cfg s frame_cur = some (r, s')) :
    ∃ frame_ref klt, s.frame_ref_ = some frame_ref ∧
      kltTrack ext frame_ref.img frame_cur.img s.pts_ref_ s.pts_cur_ = some klt ∧
      ((klt.2.2.length < cfg.initMinTracked ∧ r = InitResult.RESET ∧
        s' = afterKlt s frame_cur klt) ∨
       (¬ klt.2.2.length < cfg.initMinTracked ∧
        disparityGate klt.2.2 cfg.initMinDisparity = true ∧ r = InitResult.FAILURE ∧
        s' = afterKlt s frame_cur klt) ∨
       (¬ klt.2.2.length < cfg.initMinTracked ∧
        disparityGate klt.2.2 cfg.initMinDisparity = false ∧
        geometryStage ext cfg frame_ref frame_cur (afterKlt s frame_cur klt) = some (r, s'))) := by
  unfold addSecondFrame at h
  split at h
  · cases h
  · next frame_ref hf =>
    split at h
    · cases h
    · next klt hk =>
      refine ⟨frame_ref, klt, hf, hk, ?_⟩
      by_cases h1 : klt.2.2.length < cfg.initMinTracked
      · rw [if_pos h1] at h
        simp only [Option.some.injEq, Prod.mk.injEq] at h
        exact Or.inl ⟨h1, h.1.symm, h.2.symm⟩
      · rw [if_neg h1] at h
        cases h2 : disparityGate klt.2.2 cfg.initMinDisparity with
        | true =>
          simp only [h2, if_true, Option.some.injEq, Prod.mk.injEq] at h
          exact Or.inr (Or.inl ⟨h1, rfl, h.1.symm, h.2.symm⟩)
        | false =>
          simp only [h2, Bool.false_eq_true, if_false] at h
          exact Or.inr (Or.inr ⟨h1, rfl, h⟩)

/-- After a call of `addSecondFrame` that returns, `pts_ref_` and `pts_cur_` have
one length, which is also that of `inliers_` unless the result is `SUCCESS`. -/
theorem addSecondFrame_lengths (ext : Externals) (cfg : Config) (s : Initializer)
    (frame_cur : Frame) (r : InitResult) (s' : Initializer)
    (h : addSecondFrame ext cfg s frame_cur = some (r, s')) :
    s'.pts_ref_.length = s'.pts_cur_.length ∧
    (r ≠ InitResult.SUCCESS → s'.inliers_.length = s'.pts_ref_.length) := by
  obtain ⟨frame_ref, klt, _, hk, hcase⟩ := addSecondFrame_some ext cfg s frame_cur r s' h
  obtain ⟨_, k1, _⟩ := kltTrack_some _ _ _ _ _ _ hk
  rcases hcase with ⟨_, _, hs⟩ | ⟨_, _, _, hs⟩ | ⟨_, _, hg⟩
  · subst hs; exact ⟨k1, fun _ => by simp [afterKlt]⟩
  · subst hs; exact ⟨k1, fun _ => by simp [afterKlt]⟩
  · obtain ⟨fm, hfm, hcase⟩ := geometryStage_some _ _ _ _ _ _ _ hg
    obtain ⟨_, _, f3⟩ := findFundamentalMat_some _ _ _ _ _ _ _ hfm
    rcases hcase with ⟨_, _, hs⟩ | ⟨_, hc⟩
    · subst hs; exact ⟨k1, fun _ => f3⟩
    · obtain ⟨rt, hrt, hcase⟩ := cheiralityStage_some _ _ _ _ _ _ _ hc
      obtain ⟨_, r2⟩ := findBestRT_some _ _ _ _ _ _ _ _ _ _ hrt
      rcases hcase with ⟨_, _, hs⟩ | ⟨_, hr, hs⟩
      · subst hs; exact ⟨k1, fun _ => r2⟩
      · subst hs
        obtain ⟨c1, c2, _, _⟩ := compactInliers_spec
          { afterKlt s frame_cur klt with inliers_ := rt.2.1, rng := fm.2.2.2 } rt.2.2.1
        refine ⟨?_, fun hne => absurd hr hne⟩
        rw [c1, c2]
        simp

theorem addSecondFrames_lengths (ext : Externals) (cfg : Config) (frames : List Frame) :
    ∀ (st st' : Option InitResult × Initializer),
      addSecondFrames ext cfg st frames = some st' →
      st.2.pts_ref_.length = st.2.pts_cur_.length →
      (st.1 = none → st.2.inliers_ = []) →
      (st.1 = some InitResult.RESET ∨ st.1 = some InitResult.FAILURE →
        st.2.inliers_.length = st.2.pts_ref_.length) →
      st'.2.pts_ref_.length = st'.2.pts_cur_.length ∧
      (st'.1 = none → st'.2.inliers_ = []) ∧
      (st'.1 = some InitResult.RESET ∨ st'.1 = some InitResult.FAILURE →
        st'.2.inliers_.length = st'.2.pts_ref_.length) := by
  induction frames with
  | nil =>
    intro st st' h h1 h2 h3
    simp only [addSecondFrames, Option.some.injEq] at h
    subst h
    exact ⟨h1, h2, h3⟩
  | cons f fs ih =>
    intro st st' h _ _ _
    simp only [addSecondFrames] at h
    split at h
    · cases h
    · next r e =>
      obtain ⟨l1, l2⟩ := addSecondFrame_lengths ext cfg st.2 f r.1 r.2 e
      apply ih (some r.1, r.2) st' h l1
      · intro hn; cases hn
      · intro hr
        apply l2
        rcases hr with hr | hr <;> · simp only [Option.some.injEq] at hr; rw [hr]; decide

theorem addFirstFrame_lengths (cfg : Config) (s : Initializer) (frame_ref : Frame) :
    (addFirstFrame cfg s frame_ref).2.pts_ref_.length =
      (addFirstFrame cfg s frame_ref).2.pts_cur_.length ∧
    (addFirstFrame cfg s frame_ref).2.inliers_ = [] := by
  unfold addFirstFrame
  by_cases h : frame_ref.kps_.length < cfg.initMinCorners
  · simp [h]
  · simp [h]

/-- C6 (as amended): after `addFirstFrame` has returned (`SUCCESS` or not) and any
sequence of `addSecondFrame` calls that return, `pts_ref_` and `pts_cur_` have one
length; `inliers_` is empty when no `addSecondFrame` call was made yet, and has the
length of `pts_ref_` when the last call returned `RESET` or `FAILURE`. -/
theorem C6_lengths_after_first_frame (ext : Externals) (cfg : Config) (s : Initializer)
    (frame_ref : Frame) (frames : List Frame) (last : Option InitResult) (s' : Initializer)
    (h2 : addSecondFrames ext cfg (none, (addFirstFrame cfg s frame_ref).2) frames =
      some (last, s')) :
    s'.pts_ref_.length = s'.pts_cur_.length ∧
    (last = none → s'.inliers_ = []) ∧
    (last = some InitResult.RESET ∨ last = some InitResult.FAILURE →
      s'.inliers_.length = s'.pts_ref_.length) := by
  obtain ⟨c1, c2⟩ := addFirstFrame_lengths cfg s frame_ref
  exact addSecondFrames_lengths ext cfg frames _ _ h2 c1 (fun _ => c2)
    (fun h => by rcases h with h | h <;> cases h)

/-- C6, the claim as stated fails. Right after `addFirstFrame` returned `SUCCESS`
on the example frame, `pts_ref_` and `pts_cur_` hold 10 points and `inliers_` is
empty; after the next `addSecondFrame` returned `SUCCESS`, they hold 9 points and
`inliers_` has 10 entries. -/
theorem C6_counterexample :
    (addFirstFrame exampleConfig Initializer.init exampleFrame).1 = InitResult.SUCCESS ∧
    exampleFirst.pts_ref_.length = 10 ∧ exampleFirst.pts_cur_.length = 10 ∧
    exampleFirst.inliers_.length = 0 ∧
    exampleSecond.map (fun r => (r.1, r.2.pts_ref_.length, r.2.pts_cur_.length,
      r.2.inliers_.length)) = some (InitResult.SUCCESS, 9, 9, 10) := by
  decide!

/-- C6, witness: with `initMinInliers = 10` the call of `addSecondFrame` on the
example returns `FAILURE` (RANSAC finds 9 inliers) and leaves 10 points in
`pts_ref_` and `pts_cur_` and 10 entries in `inliers_`. -/
theorem C6_witness :
    (addFirstFrame { exampleConfig with initMinInliers := 10 } Initializer.init exampleFrame).1 =
      InitResult.SUCCESS ∧
    (addSecondFrames exampleExternals { exampleConfig with initMinInliers := 10 }
      (none, (addFirstFrame { exampleConfig with initMinInliers := 10 } Initializer.init
        exampleFrame).2) [exampleFrame]).map
        (fun r => (r.1, r.2.pts_ref_.length, r.2.inliers_.length)) =
      some (some InitResult.FAILURE, 10, 10) ∧
    ∀ last s', addSecondFrames exampleExternals { exampleConfig with initMinInliers := 10 }
      (none, (addFirstFrame { exampleConfig with initMinInliers := 10 } Initializer.init
        exampleFrame).2) [exampleFrame] = some (last, s') →
      s'.pts_ref_.length = s'.pts_cur_.length ∧
      (last = none → s'.inliers_ = []) ∧
      (last = some InitResult.RESET ∨ last = some InitResult.FAILURE →
        s'.inliers_.length = s'.pts_ref_.length) :=
  ⟨by decide!, by decide!, fun last s' h =>
    C6_lengths_after_first_frame exampleExternals { exampleConfig with initMinInliers := 10 }
      Initializer.init exampleFrame [exampleFrame] last s' h⟩

/-- A call of `addSecondFrame` that returns `RESET` or `FAILURE` leaves `p3ds_`
as it was. -/
theorem addSecondFrame_p3ds (ext : Externals) (cfg : Config) (s : Initializer)
    (frame_cur : Frame) (r : InitResult) (s' : Initializer)
    (h : addSecondFrame ext cfg s frame_cur = some (r, s')) (hr : r ≠ InitResult.SUCCESS) :
    s'.p3ds_ = s.p3ds_ := by
  obtain ⟨frame_ref, klt, _, _, hcase⟩ := addSecondFrame_some ext cfg s frame_cur r s' h
  rcases hcase with ⟨_, _, hs⟩ | ⟨_, _, _, hs⟩ | ⟨_, _, hg⟩
  · subst hs; rfl
  · subst hs; rfl
  · obtain ⟨fm, _, hcase⟩ := geometryStage_some _ _ _ _ _ _ _ hg
    rcases hcase with ⟨_, _, hs⟩ | ⟨_, hc⟩
    · subst hs; rfl
    · obtain ⟨rt, _, hcase⟩ := cheiralityStage_some _ _ _ _ _ _ _ hc
      rcases hcase with ⟨_, _, hs⟩ | ⟨_, hsucc, _⟩
      · subst hs; rfl
      · exact absurd hsucc hr

/-- C5 (as amended): when `addSecondFrame` is entered with `p3ds_` empty and
returns `SUCCESS`, then `pts_ref_`, `pts_cur_` and `p3ds_` have one length, and
with `klt` the correspondences that survived `kltTrack` and `P3Ds` the points
reported by `findBestRT` together with the mask left in `inliers_`, the three
vectors hold, for the indices whose mask entry is set and in increasing index
order, the reference point, the current point and the 3-D point of that index. -/
theorem C5_compaction_on_success (ext : Externals) (cfg : Config) (s : Initializer)
    (frame_cur : Frame) (s' : Initializer)
    (h : addSecondFrame ext cfg s frame_cur = some (InitResult.SUCCESS, s'))
    (hp : s.p3ds_ = []) :
    ∃ frame_ref klt R1 R2 t mask P3Ds T,
      s.frame_ref_ = some frame_ref ∧
      kltTrack ext frame_ref.img frame_cur.img s.pts_ref_ s.pts_cur_ = some klt ∧
      findBestRT ext R1 R2 t frame_ref.cvK frame_cur.cvK klt.1 klt.2.1 mask =
        some (true, s'.inliers_, P3Ds, T) ∧
      s'.pts_ref_ =
        (inlierIndices s'.inliers_ klt.1.length).map (fun i => klt.1.getD i (0, 0)) ∧
      s'.pts_cur_ =
        (inlierIndices s'.inliers_ klt.1.length).map (fun i => klt.2.1.getD i (0, 0)) ∧
      s'.p3ds_ = (inlierIndices s'.inliers_ klt.1.length).map (point3 P3Ds) ∧
      s'.pts_ref_.length = s'.pts_cur_.length ∧ s'.pts_cur_.length = s'.p3ds_.length := by
  obtain ⟨frame_ref, klt, hf, hk, hcase⟩ :=
    addSecondFrame_some ext cfg s frame_cur InitResult.SUCCESS s' h
  rcases hcase with ⟨_, hr, _⟩ | ⟨_, _, hr, _⟩ | ⟨_, _, hg⟩
  · cases hr
  · cases hr
  · obtain ⟨fm, hfm, hcase⟩ := geometryStage_some _ _ _ _ _ _ _ hg
    rcases hcase with ⟨_, hr, _⟩ | ⟨_, hc⟩
    · cases hr
    · obtain ⟨rt, hrt, hcase⟩ := cheiralityStage_some _ _ _ _ _ _ _ hc
      rcases hcase with ⟨_, hr, _⟩ | ⟨hb, _, hs⟩
      · cases hr
      · obtain ⟨c1, c2, c3, c4⟩ := compactInliers_spec
          { afterKlt s frame_cur klt with inliers_ := rt.2.1, rng := fm.2.2.2 } rt.2.2.1
        rw [← hs] at c1 c2 c3 c4
        simp only [afterKlt, hp, List.nil_append] at c1 c2 c3 c4
        refine ⟨frame_ref, klt,
          (decomposeEssentialMat ext ((frame_ref.cvK.t.mul fm.2.1).mul frame_cur.cvK)).1,
          (decomposeEssentialMat ext ((frame_ref.cvK.t.mul fm.2.1).mul frame_cur.cvK)).2.1,
          (decomposeEssentialMat ext ((frame_ref.cvK.t.mul fm.2.1).mul frame_cur.cvK)).2.2,
          fm.2.2.1, rt.2.2.1, rt.2.2.2, hf, hk, ?_, ?_, ?_, ?_, ?_, ?_⟩
        · rw [c4, ← hb]
          exact hrt
        · rw [c4]; exact c1
        · rw [c4]; exact c2
        · rw [c4]; exact c3
        · rw [c1, c2]; simp
        · rw [c2, c3]; simp

/-- C5, the claim as stated fails: `p3ds_` is only appended to. Two calls of
`addSecondFrame` in a row on the example both return `SUCCESS`; after the second
one `pts_ref_` and `pts_cur_` hold 8 points and `p3ds_` holds 17. -/
theorem C5_counterexample :
    exampleSecond.map Prod.fst = some InitResult.SUCCESS ∧
    (exampleSecond.bind (fun r =>
      addSecondFrame exampleExternals exampleConfig r.2 exampleFrame)).map
      (fun r => (r.1, r.2.pts_ref_.length, r.2.pts_cur_.length, r.2.p3ds_.length)) =
      some (InitResult.SUCCESS, 8, 8, 17) := by
  decide!

/-- C5, witness: the first `addSecondFrame` on the example is entered with
`p3ds_` empty and returns `SUCCESS` with 9 points in each of the three vectors. -/
theorem C5_witness :
    exampleFirst.p3ds_ = [] ∧
    exampleSecond.map (fun r => (r.1, r.2.pts_ref_.length, r.2.pts_cur_.length,
      r.2.p3ds_.length)) = some (InitResult.SUCCESS, 9, 9, 9) ∧
    ∀ s', addSecondFrame exampleExternals exampleConfig exampleFirst exampleFrame =
        some (InitResult.SUCCESS, s') →
      ∃ frame_ref klt R1 R2 t mask P3Ds T,
        exampleFirst.frame_ref_ = some frame_ref ∧
        kltTrack exampleExternals frame_ref.img exampleFrame.img exampleFirst.pts_ref_
          exampleFirst.pts_cur_ = some klt ∧
        findBestRT exampleExternals R1 R2 t frame_ref.cvK exampleFrame.cvK klt.1 klt.2.1 mask =
          some (true, s'.inliers_, P3Ds, T) ∧
        s'.pts_ref_ =
          (inlierIndices s'.inliers_ klt.1.length).map (fun i => klt.1.getD i (0, 0)) ∧
        s'.pts_cur_ =
          (inlierIndices s'.inliers_ klt.1.length).map (fun i => klt.2.1.getD i (0, 0)) ∧
        s'.p3ds_ = (inlierIndices s'.inliers_ klt.1.length).map (point3 P3Ds) ∧
        s'.pts_ref_.length = s'.pts_cur_.length ∧ s'.pts_cur_.length = s'.p3ds_.length :=
  ⟨by decide!, by decide!, fun s' h =>
    C5_compaction_on_success exampleExternals exampleConfig exampleFirst exampleFrame s' h
      (by decide!)⟩

/-- C4, `getTrackedPoints` after a `SUCCESS` reads the mask of the vectors before
compaction. On the example `addSecondFrame` returns `SUCCESS` and leaves 9
correspondences in `pts_ref_` and `pts_cur_`, with the mask
`255, 0, 255, ..., 255` of the 10 tracked ones still in `inliers_`;
`getTrackedPoints` with empty output vectors then yields 8 pairs: it drops the
compacted pair at index 1, whose stale mask entry is 0. -/
theorem C4_getTrackedPoints_after_success :
    exampleSecond.map (fun r => (r.1, r.2.pts_ref_.length, r.2.pts_cur_.length, r.2.inliers_)) =
      some (InitResult.SUCCESS, 9, 9, [255, 0, 255, 255, 255, 255, 255, 255, 255, 255]) ∧
    exampleSecond.map (fun r => (getTrackedPoints r.2 [] []).map
      (fun o => (o.1.length, o.2.length, decide (o.1 = r.2.pts_ref_), decide (o.2 = r.2.pts_cur_)))) =
      some (some (8, 8, false, false)) ∧
    exampleSecond.map (fun r => (r.2.pts_ref_.getD 1 (0, 0), r.2.pts_cur_.getD 1 (0, 0))) =
      some ((2, 4), (3, 4)) ∧
    exampleSecond.map (fun r => (getTrackedPoints r.2 [] []).map
      (fun o => decide ((2, 4) ∈ o.1))) = some (some false) := by
  decide!

/-! ## The order of the gates of `addSecondFrame` -/

theorem kltStep_congr (ext ext' : Externals) (hs : ext'.sqrt = ext.sqrt) (s : KltState) :
    kltStep ext' s = kltStep ext s := by
  unfold kltStep
  rw [hs]

theorem kltLoop_congr (ext ext' : Externals) (hs : ext'.sqrt = ext.sqrt) :
    ∀ (fuel : Nat) (s : KltState), kltLoop ext' fuel s = kltLoop ext fuel s := by
  intro fuel
  induction fuel with
  | zero => intro s; rfl
  | succ fuel ih =>
    intro s
    simp only [kltLoop, kltStep_congr ext ext' hs, ih]

theorem kltTrack_congr (ext ext' : Externals)
    (hc : ext'.calcOpticalFlowPyrLK = ext.calcOpticalFlowPyrLK) (hs : ext'.sqrt = ext.sqrt)
    (img_ref img_cur : Nat) (pts_ref pts_cur : List Point2f) :
    kltTrack ext' img_ref img_cur pts_ref pts_cur = kltTrack ext img_ref img_cur pts_ref pts_cur := by
  unfold kltTrack
  rw [hc]
  simp only [kltLoop_congr ext ext' hs]

theorem findFundamentalMat_defined (ext : Externals) (pts_prev pts_next : List Point2f)
    (sigma : ℚ) (max_iterations : Int) (rng : Nat)
    (hl : pts_prev.length = pts_next.length) (h8 : 8 ≤ pts_prev.length) :
    ∃ st, ransacBest ext pts_prev pts_next sigma max_iterations rng = some st ∧
      (8 ≤ (selectByMask st.inliers pts_prev).length →
        ∃ F, findFundamentalMat ext pts_prev pts_next sigma max_iterations rng =
          some (st.max_inliers, F, st.inliers, st.rng)) := by
  obtain ⟨st, hst, _⟩ := ransacBest_spec ext pts_prev pts_next sigma max_iterations rng h8
  refine ⟨st, hst, fun hsel => ?_⟩
  obtain ⟨F, hF⟩ := Option.isSome_iff_exists.1
    ((run8point_isSome ext (selectByMask st.inliers pts_prev)
      (selectByMask st.inliers pts_next)).2 hsel)
  refine ⟨F, ?_⟩
  unfold findFundamentalMat runRANSAC
  simp [hl, hst, hF]

/-- The first two gates of `addSecondFrame`: with `frame_ref_` set and `klt` the
result of `kltTrack`, the call returns `RESET` exactly when the number of
survivors is below `initMinTracked`; otherwise it returns `FAILURE` when the
disparity gate holds, the mean computed in `double` arithmetic being below
`initMinDisparity`; on these two paths the outcome is the same under any other
behaviour of the routines behind RANSAC and triangulation, which are not
reached. -/
theorem addSecondFrame_early_gates (ext : Externals) (cfg : Config) (s : Initializer)
    (frame_ref frame_cur : Frame) (klt : List Point2f × List Point2f × List ℚ)
    (hf : s.frame_ref_ = some frame_ref)
    (hk : kltTrack ext frame_ref.img frame_cur.img s.pts_ref_ s.pts_cur_ = some klt) :
    ((addSecondFrame ext cfg s frame_cur).map Prod.fst = some InitResult.RESET ↔
      klt.2.2.length < cfg.initMinTracked) ∧
    (¬ klt.2.2.length < cfg.initMinTracked →
      disparityGate klt.2.2 cfg.initMinDisparity = true →
      (addSecondFrame ext cfg s frame_cur).map Prod.fst = some InitResult.FAILURE) ∧
    (klt.2.2.length < cfg.initMinTracked ∨ disparityGate klt.2.2 cfg.initMinDisparity = true →
      ∀ ext' : Externals, ext'.calcOpticalFlowPyrLK = ext.calcOpticalFlowPyrLK →
        ext'.sqrt = ext.sqrt →
        addSecondFrame ext' cfg s frame_cur = addSecondFrame ext cfg s frame_cur) := by
  have hunf : addSecondFrame ext cfg s frame_cur =
      if klt.2.2.length < cfg.initMinTracked then some (InitResult.RESET, afterKlt s frame_cur klt)
      else if disparityGate klt.2.2 cfg.initMinDisparity then
        some (InitResult.FAILURE, afterKlt s frame_cur klt)
      else geometryStage ext cfg frame_ref frame_cur (afterKlt s frame_cur klt) := by
    unfold addSecondFrame
    simp only [hf, hk]
  refine ⟨?_, ?_, ?_⟩
  · constructor
    · intro h
      by_contra hn
      rw [hunf, if_neg hn] at h
      cases hg : disparityGate klt.2.2 cfg.initMinDisparity with
      | true => simp [hg] at h
      | false =>
        simp only [hg, Bool.false_eq_true, if_false] at h
        cases hgs : geometryStage ext cfg frame_ref frame_cur (afterKlt s frame_cur klt) with
        | none => simp [hgs] at h
        | some r =>
          obtain ⟨r1, r2⟩ := r
          simp only [hgs, Option.map_some', Option.some.injEq] at h
          subst h
          obtain ⟨fm, _, hcase⟩ := geometryStage_some _ _ _ _ _ _ _ hgs
          rcases hcase with ⟨_, hr, _⟩ | ⟨_, hc⟩
          · cases hr
          · obtain ⟨rt, _, hcase⟩ := cheiralityStage_some _ _ _ _ _ _ _ hc
            rcases hcase with ⟨_, hr, _⟩ | ⟨_, hr, _⟩ <;> cases hr
    · intro h
      rw [hunf, if_pos h]
      rfl
  · intro h1 h2
    rw [hunf, if_neg h1, if_pos h2]
    rfl
  · intro h ext' hc hs
    have hk' : kltTrack ext' frame_ref.img frame_cur.img s.pts_ref_ s.pts_cur_ = some klt := by
      rw [kltTrack_congr ext ext' hc hs]; exact hk
    have hunf' : addSecondFrame ext' cfg s frame_cur =
        if klt.2.2.length < cfg.initMinTracked then
          some (InitResult.RESET, afterKlt s frame_cur klt)
        else if disparityGate klt.2.2 cfg.initMinDisparity then
          some (InitResult.FAILURE, afterKlt s frame_cur klt)
        else geometryStage ext' cfg frame_ref frame_cur (afterKlt s frame_cur klt) := by
      unfold addSecondFrame
      simp only [hf, hk']
    rw [hunf, hunf']
    rcases h with h | h
    · rw [if_pos h, if_pos h]
    · by_cases h1 : klt.2.2.length < cfg.initMinTracked
      · rw [if_pos h1, if_pos h1]
      · rw [if_neg h1, if_neg h1, if_pos h, if_pos h]

/-! ## What the rebuild of the ordered view does establish -/

theorem multimapInsertLowerBound_perm (m : List (Int × Nat)) (w : Int) (k : Nat) :
    List.Perm (multimapInsertLowerBound m w k) ((w, k) :: m) := by
  unfold multimapInsertLowerBound
  have h := List.takeWhile_append_dropWhile (fun e : Int × Nat => decide (e.1 < w)) m
  refine List.perm_middle.trans ?_
  rw [h]

theorem sorted_takeWhile_dropWhile (m : List (Int × Nat)) (w : Int)
    (hs : m.Sorted (fun x y => x.1 ≤ y.1)) :
    (∀ x ∈ m.takeWhile (fun e => decide (e.1 < w)), x.1 < w) ∧
    (∀ y ∈ m.dropWhile (fun e => decide (e.1 < w)), w ≤ y.1) := by
  induction m with
  | nil => simp
  | cons a t ih =>
    simp only [List.sorted_cons] at hs
    by_cases ha : a.1 < w
    · simp only [List.takeWhile_cons, List.dropWhile_cons, ha, decide_True, if_true]
      refine ⟨fun x hx => ?_, (ih hs.2).2⟩
      rcases List.mem_cons.1 hx with hx | hx
      · rw [hx]; exact ha
      · exact (ih hs.2).1 x hx
    · simp only [List.takeWhile_cons, List.dropWhile_cons, ha, decide_False,
        Bool.false_eq_true, if_false]
      refine ⟨fun x hx => by simp at hx, fun y hy => ?_⟩
      rcases List.mem_cons.1 hy with hy | hy
      · rw [hy]; exact not_lt.1 ha
      · exact le_trans (not_lt.1 ha) (hs.1 y hy)

theorem multimapInsertLowerBound_sorted (m : List (Int × Nat)) (w : Int) (k : Nat)
    (hs : m.Sorted (fun x y => x.1 ≤ y.1)) :
    (multimapInsertLowerBound m w k).Sorted (fun x y => x.1 ≤ y.1) := by
  unfold multimapInsertLowerBound
  obtain ⟨h1, h2⟩ := sorted_takeWhile_dropWhile m w hs
  have hsplit := List.takeWhile_append_dropWhile (fun e : Int × Nat => decide (e.1 < w)) m
  have hs' : (m.takeWhile (fun e => decide (e.1 < w)) ++
      m.dropWhile (fun e => decide (e.1 < w))).Sorted (fun x y => x.1 ≤ y.1) := by
    rw [hsplit]; exact hs
  rw [List.Sorted, List.pairwise_append] at hs' ⊢
  refine ⟨hs'.1, ?_, ?_⟩
  · rw [List.pairwise_cons]
    exact ⟨fun y hy => h2 y hy, hs'.2.1⟩
  · intro x hx y hy
    rcases List.mem_cons.1 hy with hy | hy
    · rw [hy]; exact le_of_lt (h1 x hx)
    · exact hs'.2.2 x hx y hy

theorem updateOrderedFold_view (l : List (Nat × Int)) :
    ∀ acc : List (Int × Nat) × Int × Option Nat, acc.1.Sorted (fun x y => x.1 ≤ y.1) →
      List.Perm (l.foldl updateOrderedStep acc).1 (acc.1 ++ l.map (fun e => (e.2, e.1))) ∧
      (l.foldl updateOrderedStep acc).1.Sorted (fun x y => x.1 ≤ y.1) := by
  induction l with
  | nil => intro acc h; simpa using h
  | cons c t ih =>
    intro acc h
    simp only [List.foldl_cons, List.map_cons]
    have hstep : (updateOrderedStep acc c).1 = multimapInsertLowerBound acc.1 c.2 c.1 := by
      unfold updateOrderedStep
      split <;> rfl
    obtain ⟨p, q⟩ := ih (updateOrderedStep acc c)
      (by rw [hstep]; exact multimapInsertLowerBound_sorted _ _ _ h)
    refine ⟨p.trans ?_, q⟩
    rw [hstep]
    refine ((multimapInsertLowerBound_perm acc.1 c.2 c.1).append_right _).trans ?_
    simp only [List.cons_append]
    exact List.perm_middle.symm

theorem getLast_insertLowerBound (m : List (Int × Nat)) (w : Int) (k : Nat) (z : Int × Nat)
    (hz : m.getLast? = some z) (hw : w ≤ z.1) :
    (multimapInsertLowerBound m w k).getLast? = some z := by
  unfold multimapInsertLowerBound
  induction m with
  | nil => simp at hz
  | cons a t ih =>
    by_cases ha : a.1 < w
    · simp only [List.takeWhile_cons, List.dropWhile_cons, ha, decide_True, if_true,
        List.cons_append]
      cases t with
      | nil =>
        simp only [List.getLast?_singleton, Option.some.injEq] at hz
        rw [hz] at ha
        omega
      | cons b t' =>
        rw [List.getLast?_cons_cons] at hz
        have := ih hz
        rw [List.getLast?_cons, this]
        rfl
    · simp only [List.takeWhile_cons, List.dropWhile_cons, ha, decide_False,
        Bool.false_eq_true, if_false, List.nil_append]
      rw [List.getLast?_cons_cons]
      exact hz

theorem updateOrderedFold_parent (l : List (Nat × Int)) :
    ∀ acc : List (Int × Nat) × Int × Option Nat,
      (∀ e ∈ acc.1, e.1 ≤ acc.2.1) →
      (0 < acc.2.1 → ∃ k, acc.1.getLast? = some (acc.2.1, k) ∧ acc.2.2 = some k) →
      (∀ e ∈ (l.foldl updateOrderedStep acc).1, e.1 ≤ (l.foldl updateOrderedStep acc).2.1) ∧
      (0 < (l.foldl updateOrderedStep acc).2.1 →
        ∃ k, (l.foldl updateOrderedStep acc).1.getLast? =
            some ((l.foldl updateOrderedStep acc).2.1, k) ∧
          (l.foldl updateOrderedStep acc).2.2 = some k) ∧
      acc.2.1 ≤ (l.foldl updateOrderedStep acc).2.1 := by
  induction l with
  | nil => intro acc h1 h2; exact ⟨h1, h2, le_refl _⟩
  | cons c t ih =>
    intro acc h1 h2
    simp only [List.foldl_cons]
    have hmem : ∀ e ∈ multimapInsertLowerBound acc.1 c.2 c.1, e = (c.2, c.1) ∨ e ∈ acc.1 := by
      intro e he
      have := (multimapInsertLowerBound_perm acc.1 c.2 c.1).subset he
      simpa using this
    by_cases hc : c.2 > acc.2.1
    · have hstep : updateOrderedStep acc c =
          (multimapInsertLowerBound acc.1 c.2 c.1, c.2, some c.1) := by
        unfold updateOrderedStep; simp [hc]
      have hall : acc.1.takeWhile (fun e => decide (e.1 < c.2)) = acc.1 := by
        rw [List.takeWhile_eq_self_iff]
        intro e he
        have := h1 e he
        simp only [decide_eq_true_eq]
        omega
      have hnone : acc.1.dropWhile (fun e => decide (e.1 < c.2)) = [] := by
        rw [List.dropWhile_eq_nil_iff]
        intro e he
        have := h1 e he
        simp only [decide_eq_true_eq]
        omega
      obtain ⟨r1, r2, r3⟩ := ih (updateOrderedStep acc c)
        (by
          rw [hstep]
          intro e he
          rcases hmem e he with he | he
          · rw [he]
          · have := h1 e he
            show e.1 ≤ c.2
            omega)
        (by
          rw [hstep]
          intro _
          refine ⟨c.1, ?_, rfl⟩
          show (multimapInsertLowerBound acc.1 c.2 c.1).getLast? = some (c.2, c.1)
          unfold multimapInsertLowerBound
          rw [hall, hnone]
          simp)
      refine ⟨r1, r2, ?_⟩
      have h3 : (updateOrderedStep acc c).2.1 = c.2 := by rw [hstep]
      rw [h3] at r3
      have : acc.2.1 ≤ c.2 := by omega
      exact le_trans this r3
    · have hstep : updateOrderedStep acc c =
          (multimapInsertLowerBound acc.1 c.2 c.1, acc.2.1, acc.2.2) := by
        unfold updateOrderedStep; simp [hc]
      have hle : c.2 ≤ acc.2.1 := by omega
      obtain ⟨r1, r2, r3⟩ := ih (updateOrderedStep acc c)
        (by
          rw [hstep]
          intro e he
          rcases hmem e he with he | he
          · rw [he]; exact hle
          · exact h1 e he)
        (by
          rw [hstep]
          intro hpos
          obtain ⟨k, hk1, hk2⟩ := h2 hpos
          exact ⟨k, getLast_insertLowerBound _ _ _ _ hk1 hle, hk2⟩)
      refine ⟨r1, r2, ?_⟩
      have h3 : (updateOrderedStep acc c).2.1 = acc.2.1 := by rw [hstep]
      rw [h3] at r3
      exact r3

/-- The rebuild `updateOrderedConnections` leaves the connected map alone and makes
the ordered view hold exactly its pairs, in non-increasing weight order; when some
weight is positive, `parent_` is the keyframe of the first element of the view. -/
theorem updateOrderedConnections_view (kf : KeyFrame) :
    kf.updateOrderedConnections.connectedKeyFrames_ = kf.connectedKeyFrames_ ∧
    List.Perm kf.updateOrderedConnections.orderedView
      (kf.connectedKeyFrames_.map (fun e => (e.2, e.1))) ∧
    List.Sorted (fun x y : Int × Nat => x.1 ≥ y.1) kf.updateOrderedConnections.orderedView ∧
    ((∃ e ∈ kf.connectedKeyFrames_, 0 < e.2) →
      kf.updateOrderedConnections.orderedView.head?.map Prod.snd =
        kf.updateOrderedConnections.parent_) := by
  obtain ⟨p, q⟩ := updateOrderedFold_view kf.connectedKeyFrames_ ([], 0, kf.parent_)
    List.sorted_nil
  obtain ⟨r1, r2, _⟩ := updateOrderedFold_parent kf.connectedKeyFrames_ ([], 0, kf.parent_)
    (by simp) (by simp)
  refine ⟨rfl, ?_, ?_, ?_⟩
  · unfold KeyFrame.orderedView KeyFrame.updateOrderedConnections
    exact (List.reverse_perm _).trans (by simpa using p)
  · unfold KeyFrame.orderedView KeyFrame.updateOrderedConnections
    simp only
    rw [List.Sorted, List.pairwise_reverse]
    exact q
  · rintro ⟨e, he, hpos⟩
    have hin : (e.2, e.1) ∈ (kf.connectedKeyFrames_.foldl updateOrderedStep
        ([], 0, kf.parent_)).1 := by
      apply p.symm.subset
      simp only [List.nil_append, List.mem_map]
      exact ⟨e, he, rfl⟩
    have hmax : 0 < (kf.connectedKeyFrames_.foldl updateOrderedStep ([], 0, kf.parent_)).2.1 :=
      lt_of_lt_of_le hpos (r1 _ hin)
    obtain ⟨k, hk1, hk2⟩ := r2 hmax
    unfold KeyFrame.orderedView KeyFrame.updateOrderedConnections
    simp only [List.head?_reverse, hk1, hk2, Option.map_some']

theorem multimapInsert_perm (m : List (Int × Nat)) (w : Int) (k : Nat) :
    List.Perm (multimapInsert m w k) ((w, k) :: m) := by
  unfold multimapInsert
  have h := List.takeWhile_append_dropWhile (fun e : Int × Nat => decide (e.1 ≤ w)) m
  refine List.perm_middle.trans ?_
  rw [h]

theorem sorted_takeWhile_dropWhile_le (m : List (Int × Nat)) (w : Int)
    (hs : m.Sorted (fun x y => x.1 ≤ y.1)) :
    (∀ x ∈ m.takeWhile (fun e => decide (e.1 ≤ w)), x.1 ≤ w) ∧
    (∀ y ∈ m.dropWhile (fun e => decide (e.1 ≤ w)), w ≤ y.1) := by
  induction m with
  | nil => simp
  | cons a t ih =>
    simp only [List.sorted_cons] at hs
    by_cases ha : a.1 ≤ w
    · simp only [List.takeWhile_cons, List.dropWhile_cons, ha, decide_True, if_true]
      refine ⟨fun x hx => ?_, (ih hs.2).2⟩
      rcases List.mem_cons.1 hx with hx | hx
      · rw [hx]; exact ha
      · exact (ih hs.2).1 x hx
    · simp only [List.takeWhile_cons, List.dropWhile_cons, ha, decide_False,
        Bool.false_eq_true, if_false]
      refine ⟨fun x hx => by simp at hx, fun y hy => ?_⟩
      rcases List.mem_cons.1 hy with hy | hy
      · rw [hy]; exact le_of_lt (not_le.1 ha)
      · exact le_trans (le_of_lt (not_le.1 ha)) (hs.1 y hy)

theorem multimapInsert_sorted (m : List (Int × Nat)) (w : Int) (k : Nat)
    (hs : m.Sorted (fun x y => x.1 ≤ y.1)) :
    (multimapInsert m w k).Sorted (fun x y => x.1 ≤ y.1) := by
  unfold multimapInsert
  obtain ⟨h1, h2⟩ := sorted_takeWhile_dropWhile_le m w hs
  have hsplit := List.takeWhile_append_dropWhile (fun e : Int × Nat => decide (e.1 ≤ w)) m
  have hs' : (m.takeWhile (fun e => decide (e.1 ≤ w)) ++
      m.dropWhile (fun e => decide (e.1 ≤ w))).Sorted (fun x y => x.1 ≤ y.1) := by
    rw [hsplit]; exact hs
  rw [List.Sorted, List.pairwise_append] at hs' ⊢
  refine ⟨hs'.1, ?_, ?_⟩
  · rw [List.pairwise_cons]
    exact ⟨fun y hy => h2 y hy, hs'.2.1⟩
  · intro x hx y hy
    rcases List.mem_cons.1 hy with hy | hy
    · rw [hy]; exact h1 x hx
    · exact hs'.2.2 x hx y hy

theorem multimapOfRange_view (l : List (Int × Nat)) :
    List.Perm (multimapOfRange l) l ∧ (multimapOfRange l).Sorted (fun x y => x.1 ≤ y.1) := by
  unfold multimapOfRange
  suffices H : ∀ (l m : List (Int × Nat)), m.Sorted (fun x y => x.1 ≤ y.1) →
      List.Perm (l.foldl (fun m e => multimapInsert m e.1 e.2) m) (m ++ l) ∧
      (l.foldl (fun m e => multimapInsert m e.1 e.2) m).Sorted (fun x y => x.1 ≤ y.1) by
    simpa using H l [] List.sorted_nil
  intro l
  induction l with
  | nil => intro m h; simpa using h
  | cons c t ih =>
    intro m h
    simp only [List.foldl_cons]
    obtain ⟨p, q⟩ := ih (multimapInsert m c.1 c.2) (multimapInsert_sorted _ _ _ h)
    refine ⟨p.trans ?_, q⟩
    refine ((multimapInsert_perm m c.1 c.2).append_right _).trans ?_
    simp only [List.cons_append]
    exact List.perm_middle.symm

theorem mapInsert_perm (m : List (Nat × Int)) (k : Nat) (v : Int)
    (h : mapContains m k = false) : List.Perm (mapInsert m k v) ((k, v) :: m) := by
  induction m with
  | nil => simp [mapInsert]
  | cons e t ih =>
    obtain ⟨k', v'⟩ := e
    simp only [mapContains, List.any_cons, Bool.or_eq_false_iff, beq_eq_false_iff_ne, ne_eq] at h
    have hk : ¬ k = k' := fun e => h.1 e.symm
    simp only [mapInsert, hk, if_false]
    split
    · exact List.Perm.refl _
    · exact ((ih h.2).cons _).trans (List.Perm.swap _ _ _)

theorem insertAll_perm (l : List (Int × Nat)) :
    ∀ m : List (Nat × Int), (l.map Prod.snd).Nodup → (∀ e ∈ l, mapContains m e.2 = false) →
      List.Perm ((l.foldl (fun m item => mapInsert m item.2 item.1) m).map (fun e => (e.2, e.1)))
        (m.map (fun e => (e.2, e.1)) ++ l) := by
  induction l with
  | nil => intro m _ _; simp
  | cons c t ih =>
    obtain ⟨c0, k0⟩ := c
    intro m hnd hab
    simp only [List.map_cons, List.nodup_cons] at hnd
    simp only [List.foldl_cons]
    have h0 : mapContains m k0 = false := hab (c0, k0) (List.mem_cons_self _ _)
    have hab' : ∀ e ∈ t, mapContains (mapInsert m k0 c0) e.2 = false := by
      intro e he
      rw [mapContains_eq_false_iff]
      intro x hx
      have hxk := mapInsert_keys m k0 c0 x.1 (List.mem_map_of_mem Prod.fst hx)
      rcases hxk with hxk | hxk
      · intro heq
        apply hnd.1
        rw [← hxk, heq]
        exact List.mem_map_of_mem Prod.snd he
      · have := (mapContains_eq_false_iff m e.2).1 (hab e (List.mem_cons_of_mem _ he))
        obtain ⟨y, hy, hyx⟩ := List.mem_map.1 hxk
        rw [← hyx]
        exact this y hy
    refine (ih _ hnd.2 hab').trans ?_
    refine (((mapInsert_perm m k0 c0 h0).map (fun e => (e.2, e.1))).append_right t).trans ?_
    simp only [List.map_cons, List.cons_append]
    exact List.perm_middle.symm

theorem viewMatches_congr (kf kf' : KeyFrame)
    (h1 : kf'.connectedKeyFrames_ = kf.connectedKeyFrames_)
    (h2 : kf'.orderedConnectedKeyFrames_ = kf.orderedConnectedKeyFrames_)
    (h : ViewMatchesConnected kf) : ViewMatchesConnected kf' := by
  unfold ViewMatchesConnected KeyFrame.orderedView at *
  rw [h1, h2]; exact h

theorem viewMatches_of_empty (kf : KeyFrame) (h1 : kf.connectedKeyFrames_ = [])
    (h2 : kf.orderedConnectedKeyFrames_ = []) : ViewMatchesConnected kf := by
  unfold ViewMatchesConnected KeyFrame.orderedView
  rw [h1, h2]; simp

theorem updateOrderedConnections_matches (kf : KeyFrame) :
    ViewMatchesConnected kf.updateOrderedConnections := by
  obtain ⟨h1, h2, h3, _⟩ := updateOrderedConnections_view kf
  unfold ViewMatchesConnected
  rw [h1]
  exact ⟨h2, h3⟩

theorem addConnection_matches (kf : KeyFrame) (k : Nat) (weight : Int)
    (h : ViewMatchesConnected kf) : ViewMatchesConnected (kf.addConnection k weight) := by
  unfold KeyFrame.addConnection
  split_ifs
  · exact updateOrderedConnections_matches _
  · exact updateOrderedConnections_matches _
  · exact h

theorem removeConnection_matches (kf : KeyFrame) (k : Nat) :
    ViewMatchesConnected (kf.removeConnection k) := by
  unfold KeyFrame.removeConnection
  exact updateOrderedConnections_matches _

theorem setKF_matches (w : World) (a : Nat) (kf : KeyFrame)
    (hw : ∀ p, ViewMatchesConnected (w.kfs p)) (hk : ViewMatchesConnected kf) :
    ∀ p, ViewMatchesConnected ((w.setKF a kf).kfs p) := by
  intro p
  simp only [World.setKF]
  split
  · exact hk
  · exact hw p

theorem removeFromNeighbours_matches (a : Nat) (l : List (Nat × Int)) :
    ∀ w : World, (∀ p, ViewMatchesConnected (w.kfs p)) →
      ∀ p, ViewMatchesConnected ((removeFromNeighbours a w l).kfs p) := by
  induction l with
  | nil => intro w h; exact h
  | cons c t ih =>
    intro w h
    simp only [removeFromNeighbours, List.foldl_cons]
    exact ih _ (setKF_matches w c.1 _ h (removeConnection_matches _ _))

theorem setBad_matches (w : World) (a : Nat) (hw : ∀ p, ViewMatchesConnected (w.kfs p)) :
    ∀ p, ViewMatchesConnected ((setBad w a).kfs p) := by
  unfold setBad
  split_ifs
  · exact hw
  · exact setKF_matches w a _ hw (viewMatches_congr (w.kfs a) _ rfl rfl (hw a))
  · simp only
    apply setKF_matches
    · apply removeFromNeighbours_matches
      apply setKF_matches
      · intro p; rw [removeObservations_kfs]; exact hw p
      · refine viewMatches_congr (w.kfs a) _ ?_ ?_ (hw a)
        · simp [removeObservations_kfs]
        · simp [removeObservations_kfs]
    · exact viewMatches_of_empty _ rfl rfl

theorem tallyLoop_matches (w : World) (a : Nat) (hw : ∀ p, ViewMatchesConnected (w.kfs p)) :
    ∀ p, ViewMatchesConnected ((tallyLoop w a).1.kfs p) := by
  unfold tallyLoop
  suffices H : ∀ (fts : List Feature) (st : World × List (Nat × Int)),
      (∀ p, ViewMatchesConnected (st.1.kfs p)) →
      ∀ p, ViewMatchesConnected ((fts.foldl (tallyStep a) st).1.kfs p) from H _ _ hw
  intro fts
  induction fts with
  | nil => intro st h; exact h
  | cons ft t ih =>
    intro st h
    simp only [List.foldl_cons]
    apply ih
    unfold tallyStep
    by_cases hbad : (st.1.mpts ft.mpt_).isBad = true
    · simp only [hbad, if_true]
      exact setKF_matches st.1 a _ h (viewMatches_congr (st.1.kfs a) _ rfl rfl (h a))
    · simp only [hbad, if_false]
      exact h

theorem partition_matches (a : Nat) (thr : Int) (l : List (Nat × Int)) :
    ∀ st : World × Option Nat × Int × List (Int × Nat),
      (∀ p, ViewMatchesConnected (st.1.kfs p)) →
      ∀ p, ViewMatchesConnected ((l.foldl (partitionStep a thr) st).1.kfs p) := by
  induction l with
  | nil => intro st h; exact h
  | cons c t ih =>
    intro st h
    simp only [List.foldl_cons]
    apply ih
    unfold partitionStep
    split
    · exact h
    · exact setKF_matches st.1 c.1 _ h (addConnection_matches _ _ _ (h c.1))

theorem rebuilt_matches (kf : KeyFrame) (wc : List (Int × Nat)) (hnd : (wc.map Prod.snd).Nodup) :
    ViewMatchesConnected { kf with
      connectedKeyFrames_ := (sortByWeight wc).foldl (fun m item => mapInsert m item.2 item.1) [],
      orderedConnectedKeyFrames_ := multimapOfRange (sortByWeight wc) } := by
  have hperm : List.Perm (sortByWeight wc) wc := List.perm_insertionSort _ _
  have hnd' : ((sortByWeight wc).map Prod.snd).Nodup := (hperm.map Prod.snd).nodup_iff.2 hnd
  obtain ⟨p, q⟩ := multimapOfRange_view (sortByWeight wc)
  have hins := insertAll_perm (sortByWeight wc) [] hnd' (fun _ _ => rfl)
  unfold ViewMatchesConnected KeyFrame.orderedView
  simp only
  constructor
  · refine (List.reverse_perm _).trans (p.trans ?_)
    simpa using hins.symm
  · rw [List.Sorted, List.pairwise_reverse]
    exact q

theorem updateConnections_matches (thr : Int) (w : World) (a : Nat)
    (hw : ∀ p, ViewMatchesConnected (w.kfs p)) :
    ∀ p, ViewMatchesConnected ((updateConnections thr w a).kfs p) := by
  unfold updateConnections
  by_cases h1 : isBad w a = true
  · rw [if_pos h1]; exact hw
  · rw [if_neg h1]
    simp only
    by_cases h2 : (tallyLoop w a).2.isEmpty = true
    · rw [if_pos h2]
      exact setBad_matches _ a (tallyLoop_matches w a hw)
    · rw [if_neg h2]
      have hp := partition_matches a thr (tallyLoop w a).2 ((tallyLoop w a).1, none, 0, [])
        (tallyLoop_matches w a hw)
      have hwc := partition_wc a thr (tallyLoop w a).2 ((tallyLoop w a).1, none, 0, [])
      have hnd : (((tallyLoop w a).2.foldl (partitionStep a thr)
          ((tallyLoop w a).1, none, 0, [])).2.2.2.map Prod.snd).Nodup := by
        rw [hwc]
        simp only [List.nil_append, List.map_map, Function.comp_def]
        exact ((tallyLoop_sorted w a).nodup).sublist ((List.filter_sublist _).map Prod.fst)
      by_cases h3 : ((tallyLoop w a).2.foldl (partitionStep a thr)
          ((tallyLoop w a).1, none, 0, [])).2.2.2.isEmpty = true
      · rw [if_pos h3]
        have he : ((tallyLoop w a).2.foldl (partitionStep a thr)
            ((tallyLoop w a).1, none, 0, [])).2.2.2 = [] := by
          simpa using h3
        split
        · next b hb =>
          apply setKF_matches
          · exact setKF_matches _ _ _ hp (addConnection_matches _ _ _ (hp b))
          · apply rebuilt_matches
            rw [he]
            simp
        · next hb =>
          apply setKF_matches _ _ _ hp
          exact rebuilt_matches _ _ hnd
      · rw [if_neg h3]
        apply setKF_matches _ _ _ hp
        exact rebuilt_matches _ _ hnd

/-- Without `getWight`, the public graph operations keep the ordered view of every
keyframe equal to the pairs of its connected map in non-increasing weight order. -/
theorem orderedView_matches_without_getWight (thr : Int) (ops : List GraphOp) :
    ∀ w : World, (∀ op ∈ ops, op.isGetWight = false) →
      (∀ p, ViewMatchesConnected (w.kfs p)) →
      ∀ p, ViewMatchesConnected ((runOps thr w ops).kfs p) := by
  induction ops with
  | nil => intro w _ hw; exact hw
  | cons op t ih =>
    intro w hops hw
    simp only [runOps, List.foldl_cons]
    apply ih _ (fun o ho => hops o (List.mem_cons_of_mem _ ho))
    have hop := hops op (List.mem_cons_self _ _)
    cases op with
    | addConnection a k weight =>
      exact setKF_matches w a _ hw (addConnection_matches _ _ _ (hw a))
    | removeConnection a k => exact setKF_matches w a _ hw (removeConnection_matches _ _)
    | updateConnections a => exact updateConnections_matches thr w a hw
    | setBad a => exact setBad_matches w a hw
    | getWight a k => simp [GraphOp.isGetWight] at hop

theorem freshWorld_matches (fts : Nat → List (Nat × Feature)) (mpts : Nat → MapPoint) :
    ∀ p, ViewMatchesConnected ((freshWorld fts mpts).kfs p) :=
  fun _ => viewMatches_of_empty _ rfl rfl

theorem partition_all_below (a : Nat) (thr : Int) (l : List (Nat × Int)) :
    ∀ (st : World × Option Nat × Int × List (Int × Nat)) (k : Nat) (c : Int),
      (∀ e ∈ l, e.2 < thr) → l.getLast? = some (k, c) →
      l.foldl (partitionStep a thr) st = (st.1, some k, c, st.2.2.2) := by
  induction l with
  | nil => intro st k c _ h; simp at h
  | cons e t ih =>
    intro st k c hall hlast
    simp only [List.foldl_cons]
    have he : e.2 < thr := hall e (List.mem_cons_self _ _)
    have hstep : partitionStep a thr st e = (st.1, some e.1, e.2, st.2.2.2) := by
      unfold partitionStep
      rw [if_pos he]
    rw [hstep]
    cases t with
    | nil =>
      simp only [List.getLast?_singleton, Option.some.injEq] at hlast
      simp [hlast]
    | cons b t' =>
      rw [List.getLast?_cons_cons] at hlast
      rw [ih _ k c (fun x hx => hall x (List.mem_cons_of_mem _ hx)) hlast]

/-- When the tally is not empty and no neighbour reaches the threshold,
`updateConnections` leaves exactly one edge in the connected map: the one to the
last neighbour of the tally in pointer order, with its count; that neighbour
receives the reverse edge. -/
theorem updateConnections_fallback (thr : Int) (w : World) (a k : Nat) (c : Int)
    (hbad : isBad w a = false)
    (hlast : (tallyLoop w a).2.getLast? = some (k, c))
    (hall : ∀ e ∈ (tallyLoop w a).2, e.2 < thr) :
    ((updateConnections thr w a).kfs a).connectedKeyFrames_ = [(k, c)] ∧
    ((updateConnections thr w a).kfs a).orderedConnectedKeyFrames_ = [(c, k)] ∧
    (k ≠ a → mapFind ((updateConnections thr w a).kfs k).connectedKeyFrames_ a = some c) := by
  have hne : (tallyLoop w a).2.isEmpty = false := by
    cases h : (tallyLoop w a).2 with
    | nil => rw [h] at hlast; simp at hlast
    | cons _ _ => rfl
  have hp := partition_all_below a thr (tallyLoop w a).2 ((tallyLoop w a).1, none, 0, []) k c
    hall hlast
  unfold updateConnections
  simp only [hbad, Bool.false_eq_true, if_false, hne, hp, List.isEmpty_nil, if_true,
    List.nil_append]
  refine ⟨?_, ?_, ?_⟩
  · simp [World.setKF, sortByWeight, mapInsert]
  · simp [World.setKF, sortByWeight, multimapOfRange, multimapInsert]
  · intro hk
    simp only [World.setKF, hk, if_false, if_true]
    exact addConnection_find _ _ _

/-! ## Queries: `getConnectedKeyFrames` -/

theorem mem_setInsert (s : List Nat) (k x : Nat) : x ∈ setInsert s k ↔ x = k ∨ x ∈ s := by
  induction s with
  | nil => simp [setInsert]
  | cons a t ih =>
    unfold setInsert
    by_cases h1 : k < a
    · simp [h1]
    · by_cases h2 : k = a
      · subst h2; simp
      · simp only [h1, h2, if_false, List.mem_cons, ih]
        tauto

theorem setInsert_sorted (s : List Nat) (k : Nat) (hs : List.Sorted (fun a b : Nat => a < b) s) :
    List.Sorted (fun a b : Nat => a < b) (setInsert s k) := by
  induction s with
  | nil => simp [setInsert]
  | cons a t ih =>
    unfold setInsert
    have hs' := List.sorted_cons.1 hs
    by_cases h1 : k < a
    · simp only [h1, if_true]
      refine List.sorted_cons.2 ⟨?_, hs⟩
      intro b hb
      rcases List.mem_cons.1 hb with e | e
      · rw [e]; exact h1
      · exact lt_trans h1 (hs'.1 b e)
    · by_cases h2 : k = a
      · subst h2
        simp only [h1, if_false, if_true]; exact hs
      · simp only [h1, h2, if_false]
        refine List.sorted_cons.2 ⟨?_, ih hs'.2⟩
        intro b hb
        rcases (mem_setInsert t k b).1 hb with e | e
        · rw [e]; omega
        · exact hs'.1 b e

theorem setInsertAll_mem (l : List Nat) :
    ∀ (s : List Nat) (x : Nat), x ∈ l.foldl setInsert s ↔ x ∈ s ∨ x ∈ l := by
  induction l with
  | nil => intro s x; simp
  | cons a t ih =>
    intro s x
    rw [List.foldl_cons, ih, mem_setInsert]
    simp only [List.mem_cons]
    tauto

theorem setInsertAll_sorted (l : List Nat) :
    ∀ s : List Nat, List.Sorted (fun a b : Nat => a < b) s →
      List.Sorted (fun a b : Nat => a < b) (l.foldl setInsert s) := by
  induction l with
  | nil => intro s hs; exact hs
  | cons a t ih => intro s hs; exact ih _ (setInsert_sorted s a hs)

/-- In a list in non-increasing weight order the entries at or above a bound are
a prefix. -/
theorem sorted_take_filter (min_fts : Int) (l : List (Int × Nat))
    (hs : List.Sorted (fun x y : Int × Nat => x.1 ≥ y.1) l) :
    l.take (l.filter (fun e => decide (e.1 ≥ min_fts))).length =
      l.filter (fun e => decide (e.1 ≥ min_fts)) := by
  induction l with
  | nil => simp
  | cons e t ih =>
    have hs' := List.sorted_cons.1 hs
    by_cases h : e.1 ≥ min_fts
    · simp only [List.filter_cons, h, decide_True, if_true, List.length_cons, List.take_succ_cons]
      rw [ih hs'.2]
    · have hnil : t.filter (fun e => decide (e.1 ≥ min_fts)) = [] := by
        rw [List.filter_eq_nil_iff]
        intro b hb
        have := hs'.1 b hb
        simp only [decide_eq_true_eq]
        omega
      simp [List.filter_cons, h, hnil]

theorem getConnectedLoop_spec (min_fts num : Int) (l : List (Int × Nat))
    (hs : List.Sorted (fun x y : Int × Nat => x.1 ≥ y.1) l) :
    ∀ (count : Int) (acc : List Nat),
      getConnectedLoop min_fts num l count acc =
        ((l.take (min (num - count).toNat
          (l.filter (fun e => decide (e.1 ≥ min_fts))).length)).map Prod.snd).foldl setInsert acc := by
  induction l with
  | nil => intro count acc; simp [getConnectedLoop]
  | cons e t ih =>
    intro count acc
    have hs' := List.sorted_cons.1 hs
    unfold getConnectedLoop
    by_cases h : e.1 ≥ min_fts ∧ count < num
    · rw [if_pos h, ih hs'.2]
      have e1 : (num - count).toNat = (num - (count + 1)).toNat + 1 := by omega
      simp only [List.filter_cons, h.1, decide_True, if_true, List.length_cons, e1,
        Nat.succ_min_succ, List.take_succ_cons, List.map_cons, List.foldl_cons]
    · rw [if_neg h]
      by_cases h1 : e.1 ≥ min_fts
      · have h2 : (num - count).toNat = 0 := by
          have : ¬ count < num := fun c => h ⟨h1, c⟩
          omega
        simp [h2]
      · have hnil : t.filter (fun e => decide (e.1 ≥ min_fts)) = [] := by
          rw [List.filter_eq_nil_iff]
          intro b hb
          have := hs'.1 b hb
          simp only [decide_eq_true_eq]
          omega
        simp [List.filter_cons, h1, hnil]

theorem orderedView_sorted (kf : KeyFrame)
    (hs : List.Sorted (fun x y : Int × Nat => x.1 ≤ y.1) kf.orderedConnectedKeyFrames_) :
    List.Sorted (fun x y : Int × Nat => x.1 ≥ y.1) kf.orderedView := by
  unfold KeyFrame.orderedView
  rw [List.Sorted, List.pairwise_reverse]
  exact hs

/-- C11: on a keyframe whose ordered view is in key order (it is a
`std::multimap`), `getConnectedKeyFrames(num, min_fts)` with `num >= 0` returns
the set of the keyframes of the first `min(num, q)` entries of the view read from
its strongest end, `q` being the number of entries of weight at least `min_fts`;
each of these entries has weight at least `min_fts` and no entry left out is
heavier than one of them; with `num = -1` it returns the keyframes of all entries
of weight at least `min_fts`. The result is in increasing pointer order. -/
theorem C11_getConnectedKeyFrames (kf : KeyFrame) (num min_fts : Int)
    (hs : List.Sorted (fun x y : Int × Nat => x.1 ≤ y.1) kf.orderedConnectedKeyFrames_) :
    (0 ≤ num →
      ∃ returned : List (Int × Nat),
        returned = kf.orderedView.take (min num.toNat
          (kf.orderedView.filter (fun e => decide (e.1 ≥ min_fts))).length) ∧
        (∀ k, k ∈ kf.getConnectedKeyFrames num min_fts ↔ k ∈ returned.map Prod.snd) ∧
        (∀ e ∈ returned, e.1 ≥ min_fts) ∧
        (∀ e ∈ returned, ∀ o ∈ kf.orderedView.drop returned.length, o.1 ≤ e.1)) ∧
    (num = -1 →
      ∀ k, k ∈ kf.getConnectedKeyFrames num min_fts ↔
        ∃ wt, wt ≥ min_fts ∧ (wt, k) ∈ kf.orderedView) ∧
    List.Sorted (fun a b : Nat => a < b) (kf.getConnectedKeyFrames num min_fts) := by
  have hv := orderedView_sorted kf hs
  have hf := sorted_take_filter min_fts kf.orderedView hv
  refine ⟨?_, ?_, ?_⟩
  · intro h0
    have hne : ¬ num = -1 := by omega
    refine ⟨_, rfl, ?_, ?_, ?_⟩
    · intro k
      unfold KeyFrame.getConnectedKeyFrames
      simp only [hne, if_false]
      rw [getConnectedLoop_spec min_fts num _ hv, setInsertAll_mem]
      simp
    · intro e he
      have h1 : e ∈ kf.orderedView.take
          (kf.orderedView.filter (fun e => decide (e.1 ≥ min_fts))).length := by
        rw [← List.take_take] at he
        exact List.mem_of_mem_take he
      rw [hf] at h1
      simpa using (List.mem_filter.1 h1).2
    · intro e he o ho
      have hp : List.Pairwise (fun x y : Int × Nat => x.1 ≥ y.1)
          (kf.orderedView.take (min num.toNat
            (kf.orderedView.filter (fun e => decide (e.1 ≥ min_fts))).length) ++
           kf.orderedView.drop (min num.toNat
            (kf.orderedView.filter (fun e => decide (e.1 ≥ min_fts))).length)) := by
        rw [List.take_append_drop]; exact hv
      have hlen : (kf.orderedView.take (min num.toNat
            (kf.orderedView.filter (fun e => decide (e.1 ≥ min_fts))).length)).length =
          min num.toNat (kf.orderedView.filter (fun e => decide (e.1 ≥ min_fts))).length := by
        rw [List.length_take]
        have := List.length_filter_le (fun e : Int × Nat => decide (e.1 ≥ min_fts)) kf.orderedView
        omega
      rw [hlen] at ho
      exact (List.pairwise_append.1 hp).2.2 e he o ho
  · intro h1 k
    unfold KeyFrame.getConnectedKeyFrames
    simp only [h1, if_true]
    rw [getConnectedLoop_spec min_fts _ _ hv, setInsertAll_mem]
    have hlen : kf.orderedConnectedKeyFrames_.length = kf.orderedView.length := by
      simp [KeyFrame.orderedView]
    have hle := List.length_filter_le (fun e : Int × Nat => decide (e.1 ≥ min_fts)) kf.orderedView
    have hm : min ((kf.orderedConnectedKeyFrames_.length : Int) - 0).toNat
        (kf.orderedView.filter (fun e => decide (e.1 ≥ min_fts))).length =
        (kf.orderedView.filter (fun e => decide (e.1 ≥ min_fts))).length := by
      omega
    rw [hm, hf]
    simp only [List.not_mem_nil, false_or, List.mem_map, List.mem_filter, decide_eq_true_eq]
    constructor
    · rintro ⟨e, ⟨he, hw⟩, rfl⟩
      exact ⟨e.1, hw, he⟩
    · rintro ⟨wt, hw, he⟩
      exact ⟨(wt, k), ⟨he, hw⟩, rfl⟩
  · unfold KeyFrame.getConnectedKeyFrames
    simp only
    rw [getConnectedLoop_spec min_fts _ _ hv]
    exact setInsertAll_sorted _ _ List.sorted_nil

theorem C11_witness :
    (0 ≤ (2 : Int) →
      ∃ returned : List (Int × Nat),
        returned = (ringWorld.kfs 2).orderedView.take (min (2 : Int).toNat
          ((ringWorld.kfs 2).orderedView.filter (fun e => decide (e.1 ≥ 4))).length) ∧
        (∀ k, k ∈ (ringWorld.kfs 2).getConnectedKeyFrames 2 4 ↔ k ∈ returned.map Prod.snd) ∧
        (∀ e ∈ returned, e.1 ≥ 4) ∧
        (∀ e ∈ returned, ∀ o ∈ (ringWorld.kfs 2).orderedView.drop returned.length, o.1 ≤ e.1)) ∧
    ((2 : Int) = -1 →
      ∀ k, k ∈ (ringWorld.kfs 2).getConnectedKeyFrames 2 4 ↔
        ∃ wt, wt ≥ 4 ∧ (wt, k) ∈ (ringWorld.kfs 2).orderedView) ∧
    List.Sorted (fun a b : Nat => a < b) ((ringWorld.kfs 2).getConnectedKeyFrames 2 4) :=
  C11_getConnectedKeyFrames (ringWorld.kfs 2) 2 4 (by decide)

/-! ## Queries and point mutations of the graph -/

/-- C12: in the example graph the second ring of keyframe 1 has the two
candidates 3 and 4, both of multiplicity one, and `getSubConnectedKeyFrames(2)`
returns keyframe 3 alone: the candidates are ranked in a `std::map` keyed by the
multiplicity, which keeps one candidate per multiplicity. With `num = 0` the
result still has one element, the size being tested after the insertion. In the
second graph the candidates 4 and 5 have multiplicity two and 6 has one, and
`getSubConnectedKeyFrames(2)` returns 4 and 6, leaving out 5. -/
theorem C12_equal_multiplicities_collide :
    subCandidates ringWorld 1 = [(3, 1), (4, 1)] ∧
    getSubConnectedKeyFrames ringWorld 1 2 = [3] ∧
    getSubConnectedKeyFrames ringWorld 1 0 = [3] ∧
    subCandidates ringWorld2 1 = [(4, 2), (5, 2), (6, 1)] ∧
    multiplicity ringWorld2 1 5 = 2 ∧ multiplicity ringWorld2 1 6 = 1 ∧
    getSubConnectedKeyFrames ringWorld2 1 2 = [4, 6] := by
  decide

theorem mapErase_mapAssign {V : Type} (m : List (Nat × V)) (k : Nat) (v : V) :
    mapErase (mapAssign m k v) k = mapErase m k := by
  induction m with
  | nil => simp [mapAssign, mapErase]
  | cons e t ih =>
    obtain ⟨k', v'⟩ := e
    unfold mapAssign
    by_cases h1 : k < k'
    · simp [h1, mapErase]
    · by_cases h2 : k = k'
      · subst h2; simp [mapErase]
      · have h3 : ¬ k' = k := fun e => h2 e.symm
        simp only [h1, h2, if_false]
        unfold mapErase at ih ⊢
        simp [List.filter_cons, h3, ih]

theorem mapContains_mapAssign {V : Type} (m : List (Nat × V)) (k : Nat) (v : V) :
    mapContains (mapAssign m k v) k = true := by
  induction m with
  | nil => simp [mapAssign, mapContains]
  | cons e t ih =>
    obtain ⟨k', v'⟩ := e
    unfold mapAssign
    by_cases h1 : k < k'
    · simp [h1, mapContains]
    · by_cases h2 : k = k'
      · subst h2; simp [mapContains]
      · simp only [h1, h2, if_false]
        unfold mapContains at ih ⊢
        simp only [List.any_cons, ih, Bool.or_true]

theorem mapErase_eq_self_iff {V : Type} (m : List (Nat × V)) (k : Nat) :
    mapErase m k = m ↔ mapContains m k = false := by
  rw [mapContains_eq_false_iff]
  unfold mapErase
  rw [List.filter_eq_self]
  simp

/-- After `addConnection(k, w)` and `removeConnection(k)` the connected map is
the former map without the key `k`. -/
theorem add_remove_connected (kf : KeyFrame) (k : Nat) (weight : Int) :
    ((kf.addConnection k weight).removeConnection k).connectedKeyFrames_ =
      mapErase kf.connectedKeyFrames_ k := by
  have hc : mapContains (kf.addConnection k weight).connectedKeyFrames_ k = true := by
    have := addConnection_find kf k weight
    have hm := mem_of_mapFind_eq_some _ _ _ this
    by_contra hn
    have hf := (mapContains_eq_false_iff _ k).1 (by simpa using hn)
    exact hf _ hm rfl
  unfold KeyFrame.removeConnection
  rw [if_pos hc, updateOrderedConnections_connected]
  simp only
  unfold KeyFrame.addConnection
  by_cases h1 : mapContains kf.connectedKeyFrames_ k = true
  · by_cases h2 : mapFind kf.connectedKeyFrames_ k = some weight
    · simp [h1, h2]
    · simp [h1, h2, updateOrderedConnections_connected, mapErase_mapAssign]
  · simp [h1, updateOrderedConnections_connected, mapErase_mapAssign]

/-- C13, as the code has it: `addConnection(k, w)` followed by
`removeConnection(k)` leaves the connected map as it was before the two calls
exactly when `k` was not a key of it; otherwise the entry of `k` is gone. -/
theorem C13_add_then_remove (kf : KeyFrame) (k : Nat) (weight : Int) :
    (((kf.addConnection k weight).removeConnection k).connectedKeyFrames_ =
      kf.connectedKeyFrames_) ↔ mapContains kf.connectedKeyFrames_ k = false := by
  rw [add_remove_connected, mapErase_eq_self_iff]

/-- C13 as stated fails: keyframe 1 of the example graph has the edge to
keyframe 2 with weight 5; after `addConnection(2, 5)` and `removeConnection(2)`
its connected map is empty. -/
theorem C13_counterexample :
    (ringWorld.kfs 1).connectedKeyFrames_ = [(2, 5)] ∧
    (((ringWorld.kfs 1).addConnection 2 5).removeConnection 2).connectedKeyFrames_ = [] := by
  decide

/-- C14: a second `addConnection(k, w)` right after the first leaves the whole
keyframe, with its connected map, ordered view and parent, as the first call
left it. -/
theorem C14_addConnection_twice (kf : KeyFrame) (k : Nat) (weight : Int) :
    (kf.addConnection k weight).addConnection k weight = kf.addConnection k weight ∧
    ((kf.addConnection k weight).addConnection k weight).connectedKeyFrames_ =
      (kf.addConnection k weight).connectedKeyFrames_ ∧
    ((kf.addConnection k weight).addConnection k weight).orderedView =
      (kf.addConnection k weight).orderedView ∧
    ((kf.addConnection k weight).addConnection k weight).getParent =
      (kf.addConnection k weight).getParent := by
  have hf := addConnection_find kf k weight
  have hc : mapContains (kf.addConnection k weight).connectedKeyFrames_ k = true := by
    have hm := mem_of_mapFind_eq_some _ _ _ hf
    by_contra hn
    have hf := (mapContains_eq_false_iff _ k).1 (by simpa using hn)
    exact hf _ hm rfl
  have h : (kf.addConnection k weight).addConnection k weight = kf.addConnection k weight := by
    generalize kf.addConnection k weight = kf' at hf hc ⊢
    unfold KeyFrame.addConnection
    simp [hc, hf]
  rw [h]
  exact ⟨rfl, rfl, rfl, rfl⟩

/-- C15: on a fresh keyframe, `getWight(7)` returns 0 and leaves the key 7 in the
connected map with weight 0; the next rebuild puts it into the ordered view and
`getConnectedKeyFrames` returns it; when keyframe 1 has read the weight of
keyframe 7, `setBad` on keyframe 1 visits keyframe 7 and rebuilds its view, which
it does not do without the read. -/
theorem C15_getWight_inserts :
    mapContains (exampleWorld.kfs 1).connectedKeyFrames_ 7 = false ∧
    ((exampleWorld.kfs 1).getWight 7).1 = 0 ∧
    ((exampleWorld.kfs 1).getWight 7).2.connectedKeyFrames_ = [(7, 0)] ∧
    (((exampleWorld.kfs 1).getWight 7).2.removeConnection 9).orderedView = [(0, 7)] ∧
    (((exampleWorld.kfs 1).getWight 7).2.removeConnection 9).getConnectedKeyFrames (-1) 0 = [7] ∧
    ((runOps 10 exampleWorld [.getWight 7 9, .getWight 1 7, .setBad 1]).kfs 7).orderedView
      = [(0, 9)] ∧
    ((runOps 10 exampleWorld [.getWight 7 9, .setBad 1]).kfs 7).orderedView = [] := by
  decide

theorem areaFold (fs : List Feature) (x y r : ℚ) (l : List Nat) :
    ∀ acc : List Nat,
      l.foldl (fun index i =>
        let px := (fs.getD i { px_ := (0, 0), mpt_ := 0 }).px_
        if outsideBox px x y r then index
        else if insideCircle px x y r then index ++ [i]
        else index) acc =
      acc ++ l.filter (fun i =>
        !outsideBox (fs.getD i { px_ := (0, 0), mpt_ := 0 }).px_ x y r &&
          insideCircle (fs.getD i { px_ := (0, 0), mpt_ := 0 }).px_ x y r) := by
  induction l with
  | nil => intro acc; simp
  | cons i t ih =>
    intro acc
    rw [List.foldl_cons, ih]
    cases h1 : outsideBox (fs.getD i { px_ := (0, 0), mpt_ := 0 }).px_ x y r <;>
      cases h2 : insideCircle (fs.getD i { px_ := (0, 0), mpt_ := 0 }).px_ x y r <;>
      simp only [List.filter_cons, h1, h2, Bool.false_eq_true, if_false, if_true, Bool.not_false,
        Bool.not_true, Bool.and_false, Bool.and_true, Bool.true_and, Bool.false_and,
        List.append_assoc, List.singleton_append]

/-- When no operation rounds, the two tests of `getFeaturesInArea` are the
comparisons of the exact values. -/
theorem exactArea_tests (px : ℚ × ℚ) (x y r : ℚ) (h : ExactArea px x y r) :
    outsideBox px x y r =
      decide (px.1 < x - r ∨ x + r < px.1 ∨ px.2 < y - r ∨ y + r < px.2) ∧
    insideCircle px x y r =
      decide ((px.1 - x) * (px.1 - x) + (px.2 - y) * (px.2 - y) < r * r) := by
  obtain ⟨h1, h2, h3, h4, h5, h6, h7, h8, h9, h10, h11, h12, h13, h14, h15⟩ := h
  unfold IsDouble at *
  have e6 : roundDouble (x + -r) = Fp.finite (x - r) := by rw [← sub_eq_add_neg]; exact h6
  have e8 : roundDouble (y + -r) = Fp.finite (y - r) := by rw [← sub_eq_add_neg]; exact h8
  have e10 : roundDouble (px.1 + -x) = Fp.finite (px.1 - x) := by
    rw [← sub_eq_add_neg]; exact h10
  have e11 : roundDouble (px.2 + -y) = Fp.finite (px.2 - y) := by
    rw [← sub_eq_add_neg]; exact h11
  constructor
  · unfold outsideBox
    simp only [h1, h2, h3, h4, h5, Fp.sub, Fp.neg, Fp.add, e6, h7, e8, h9, Fp.lt]
    simp only [Bool.decide_or, Bool.or_assoc]
  · unfold insideCircle
    simp only [h1, h2, h3, h4, h5, Fp.sub, Fp.neg, Fp.add, Fp.mul, e10, e11, h12, h13, h14, h15,
      Fp.lt]

/-- C16, as the code has it: `getFeaturesInArea(x, y, r)` returns, in increasing
order, exactly the indices of `featuresInBow` whose position passes the two tests
of the code as evaluated in `double` arithmetic: not outside the box around
`(x, y)`, and the rounded sum of the rounded squares strictly below the rounded
`r * r`. For `r >= 0`, when none of these operations rounds, this is exactly the
open disk `(p.x - x)^2 + (p.y - y)^2 < r^2`: a point at distance exactly `r` is
not returned. -/
theorem C16_getFeaturesInArea_open_disk (kf : KeyFrame) (x y r : ℚ) (hr : 0 ≤ r) :
    List.Sorted (fun a b : Nat => a < b) (kf.getFeaturesInArea x y r) ∧
    (∀ i, i ∈ kf.getFeaturesInArea x y r ↔
      i < kf.featuresInBow.length ∧
      outsideBox (kf.featuresInBow.getD i { px_ := (0, 0), mpt_ := 0 }).px_ x y r = false ∧
      insideCircle (kf.featuresInBow.getD i { px_ := (0, 0), mpt_ := 0 }).px_ x y r = true) ∧
    ((∀ i ∈ List.range kf.featuresInBow.length,
        ExactArea (kf.featuresInBow.getD i { px_ := (0, 0), mpt_ := 0 }).px_ x y r) →
      kf.getFeaturesInArea x y r = openDiskIndices kf x y r) := by
  have h : kf.getFeaturesInArea x y r =
      (List.range kf.featuresInBow.length).filter (fun i =>
        !outsideBox (kf.featuresInBow.getD i { px_ := (0, 0), mpt_ := 0 }).px_ x y r &&
          insideCircle (kf.featuresInBow.getD i { px_ := (0, 0), mpt_ := 0 }).px_ x y r) := by
    unfold KeyFrame.getFeaturesInArea
    rw [areaFold kf.featuresInBow x y r]
    simp
  refine ⟨?_, ?_, ?_⟩
  · rw [h]
    exact List.Pairwise.sublist (List.filter_sublist _) (List.pairwise_lt_range _)
  · intro i
    rw [h, List.mem_filter, List.mem_range]
    simp
  · intro hex
    rw [h]
    unfold openDiskIndices
    apply List.filter_congr
    intro i hi
    obtain ⟨t1, t2⟩ := exactArea_tests _ x y r (hex i hi)
    rw [t1, t2]
    generalize (kf.featuresInBow.getD i { px_ := (0, 0), mpt_ := 0 }).px_ = px
    by_cases hd : (px.1 - x) ^ 2 + (px.2 - y) ^ 2 < r ^ 2
    · have hbox : ¬ (px.1 < x - r ∨ x + r < px.1 ∨ px.2 < y - r ∨ y + r < px.2) := by
        intro hb
        rcases hb with h | h | h | h <;> nlinarith [sq_nonneg (px.1 - x), sq_nonneg (px.2 - y)]
      have hd' : (px.1 - x) * (px.1 - x) + (px.2 - y) * (px.2 - y) < r * r := by nlinarith
      simp [hbox, hd, hd']
    · have hd' : ¬ (px.1 - x) * (px.1 - x) + (px.2 - y) * (px.2 - y) < r * r := by
        intro h; apply hd; nlinarith
      simp [hd, hd']

theorem C16_witness :
    (0 : ℚ) ≤ 5 ∧
    (∀ i ∈ List.range bowKeyFrame.featuresInBow.length,
      ExactArea (bowKeyFrame.featuresInBow.getD i { px_ := (0, 0), mpt_ := 0 }).px_ 0 0 5) ∧
    bowKeyFrame.getFeaturesInArea 0 0 5 = openDiskIndices bowKeyFrame 0 0 5 :=
  ⟨by norm_num, by decide!,
    (C16_getFeaturesInArea_open_disk bowKeyFrame 0 0 5 (by norm_num)).2.2 (by decide!)⟩

/-- C16 as stated fails: the feature at `(3, 4)` is at distance exactly 5 from
the origin, inside the closed disk of radius 5, and `getFeaturesInArea(0, 0, 5)`
does not return its index. No operation rounds on these values. -/
theorem C16_counterexample :
    closedDiskIndices bowKeyFrame 0 0 5 = [0, 1] ∧
    bowKeyFrame.getFeaturesInArea 0 0 5 = [1] ∧
    ExactArea (3, 4) 0 0 5 := by
  exact ⟨by decide!, by decide!, by decide!⟩

/-- The comparison is on rounded values: the feature at the `double` values
nearest to `0.28` and `0.96` lies strictly inside the unit circle, and
`getFeaturesInArea(0, 0, 1)` does not return it, the rounded sum of its rounded
squares being `1`. -/
theorem getFeaturesInArea_rounds :
    openDiskIndices roundedKeyFrame 0 0 1 = [0] ∧
    roundedKeyFrame.getFeaturesInArea 0 0 1 = [] ∧
    IsDouble (1261007895663739 / 4503599627370496) ∧
    IsDouble (1080863910568919 / 1125899906842624) := by
  exact ⟨by decide!, by decide!, by decide!, by decide!⟩

/-- C17: in the scenario of three fresh keyframes `A = 1`, `B = 2`, `C = 3` with
shared counts 30, 5 and 20 and threshold 10, the parents after the three calls
of `updateConnections` depend on the order of the calls, and in none of the six
orders they are `A.parent = B`, `B.parent = A`, `C.parent = B`: a keyframe gets
its parent only when a neighbour adds the reverse edge to it, and that is skipped
when the keyframe has already stored the edge itself. -/
theorem C17_parents_depend_on_order :
    coObservations triWorld 1 2 = 30 ∧ coObservations triWorld 1 3 = 5 ∧
    coObservations triWorld 2 3 = 20 ∧
    triParents (triAfter [1, 2, 3]) = (none, some 1, some 2) ∧
    triParents (triAfter [1, 3, 2]) = (none, some 1, none) ∧
    triParents (triAfter [2, 1, 3]) = (some 2, none, some 2) ∧
    triParents (triAfter [2, 3, 1]) = (some 2, none, some 2) ∧
    triParents (triAfter [3, 1, 2]) = (none, some 1, none) ∧
    triParents (triAfter [3, 2, 1]) = (some 2, some 3, none) ∧
    (∀ order ∈ [[1, 2, 3], [1, 3, 2], [2, 1, 3], [2, 3, 1], [3, 1, 2], [3, 2, 1]],
      triParents (triAfter order) ≠ (some 2, some 1, some 2) ∧
      ((triAfter order).kfs 1).connectedKeyFrames_ = [(2, 30)] ∧
      ((triAfter order).kfs 2).connectedKeyFrames_ = [(1, 30), (3, 20)] ∧
      ((triAfter order).kfs 3).connectedKeyFrames_ = [(2, 20)]) := by
  decide!

/-! ## The cheirality test of `findBestRT` -/

theorem and_ne_zero_left (a b : Nat) (h : a &&& b ≠ 0) : a ≠ 0 := by
  intro e; apply h; rw [e]; exact Nat.zero_and b

theorem and_ne_zero_right (a b : Nat) (h : a &&& b ≠ 0) : b ≠ 0 := by
  intro e; apply h; rw [e]; exact Nat.and_zero a

theorem cmpByte_ne_zero (p : Prop) [Decidable p] (h : cmpByte (decide p) ≠ 0) : p := by
  by_contra hn
  apply h
  simp [cmpByte, hn]

/-- An entry of the mask of the cheirality test is set only where the entry of
the input mask is set and the third coordinate of the point, before and after
the projection by `P`, is strictly between 0 and `max_dist`. -/
theorem cheirality_entry (P : Mat) (mask : List Nat) (X : List (List ℚ)) (j : Nat)
    (h : (cheirality P mask X).1.getD j 0 ≠ 0) :
    j < mask.length ∧ mask.getD j 0 ≠ 0 ∧
    0 < vecAt (X.getD j []) 2 ∧ vecAt (X.getD j []) 2 < max_dist ∧
    0 < vecAt (P.mulVec (X.getD j [])) 2 ∧ vecAt (P.mulVec (X.getD j [])) 2 < max_dist ∧
    (cheirality P mask X).2.getD j [] = P.mulVec (X.getD j []) := by
  unfold cheirality at h ⊢
  simp only at h ⊢
  by_cases hj : j < mask.length
  · rw [List.getD_eq_getElem?_getD, List.getElem?_map, List.getElem?_range hj] at h
    simp only [Option.map_some', Option.getD_some] at h
    have hz1 := cmpByte_ne_zero _ (and_ne_zero_left _ _ (and_ne_zero_right _ _ (and_ne_zero_left _ _ h)))
    have hz2 := cmpByte_ne_zero _ (and_ne_zero_right _ _ (and_ne_zero_right _ _ (and_ne_zero_left _ _ h)))
    have hm := and_ne_zero_left _ _ (and_ne_zero_left _ _ h)
    have hz3 := cmpByte_ne_zero _ (and_ne_zero_left _ _ (and_ne_zero_right _ _ h))
    have hz4 := cmpByte_ne_zero _ (and_ne_zero_right _ _ (and_ne_zero_right _ _ h))
    have hjX : j < X.length := by
      by_contra hn
      have : X.getD j [] = [] := by
        rw [List.getD_eq_getElem?_getD, List.getElem?_eq_none (by omega)]; rfl
      rw [this] at hz1
      simp [vecAt] at hz1
    have hproj : (X.map (fun X => P.mulVec X)).getD j [] = P.mulVec (X.getD j []) := by
      rw [List.getD_eq_getElem?_getD, List.getElem?_map, List.getD_eq_getElem?_getD,
        List.getElem?_eq_getElem hjX]
      rfl
    rw [hproj] at hz3 hz4
    exact ⟨hj, hm, hz1, hz2, hz3, hz4, hproj⟩
  · exfalso
    apply h
    rw [List.getD_eq_getElem?_getD, List.getElem?_eq_none (by simp; omega)]
    rfl

theorem triangulate_entry (ext : Externals) (P1 P2 : Mat) (pts1 pts2 : List Point2f)
    (mask : List Nat) (X : List (List ℚ)) (j : Nat)
    (h : triangulate ext P1 P2 pts1 pts2 mask = some X) (hj : j < mask.length)
    (hm : mask.getD j 0 ≠ 0) :
    X.getD j [] = triangulatePoint ext P1 P2 (pts1.getD j (0, 0)) (pts2.getD j (0, 0)) := by
  unfold triangulate at h
  by_cases hl : pts1.length ≠ pts2.length ∨ mask.length ≠ pts1.length
  · rw [if_pos hl] at h; cases h
  · rw [if_neg hl] at h
    have hl2 : mask.length = pts1.length := by
      by_contra hn; exact hl (Or.inr hn)
    cases h
    rw [List.getD_eq_getElem?_getD, List.getElem?_map, List.getElem?_range (by omega)]
    simp only [Option.map_some', Option.getD_some]
    have : (mask.getD j 0 != 0) = true := by simpa using hm
    rw [if_pos this]

/-- When `findBestRT` returns true, its mask and its points are those of the
cheirality test of one of the four hypotheses. -/
theorem findBestRT_true (ext : Externals) (R1 R2 : Mat) (t : List ℚ) (K1 K2 : Mat)
    (pts1 pts2 : List Point2f) (mask out : List Nat) (P3Ds : List (List ℚ)) (T : Mat)
    (h : findBestRT ext R1 R2 t K1 K2 pts1 pts2 mask = some (true, out, P3Ds, T)) :
    ∃ (R : Mat) (s : List ℚ) (X : List (List ℚ)),
      (R = R1 ∨ R = R2) ∧ (s = t ∨ s = t.map (fun x => x * -1)) ∧
      triangulate ext (refProjection K1) (curProjection K2 R s) pts1 pts2
        (effectiveMask mask pts1.length) = some X ∧
      out = (cheirality (curProjection K2 R s) (effectiveMask mask pts1.length) X).1 ∧
      P3Ds = (cheirality (curProjection K2 R s) (effectiveMask mask pts1.length) X).2 := by
  unfold findBestRT at h
  by_cases hl : pts1.length ≠ pts2.length
  · rw [if_pos hl] at h; cases h
  · rw [if_neg hl] at h
    simp only at h
    unfold effectiveMask
    generalize (if mask.isEmpty = true then List.replicate pts1.length 255 else mask) = m at h ⊢
    unfold curProjection refProjection
    cases h1 : triangulate ext ((List.range 3).map (fun i => (K1.row i).take 3 ++ [0]))
        (K2.mul (hconcat R1 t)) pts1 pts2 m with
    | none => rw [h1] at h; simp at h
    | some X1 =>
    cases h2 : triangulate ext ((List.range 3).map (fun i => (K1.row i).take 3 ++ [0]))
        (K2.mul (hconcat R2 t)) pts1 pts2 m with
    | none => rw [h1, h2] at h; simp at h
    | some X2 =>
    cases h3 : triangulate ext ((List.range 3).map (fun i => (K1.row i).take 3 ++ [0]))
        (K2.mul (hconcat R1 (t.map (fun x => x * -1)))) pts1 pts2 m with
    | none => rw [h1, h2, h3] at h; simp at h
    | some X3 =>
    cases h4 : triangulate ext ((List.range 3).map (fun i => (K1.row i).take 3 ++ [0]))
        (K2.mul (hconcat R2 (t.map (fun x => x * -1)))) pts1 pts2 m with
    | none => rw [h1, h2, h3, h4] at h; simp at h
    | some X4 =>
    rw [h1, h2, h3, h4] at h
    simp only at h
    split_ifs at h with c1 c2 c3 c4 c5
    · simp at h
    · simp only [Option.some.injEq, Prod.mk.injEq, true_and] at h
      exact ⟨R1, t, X1, Or.inl rfl, Or.inl rfl, h1, h.1.symm, h.2.1.symm⟩
    · simp only [Option.some.injEq, Prod.mk.injEq, true_and] at h
      exact ⟨R2, t, X2, Or.inr rfl, Or.inl rfl, h2, h.1.symm, h.2.1.symm⟩
    · simp only [Option.some.injEq, Prod.mk.injEq, true_and] at h
      exact ⟨R1, _, X3, Or.inl rfl, Or.inr rfl, h3, h.1.symm, h.2.1.symm⟩
    · simp only [Option.some.injEq, Prod.mk.injEq, true_and] at h
      exact ⟨R2, _, X4, Or.inr rfl, Or.inr rfl, h4, h.1.symm, h.2.1.symm⟩
    · exfalso
      omega

theorem range_map_vecAt (l : List ℚ) : (List.range l.length).map (fun j => vecAt l j) = l := by
  apply List.ext_getElem
  · simp
  · intro i h1 h2
    simp [vecAt, List.getD_eq_getElem?_getD, List.getElem?_eq_getElem h2]

/-- When the last row of `K2` is `(0, 0, 1)`, the third coordinate of
`K2 [R | t] X` is the third coordinate of `[R | t] X`: the depth of the point in
the camera of the current frame. -/
theorem curProjection_depth (K2 R : Mat) (s X : List ℚ) (hK : K2.row 2 = [0, 0, 1])
    (hR : (R.row 0).length = (R.row 2).length) :
    vecAt ((curProjection K2 R s).mulVec X) 2 = vecAt ((hconcat R s).mulVec X) 2 := by
  have h2 : K2[2]? = some [0, 0, 1] := by
    unfold Mat.row at hK
    rw [List.getD_eq_getElem?_getD] at hK
    cases hk : K2[2]? with
    | none => rw [hk] at hK; simp at hK
    | some r => rw [hk] at hK; simp at hK; rw [hK]
  have hcols : (hconcat R s).cols = (R.row 2 ++ [vecAt s 2]).length := by
    have hR' := hR
    unfold Mat.row at hR'
    simp only [List.getD_eq_getElem?_getD] at hR'
    simp [hconcat, Mat.cols, Mat.row, List.range, List.range.loop, hR']
  have hcol : ∀ j, dot [0, 0, 1] ((hconcat R s).col j) = vecAt (R.row 2 ++ [vecAt s 2]) j := by
    intro j
    simp [hconcat, Mat.col, dot, List.range, List.range.loop]
  have hrow : (hconcat R s).map (fun r => dot r X) =
      [dot (R.row 0 ++ [vecAt s 0]) X, dot (R.row 1 ++ [vecAt s 1]) X,
       dot (R.row 2 ++ [vecAt s 2]) X] := by
    simp [hconcat, List.range, List.range.loop]
  unfold curProjection Mat.mulVec Mat.mul vecAt
  rw [hrow]
  rw [List.getD_eq_getElem?_getD, List.getElem?_map, List.getElem?_map, h2]
  simp only [Option.map_some', Option.getD_some, hcols]
  have : (List.range (R.row 2 ++ [vecAt s 2]).length).map
      (fun j => dot [0, 0, 1] ((hconcat R s).col j)) = R.row 2 ++ [vecAt s 2] := by
    rw [← range_map_vecAt (R.row 2 ++ [vecAt s 2])]
    simp only [List.length_map, List.length_range]
    apply List.map_congr_left
    intro j _
    rw [hcol]
  rw [this]
  rfl

/-- C19: when `findBestRT` returns true, there is a hypothesis `(R, s)`, with `R`
one of `R1`, `R2` and `s` one of `t`, `-t`, such that every correspondence whose
entry of the output mask is set has its entry of the input mask set (an empty
input mask counting as all set) and its triangulated point has a third
coordinate strictly between 0 and `max_dist = 50`, both as triangulated against
`P0 = K1 [I | 0]` (the depth in the reference camera) and after the projection
by `K2 [R | s]`; the latter is the depth in the current camera when the last row
of `K2` is `(0, 0, 1)`. -/
theorem C19_cheirality_bounds (ext : Externals) (R1 R2 : Mat) (t : List ℚ) (K1 K2 : Mat)
    (pts1 pts2 : List Point2f) (mask out : List Nat) (P3Ds : List (List ℚ)) (T : Mat)
    (h : findBestRT ext R1 R2 t K1 K2 pts1 pts2 mask = some (true, out, P3Ds, T)) :
    max_dist = 50 ∧
    ∃ (R : Mat) (s : List ℚ),
      (R = R1 ∨ R = R2) ∧ (s = t ∨ s = t.map (fun x => x * -1)) ∧
      (∀ j, out.getD j 0 ≠ 0 →
        (effectiveMask mask pts1.length).getD j 0 ≠ 0 ∧ (mask ≠ [] → mask.getD j 0 ≠ 0) ∧
        0 < vecAt (triangulatePoint ext (refProjection K1) (curProjection K2 R s)
              (pts1.getD j (0, 0)) (pts2.getD j (0, 0))) 2 ∧
        vecAt (triangulatePoint ext (refProjection K1) (curProjection K2 R s)
              (pts1.getD j (0, 0)) (pts2.getD j (0, 0))) 2 < max_dist ∧
        0 < vecAt ((curProjection K2 R s).mulVec
              (triangulatePoint ext (refProjection K1) (curProjection K2 R s)
                (pts1.getD j (0, 0)) (pts2.getD j (0, 0)))) 2 ∧
        vecAt ((curProjection K2 R s).mulVec
              (triangulatePoint ext (refProjection K1) (curProjection K2 R s)
                (pts1.getD j (0, 0)) (pts2.getD j (0, 0)))) 2 < max_dist) ∧
      (K2.row 2 = [0, 0, 1] → (R.row 0).length = (R.row 2).length →
        ∀ X : List ℚ, vecAt ((curProjection K2 R s).mulVec X) 2 =
          vecAt ((hconcat R s).mulVec X) 2) := by
  refine ⟨rfl, ?_⟩
  obtain ⟨R, s, X, hR, hs, htri, hout, _⟩ :=
    findBestRT_true ext R1 R2 t K1 K2 pts1 pts2 mask out P3Ds T h
  refine ⟨R, s, hR, hs, ?_, fun hK hrow X => curProjection_depth K2 R s X hK hrow⟩
  intro j hj
  rw [hout] at hj
  obtain ⟨hlt, hm, z1, z2, z3, z4, _⟩ := cheirality_entry _ _ _ j hj
  have hX := triangulate_entry ext _ _ pts1 pts2 _ X j htri hlt hm
  rw [hX] at z1 z2 z3 z4
  refine ⟨hm, ?_, z1, z2, z3, z4⟩
  intro hne
  have : effectiveMask mask pts1.length = mask := by
    unfold effectiveMask
    cases mask with
    | nil => exact absurd rfl hne
    | cons a l => rfl
  rw [this] at hm
  exact hm

theorem C19_witness :
    max_dist = 50 ∧
    ∃ (R : Mat) (s : List ℚ),
      (R = [[1, 0, 0], [0, 1, 0], [0, 0, 1]] ∨ R = [[1, 0, 0], [0, -1, 0], [0, 0, -1]]) ∧
      (s = [1, 0, 0] ∨ s = ([1, 0, 0] : List ℚ).map (fun x => x * -1)) ∧
      (∀ j, ([255, 0, 255, 255, 255, 255, 255, 255, 255, 255] : List Nat).getD j 0 ≠ 0 →
        (effectiveMask [255, 0, 255, 255, 255, 255, 255, 255, 255, 255]
          exampleKlt.1.length).getD j 0 ≠ 0 ∧
        (([255, 0, 255, 255, 255, 255, 255, 255, 255, 255] : List Nat) ≠ [] →
          ([255, 0, 255, 255, 255, 255, 255, 255, 255, 255] : List Nat).getD j 0 ≠ 0) ∧
        0 < vecAt (triangulatePoint exampleExternals (refProjection exampleFrame.cvK)
              (curProjection exampleFrame.cvK R s)
              (exampleKlt.1.getD j (0, 0)) (exampleKlt.2.1.getD j (0, 0))) 2 ∧
        vecAt (triangulatePoint exampleExternals (refProjection exampleFrame.cvK)
              (curProjection exampleFrame.cvK R s)
              (exampleKlt.1.getD j (0, 0)) (exampleKlt.2.1.getD j (0, 0))) 2 < max_dist ∧
        0 < vecAt ((curProjection exampleFrame.cvK R s).mulVec
              (triangulatePoint exampleExternals (refProjection exampleFrame.cvK)
                (curProjection exampleFrame.cvK R s)
                (exampleKlt.1.getD j (0, 0)) (exampleKlt.2.1.getD j (0, 0)))) 2 ∧
        vecAt ((curProjection exampleFrame.cvK R s).mulVec
              (triangulatePoint exampleExternals (refProjection exampleFrame.cvK)
                (curProjection exampleFrame.cvK R s)
                (exampleKlt.1.getD j (0, 0)) (exampleKlt.2.1.getD j (0, 0)))) 2 < max_dist) ∧
      (exampleFrame.cvK.row 2 = [0, 0, 1] → (R.row 0).length = (R.row 2).length →
        ∀ X : List ℚ, vecAt ((curProjection exampleFrame.cvK R s).mulVec X) 2 =
          vecAt ((hconcat R s).mulVec X) 2) :=
  C19_cheirality_bounds exampleExternals [[1, 0, 0], [0, 1, 0], [0, 0, 1]]
    [[1, 0, 0], [0, -1, 0], [0, 0, -1]] [1, 0, 0] exampleFrame.cvK exampleFrame.cvK
    exampleKlt.1 exampleKlt.2.1 [255, 0, 255, 255, 255, 255, 255, 255, 255, 255]
    [255, 0, 255, 255, 255, 255, 255, 255, 255, 255]
    [[1, 0, 1], [0, 0, 0], [3, 4, 1], [4, 2, 1], [5, 2, 1], [6, 4, 1], [7, 1, 1], [8, 0, 1],
      [9, 1, 1], [10, 4, 1]]
    [[0, 0, 0, 0], [0, 0, 0, 0], [0, 0, 0, 0]] (by decide!)

/-- C20: on the example run `findBestRT` returns true with the first hypothesis,
`R = I`, `t = (1, 0, 0)` and identity intrinsics. The correspondence at index 0
is triangulated against `P0 = K1 [I | 0]` to the point `(0, 0, 1)` of the
reference camera frame, and the point reported for it is `(1, 0, 1)`: the
reported matrix is `P1 * P3Ds1`, the projection by `K2 [R | t]` that the test on
the second depth has written over the triangulated points. `addSecondFrame`
stores these points in `p3ds_`. -/
theorem C20_reports_projected_points :
    findBestRT exampleExternals [[1, 0, 0], [0, 1, 0], [0, 0, 1]]
        [[1, 0, 0], [0, -1, 0], [0, 0, -1]] [1, 0, 0] exampleFrame.cvK exampleFrame.cvK
        exampleKlt.1 exampleKlt.2.1 [255, 0, 255, 255, 255, 255, 255, 255, 255, 255] =
      some (true, [255, 0, 255, 255, 255, 255, 255, 255, 255, 255],
        [[1, 0, 1], [0, 0, 0], [3, 4, 1], [4, 2, 1], [5, 2, 1], [6, 4, 1], [7, 1, 1], [8, 0, 1],
          [9, 1, 1], [10, 4, 1]],
        [[0, 0, 0, 0], [0, 0, 0, 0], [0, 0, 0, 0]]) ∧
    triangulate exampleExternals (refProjection exampleFrame.cvK)
        (curProjection exampleFrame.cvK [[1, 0, 0], [0, 1, 0], [0, 0, 1]] [1, 0, 0])
        exampleKlt.1 exampleKlt.2.1 [255, 0, 255, 255, 255, 255, 255, 255, 255, 255] =
      some [[0, 0, 1, 1], [0, 0, 0, 0], [2, 4, 1, 1], [3, 2, 1, 1], [4, 2, 1, 1], [5, 4, 1, 1],
        [6, 1, 1, 1], [7, 0, 1, 1], [8, 1, 1, 1], [9, 4, 1, 1]] ∧
    exampleSecond.map (fun r => (r.1, r.2.p3ds_)) =
      some (InitResult.SUCCESS,
        [(1, 0, 1), (3, 4, 1), (4, 2, 1), (5, 2, 1), (6, 4, 1), (7, 1, 1), (8, 0, 1), (9, 1, 1),
          (10, 4, 1)]) := by
  exact ⟨by decide!, by decide!, by decide!⟩

/-! ## The compaction loop of `kltTrack` and the selection of `findBestRT` -/

/-- C21: three pairs go into `kltTrack` and only the pair at index 2 is tracked
with success. The pairs left by the compaction loop are not the tracked ones:
the pair at index 1, whose status is false, is kept and the pair at index 2 is
removed. After a failed entry the loop moves the last pair into the hole and
copies its status to `status[i]`, but `continue` runs `++i`, so that pair is
judged by the status of the next index. One disparity is stored for the one
remaining pair. -/
theorem C21_compaction_loses_track :
    trackedPairs lostTrackExternals 0 0 [(0, 0), (10, 0), (20, 0)] [(0, 0), (10, 0), (20, 0)] =
      [((20, 0), (21, 0))] ∧
    kltTrack lostTrackExternals 0 0 [(0, 0), (10, 0), (20, 0)] [(0, 0), (10, 0), (20, 0)] =
      some ([(10, 0)], [(11, 0)], [1]) := by
  exact ⟨by decide!, by decide!⟩

/-- The matrix `T` that `findBestRT` reports is the fresh allocation, with its
last column overwritten by `-t` for the third and the fourth hypothesis: no entry
of `R1`, `R2` or `t` itself is ever copied into it. -/
theorem findBestRT_T (ext : Externals) (R1 R2 : Mat) (t : List ℚ) (K1 K2 : Mat)
    (pts1 pts2 : List Point2f) (mask out : List Nat) (P3Ds : List (List ℚ)) (T : Mat)
    (h : findBestRT ext R1 R2 t K1 K2 pts1 pts2 mask = some (true, out, P3Ds, T)) :
    T = ext.freshMat34 ∨ T = setLastCol ext.freshMat34 (t.map (fun x => x * -1)) := by
  unfold findBestRT at h
  by_cases hl : pts1.length ≠ pts2.length
  · rw [if_pos hl] at h; cases h
  · rw [if_neg hl] at h
    simp only at h
    generalize (if mask.isEmpty = true then List.replicate pts1.length 255 else mask) = m at h
    cases h1 : triangulate ext ((List.range 3).map (fun i => (K1.row i).take 3 ++ [0]))
        (K2.mul (hconcat R1 t)) pts1 pts2 m with
    | none => rw [h1] at h; simp at h
    | some X1 =>
    cases h2 : triangulate ext ((List.range 3).map (fun i => (K1.row i).take 3 ++ [0]))
        (K2.mul (hconcat R2 t)) pts1 pts2 m with
    | none => rw [h1, h2] at h; simp at h
    | some X2 =>
    cases h3 : triangulate ext ((List.range 3).map (fun i => (K1.row i).take 3 ++ [0]))
        (K2.mul (hconcat R1 (t.map (fun x => x * -1)))) pts1 pts2 m with
    | none => rw [h1, h2, h3] at h; simp at h
    | some X3 =>
    cases h4 : triangulate ext ((List.range 3).map (fun i => (K1.row i).take 3 ++ [0]))
        (K2.mul (hconcat R2 (t.map (fun x => x * -1)))) pts1 pts2 m with
    | none => rw [h1, h2, h3, h4] at h; simp at h
    | some X4 =>
    rw [h1, h2, h3, h4] at h
    simp only at h
    split_ifs at h with c1 c2 c3 c4 c5
    · simp at h
    · simp only [Option.some.injEq, Prod.mk.injEq, true_and] at h
      exact Or.inl h.2.2.symm
    · simp only [Option.some.injEq, Prod.mk.injEq, true_and] at h
      exact Or.inl h.2.2.symm
    · simp only [Option.some.injEq, Prod.mk.injEq, true_and] at h
      exact Or.inr h.2.2.symm
    · simp only [Option.some.injEq, Prod.mk.injEq, true_and] at h
      exact Or.inr h.2.2.symm
    · simp only [Option.some.injEq, Prod.mk.injEq, true_and] at h
      exact Or.inl h.2.2.symm

/-- What `findBestRT` does select: with point vectors of one length and a mask of
that length, it returns; it returns false exactly when the largest of the four
counts is below nine tenths of the count of the input mask; otherwise the mask it
reports is that of the first hypothesis, in the order `(R1, t)`, `(R2, t)`,
`(R1, -t)`, `(R2, -t)`, whose count is the largest. -/
theorem findBestRT_selects (ext : Externals) (R1 R2 : Mat) (t : List ℚ) (K1 K2 : Mat)
    (pts1 pts2 : List Point2f) (mask : List Nat)
    (hl : pts1.length = pts2.length)
    (hm : (effectiveMask mask pts1.length).length = pts1.length) :
    ∃ rt, findBestRT ext R1 R2 t K1 K2 pts1 pts2 mask = some rt ∧
      (rt.1 = false ↔
        ((max (max (countNonZero (acceptedMask ext K1 K2 R1 t pts1 pts2
                (effectiveMask mask pts1.length)))
              (countNonZero (acceptedMask ext K1 K2 R2 t pts1 pts2
                (effectiveMask mask pts1.length))))
            (max (countNonZero (acceptedMask ext K1 K2 R1 (t.map (fun x => x * -1)) pts1 pts2
                (effectiveMask mask pts1.length)))
              (countNonZero (acceptedMask ext K1 K2 R2 (t.map (fun x => x * -1)) pts1 pts2
                (effectiveMask mask pts1.length)))) : Nat) : ℚ) <
          9 / 10 * (countNonZero (effectiveMask mask pts1.length) : ℚ)) ∧
      (rt.1 = true →
        ∃ (R : Mat) (s : List ℚ),
          rt.2.1 = acceptedMask ext K1 K2 R s pts1 pts2 (effectiveMask mask pts1.length) ∧
          countNonZero rt.2.1 =
            max (max (countNonZero (acceptedMask ext K1 K2 R1 t pts1 pts2
                (effectiveMask mask pts1.length)))
              (countNonZero (acceptedMask ext K1 K2 R2 t pts1 pts2
                (effectiveMask mask pts1.length))))
            (max (countNonZero (acceptedMask ext K1 K2 R1 (t.map (fun x => x * -1)) pts1 pts2
                (effectiveMask mask pts1.length)))
              (countNonZero (acceptedMask ext K1 K2 R2 (t.map (fun x => x * -1)) pts1 pts2
                (effectiveMask mask pts1.length)))) ∧
          ((R, s) = (R1, t) ∨
           ((R, s) = (R2, t) ∧
             countNonZero (acceptedMask ext K1 K2 R1 t pts1 pts2
               (effectiveMask mask pts1.length)) ≠ countNonZero rt.2.1) ∨
           ((R, s) = (R1, t.map (fun x => x * -1)) ∧
             countNonZero (acceptedMask ext K1 K2 R1 t pts1 pts2
               (effectiveMask mask pts1.length)) ≠ countNonZero rt.2.1 ∧
             countNonZero (acceptedMask ext K1 K2 R2 t pts1 pts2
               (effectiveMask mask pts1.length)) ≠ countNonZero rt.2.1) ∨
           ((R, s) = (R2, t.map (fun x => x * -1)) ∧
             countNonZero (acceptedMask ext K1 K2 R1 t pts1 pts2
               (effectiveMask mask pts1.length)) ≠ countNonZero rt.2.1 ∧
             countNonZero (acceptedMask ext K1 K2 R2 t pts1 pts2
               (effectiveMask mask pts1.length)) ≠ countNonZero rt.2.1 ∧
             countNonZero (acceptedMask ext K1 K2 R1 (t.map (fun x => x * -1)) pts1 pts2
               (effectiveMask mask pts1.length)) ≠ countNonZero rt.2.1))) := by
  unfold findBestRT
  rw [if_neg (not_not.2 hl)]
  simp only
  unfold acceptedMask
  unfold effectiveMask at hm ⊢
  generalize (if mask.isEmpty = true then List.replicate pts1.length 255 else mask) = m at hm ⊢
  unfold curProjection refProjection
  have ht : ∀ P : Mat, ∃ X, triangulate ext ((List.range 3).map (fun i => (K1.row i).take 3 ++ [0]))
      P pts1 pts2 m = some X := by
    intro P
    exact Option.isSome_iff_exists.1 ((triangulate_isSome ext _ P pts1 pts2 m).2 ⟨hl, hm⟩)
  obtain ⟨X1, h1⟩ := ht (K2.mul (hconcat R1 t))
  obtain ⟨X2, h2⟩ := ht (K2.mul (hconcat R2 t))
  obtain ⟨X3, h3⟩ := ht (K2.mul (hconcat R1 (t.map (fun x => x * -1))))
  obtain ⟨X4, h4⟩ := ht (K2.mul (hconcat R2 (t.map (fun x => x * -1))))
  rw [h1, h2, h3, h4]
  simp only
  generalize e1 : (cheirality (K2.mul (hconcat R1 t)) m X1).1 = m1
  generalize e2 : (cheirality (K2.mul (hconcat R2 t)) m X2).1 = m2
  generalize e3 : (cheirality (K2.mul (hconcat R1 (t.map (fun x => x * -1)))) m X3).1 = m3
  generalize e4 : (cheirality (K2.mul (hconcat R2 (t.map (fun x => x * -1)))) m X4).1 = m4
  split_ifs with c1 c2 c3 c4 c5
  · exact ⟨_, rfl, ⟨fun _ => c1, fun _ => rfl⟩, fun h => absurd h (by simp)⟩
  · refine ⟨_, rfl, ⟨fun h => absurd h (by simp), fun h => absurd h c1⟩, fun _ => ⟨R1, t, ?_, ?_, Or.inl rfl⟩⟩
    · simp only [h1, e1]
    · exact c2.symm
  · refine ⟨_, rfl, ⟨fun h => absurd h (by simp), fun h => absurd h c1⟩, fun _ => ⟨R2, t, ?_, ?_, Or.inr (Or.inl ⟨rfl, ?_⟩)⟩⟩
    · simp only [h2, e2]
    · exact c3.symm
    · simp only; omega
  · refine ⟨_, rfl, ⟨fun h => absurd h (by simp), fun h => absurd h c1⟩, fun _ => ⟨R1, _, ?_, ?_,
      Or.inr (Or.inr (Or.inl ⟨rfl, ?_, ?_⟩))⟩⟩
    · simp only [h3, e3]
    · exact c4.symm
    · simp only; omega
    · simp only; omega
  · refine ⟨_, rfl, ⟨fun h => absurd h (by simp), fun h => absurd h c1⟩, fun _ => ⟨R2, _, ?_, ?_,
      Or.inr (Or.inr (Or.inr ⟨rfl, ?_, ?_, ?_⟩))⟩⟩
    · simp only [h4, e4]
    · exact c5.symm
    · simp only; omega
    · simp only; omega
    · simp only; omega
  · exfalso; omega

/-- C22: on the example run `findBestRT` returns true with the mask of the first
hypothesis `(R1, t)`, `R1 = I`, `t = (1, 0, 0)`, and the matrix `T` it reports is
not `[R1 | t]`: it is the fresh allocation `cv::Mat(3, 4, type)` as it is, all
zero in the first run and all 7 in the second. The statements
`T.rowRange(0,3).colRange(0,3) = R1.clone()` and `T.rowRange(0,3).col(3) = t`
rebind a temporary header and write nothing into `T`. -/
theorem C22_T_is_not_written :
    hconcat [[1, 0, 0], [0, 1, 0], [0, 0, 1]] [1, 0, 0] =
      [[1, 0, 0, 1], [0, 1, 0, 0], [0, 0, 1, 0]] ∧
    acceptedMask exampleExternals exampleFrame.cvK exampleFrame.cvK
        [[1, 0, 0], [0, 1, 0], [0, 0, 1]] [1, 0, 0] exampleKlt.1 exampleKlt.2.1
        [255, 0, 255, 255, 255, 255, 255, 255, 255, 255] =
      [255, 0, 255, 255, 255, 255, 255, 255, 255, 255] ∧
    (findBestRT exampleExternals [[1, 0, 0], [0, 1, 0], [0, 0, 1]]
        [[1, 0, 0], [0, -1, 0], [0, 0, -1]] [1, 0, 0] exampleFrame.cvK exampleFrame.cvK
        exampleKlt.1 exampleKlt.2.1 [255, 0, 255, 255, 255, 255, 255, 255, 255, 255]).map
        (fun rt => (rt.1, rt.2.1, rt.2.2.2)) =
      some (true, [255, 0, 255, 255, 255, 255, 255, 255, 255, 255],
        [[0, 0, 0, 0], [0, 0, 0, 0], [0, 0, 0, 0]]) ∧
    (findBestRT staleMemoryExternals [[1, 0, 0], [0, 1, 0], [0, 0, 1]]
        [[1, 0, 0], [0, -1, 0], [0, 0, -1]] [1, 0, 0] exampleFrame.cvK exampleFrame.cvK
        exampleKlt.1 exampleKlt.2.1 [255, 0, 255, 255, 255, 255, 255, 255, 255, 255]).map
        (fun rt => (rt.1, rt.2.1, rt.2.2.2)) =
      some (true, [255, 0, 255, 255, 255, 255, 255, 255, 255, 255],
        [[7, 7, 7, 7], [7, 7, 7, 7], [7, 7, 7, 7]]) := by
  exact ⟨by decide!, by decide!, by decide!, by decide!⟩

/-! ## The rounds of the RANSAC loop -/

/-- The recorded loop ends within the bound; each state it records respects the
cap on `niters`; the loop itself ends in the last recorded state, or in its start
state when no round is executed. -/
theorem ransacTrace_spec (ext : Externals) (pts_prev pts_next : List Point2f) (threshold : ℚ)
    (max_iters : Int) (hM : 0 ≤ max_iters) :
    ∀ (fuel : Nat) (iter : Int) (st : RansacState), st.niters ≤ max_iters →
      max_iters ≤ iter + fuel → st.inliers.length = pts_prev.length →
      ∃ trace, ransacTrace ext pts_prev pts_next threshold max_iters fuel iter st = some trace ∧
        ransacLoop ext pts_prev pts_next threshold max_iters fuel iter st =
          some (trace.getLastD st) ∧
        (trace.length : Int) ≤ max (max_iters - iter) 0 ∧
        (iter < st.niters → 1 ≤ trace.length) ∧
        ∀ s ∈ trace, s.niters ≤ max_iters := by
  intro fuel
  induction fuel with
  | zero =>
    intro iter st hn hf hl
    have : ¬ iter < st.niters := by simp at hf; omega
    refine ⟨[], by simp [ransacTrace, this], by simp [ransacLoop, this], by simp, ?_, by simp⟩
    intro h; exact absurd h this
  | succ fuel ih =>
    intro iter st hn hf hl
    unfold ransacTrace ransacLoop
    by_cases hi : iter < st.niters
    · rw [if_pos hi, if_pos hi]
      obtain ⟨r, hr, hrn, hrl⟩ := ransacBody_spec ext pts_prev pts_next threshold max_iters st hM hn hl
      obtain ⟨s1, b⟩ := r
      rw [hr]
      cases b with
      | true =>
        refine ⟨[s1], rfl, rfl, ?_, fun _ => by simp, ?_⟩
        · simp only [List.length_singleton, Nat.cast_one]; omega
        · intro s hs; simp only [List.mem_singleton] at hs; rw [hs]; exact hrn
      | false =>
        simp only
        obtain ⟨tr, h1, h2, h3, _, h5⟩ := ih (iter + 1) s1 hrn (by push_cast at hf ⊢; omega) hrl
        rw [h1, h2]
        refine ⟨s1 :: tr, rfl, ?_, ?_, fun _ => by simp, ?_⟩
        · cases tr with
          | nil => rfl
          | cons a l => simp [List.getLastD]
        · simp only [List.length_cons, Nat.cast_add, Nat.cast_one]; omega
        · intro s hs
          rcases List.mem_cons.1 hs with e | e
          · rw [e]; exact hrn
          · exact h5 s e
    · rw [if_neg hi, if_neg hi]
      refine ⟨[], rfl, rfl, by simp, fun h => absurd h hi, by simp⟩

/-- Each round of the RANSAC loop makes eight calls of `Rand`. -/
theorem ransacBody_rng (ext : Externals) (pts_prev pts_next : List Point2f) (threshold : ℚ)
    (max_iters : Int) (st : RansacState) (r : RansacState × Bool)
    (h : ransacBody ext pts_prev pts_next threshold max_iters st = some r) :
    r.1.rng = (sample8 ext pts_prev pts_next (List.range pts_prev.length) st.rng).2.1 := by
  unfold ransacBody at h
  simp only at h
  cases hF : run8point ext
      (sample8 ext pts_prev pts_next (List.range pts_prev.length) st.rng).2.2.1
      (sample8 ext pts_prev pts_next (List.range pts_prev.length) st.rng).2.2.2 with
  | none => rw [hF] at h; simp at h
  | some F_temp =>
    rw [hF] at h
    simp only at h
    split_ifs at h <;> cases h <;> rfl

/-- C23: for every `max_iterations` and at least eight correspondences, the
RANSAC loop of `runRANSAC` ends: the first part of `runRANSAC` returns the state
after the last round. The loop executes at least one round and at most
`min(max(max_iterations, 1), 1000)` rounds, a number between 1 and 1000, and the
count `niters` is at most that number after every round. -/
theorem C23_ransac_loop_bounds (ext : Externals) (pts_prev pts_next : List Point2f) (sigma : ℚ)
    (max_iterations : Int) (rng : Nat) (h8 : 8 ≤ pts_prev.length) :
    1 ≤ min (max max_iterations 1) 1000 ∧ min (max max_iterations 1) 1000 ≤ 1000 ∧
    ∃ (trace : List RansacState) (last : RansacState),
      ransacTrace ext pts_prev pts_next (3841 / 1000 * sigma * sigma)
        (min (max max_iterations 1) 1000) (min (max max_iterations 1) 1000).toNat 0
        { inliers := List.replicate pts_prev.length 0, max_inliers := 0,
          niters := min (max max_iterations 1) 1000, rng := rng } = some trace ∧
      trace.getLast? = some last ∧
      ransacBest ext pts_prev pts_next sigma max_iterations rng = some last ∧
      1 ≤ trace.length ∧
      (trace.length : Int) ≤ min (max max_iterations 1) 1000 ∧
      ∀ s ∈ trace, s.niters ≤ min (max max_iterations 1) 1000 := by
  have hM1 : (1 : Int) ≤ min (max max_iterations 1) 1000 := by omega
  have hM2 : min (max max_iterations 1) 1000 ≤ (1000 : Int) := by omega
  refine ⟨hM1, hM2, ?_⟩
  obtain ⟨tr, h1, h2, h3, h4, h5⟩ := ransacTrace_spec ext pts_prev pts_next
    (3841 / 1000 * sigma * sigma) (min (max max_iterations 1) 1000) (by omega)
    (min (max max_iterations 1) 1000).toNat 0
    { inliers := List.replicate pts_prev.length 0, max_inliers := 0,
      niters := min (max max_iterations 1) 1000, rng := rng }
    (le_refl _) (by omega) (by simp)
  have hlen : 1 ≤ tr.length := h4 (by simp only; omega)
  have hne : tr ≠ [] := by
    intro e; rw [e] at hlen; simp at hlen
  refine ⟨tr, tr.getLast hne, h1, List.getLast?_eq_getLast _ hne, ?_, hlen, by omega, h5⟩
  unfold ransacBest
  rw [if_neg (by omega)]
  simp only
  rw [h2]
  congr 1
  cases tr with
  | nil => exact absurd rfl hne
  | cons a l => rw [List.getLast_eq_getLastD, List.getLastD_cons]

theorem C23_witness :
    8 ≤ exampleKlt.1.length ∧
    (1 ≤ min (max (-3 : Int) 1) 1000 ∧ min (max (-3 : Int) 1) 1000 ≤ 1000 ∧
    ∃ (trace : List RansacState) (last : RansacState),
      ransacTrace exampleExternals exampleKlt.1 exampleKlt.2.1 (3841 / 1000 * 1 * 1)
        (min (max (-3 : Int) 1) 1000) (min (max (-3 : Int) 1) 1000).toNat 0
        { inliers := List.replicate exampleKlt.1.length 0, max_inliers := 0,
          niters := min (max (-3 : Int) 1) 1000, rng := 0 } = some trace ∧
      trace.getLast? = some last ∧
      ransacBest exampleExternals exampleKlt.1 exampleKlt.2.1 1 (-3) 0 = some last ∧
      1 ≤ trace.length ∧
      (trace.length : Int) ≤ min (max (-3 : Int) 1) 1000 ∧
      ∀ s ∈ trace, s.niters ≤ min (max (-3 : Int) 1) 1000) :=
  ⟨by decide, C23_ransac_loop_bounds exampleExternals exampleKlt.1 exampleKlt.2.1 1 (-3) 0
    (by decide)⟩

/-! ## The count that `runRANSAC` returns -/

theorem scoreFold_eq (ext : Externals) (F : Mat) (threshold : ℚ)
    (pts_prev pts_next : List Point2f) (l : List Nat) :
    ∀ acc : List Nat × Int,
      l.foldl (fun acc n =>
        if errorBelow ext F threshold (pts_prev.getD n (0, 0)) (pts_next.getD n (0, 0)) then
          (acc.1 ++ [255], acc.2 + 1)
        else (acc.1 ++ [0], acc.2))
        acc =
      (acc.1 ++ l.map (fun n =>
          if errorBelow ext F threshold (pts_prev.getD n (0, 0)) (pts_next.getD n (0, 0))
          then 255 else 0),
       acc.2 + ((l.filter (fun n =>
          errorBelow ext F threshold (pts_prev.getD n (0, 0)) (pts_next.getD n (0, 0)))).length :
            Int)) := by
  induction l with
  | nil => intro acc; simp
  | cons n t ih =>
    intro acc
    rw [List.foldl_cons, ih]
    cases h : errorBelow ext F threshold (pts_prev.getD n (0, 0)) (pts_next.getD n (0, 0)) with
    | true =>
      simp only [h, if_true, List.map_cons, List.filter_cons, List.length_cons,
        List.append_assoc, List.singleton_append, Nat.cast_add, Nat.cast_one]
      congr 1
      omega
    | false =>
      simp only [h, if_false, List.map_cons, List.filter_cons,
        List.append_assoc, List.singleton_append, Bool.false_eq_true]

/-- The scoring loop yields one byte per correspondence, set where the test
`MAX(error1, error2) < threshold` holds under `F`, and the number of these
correspondences. -/
theorem scoreInliers_eq (ext : Externals) (F : Mat) (threshold : ℚ)
    (pts_prev pts_next : List Point2f) :
    scoreInliers ext F threshold pts_prev pts_next =
      ((List.range pts_prev.length).map (fun n =>
          if errorBelow ext F threshold (pts_prev.getD n (0, 0)) (pts_next.getD n (0, 0))
          then 255 else 0),
       (inlierCountUnder ext F threshold pts_prev pts_next : Int)) := by
  unfold scoreInliers inlierCountUnder
  rw [scoreFold_eq]
  simp

theorem countNonZero_scoreMask (p : Nat → Bool) (l : List Nat) :
    countNonZero (l.map (fun n => if p n then 255 else 0)) = (l.filter p).length := by
  unfold countNonZero
  induction l with
  | nil => simp
  | cons n t ih =>
    cases h : p n with
    | true =>
      simp only [List.map_cons, h, if_true, List.filter_cons]
      have : ((255 : Nat) != 0) = true := by decide
      simp only [this, if_true, List.length_cons, ih]
    | false =>
      simp only [List.map_cons, h, if_false, List.filter_cons, Bool.false_eq_true]
      have : ((0 : Nat) != 0) = false := by decide
      simp only [this, Bool.false_eq_true, if_false, ih]

theorem scoreInliers_count (ext : Externals) (F : Mat) (threshold : ℚ)
    (pts_prev pts_next : List Point2f) :
    (scoreInliers ext F threshold pts_prev pts_next).2 =
      (countNonZero (scoreInliers ext F threshold pts_prev pts_next).1 : Int) := by
  rw [scoreInliers_eq]
  simp only
  rw [countNonZero_scoreMask]
  rfl

theorem selectByMask_zero {α : Type} (l : List α) :
    selectByMask (List.replicate l.length 0) l = [] := by
  unfold selectByMask
  rw [List.map_eq_nil_iff, List.filter_eq_nil_iff]
  intro p hp
  have := (List.of_mem_zip hp).2
  rw [List.mem_replicate] at this
  simp [this.2]

/-- A mask selects at most as many correspondences as it has set entries. -/
theorem selectByMask_length_le {α : Type} (mask : List Nat) :
    ∀ l : List α, (selectByMask mask l).length ≤ countNonZero mask := by
  unfold selectByMask countNonZero
  induction mask with
  | nil => intro l; simp
  | cons b t ih =>
    intro l
    cases l with
    | nil => simp
    | cons a l' =>
      have := ih l'
      simp only [List.length_map] at this ⊢
      simp only [List.zip_cons_cons, List.filter_cons]
      cases hb : (b != 0) with
      | true => simp only [if_true, List.length_cons]; omega
      | false => simp only [Bool.false_eq_true, if_false]; exact this

theorem sampleFold_rng (ext : Externals) (pts_prev pts_next : List Point2f) (l : List Nat) :
    ∀ st : List Nat × Nat × List Point2f × List Point2f,
      (l.foldl (fun st _ => sampleStep ext pts_prev pts_next st) st).2.1 = st.2.1 + l.length := by
  induction l with
  | nil => intro st; simp
  | cons a t ih =>
    intro st
    simp only [List.foldl_cons, List.length_cons]
    rw [ih]
    simp only [sampleStep]
    omega

/-- The sampling loop of one round makes eight calls of `Rand`. -/
theorem sample8_rng (ext : Externals) (pts_prev pts_next : List Point2f)
    (total_points : List Nat) (rng : Nat) :
    (sample8 ext pts_prev pts_next total_points rng).2.1 = rng + 8 := by
  unfold sample8
  rw [sampleFold_rng]
  simp

/-- One round of the RANSAC loop keeps the best of the rounds so far: the pair
`inliers`, `max_inliers` is replaced by the score of the round when that count is
larger, and kept otherwise. -/
theorem ransacBody_best (ext : Externals) (pts_prev pts_next : List Point2f) (threshold : ℚ)
    (max_iters : Int) (rng k : Nat) (st : RansacState) (r : RansacState × Bool)
    (h : ransacBody ext pts_prev pts_next threshold max_iters st = some r)
    (hr : st.rng = rng + 8 * k)
    (hinv : BestOfRounds ext pts_prev pts_next threshold rng k st.inliers st.max_inliers) :
    r.1.rng = rng + 8 * (k + 1) ∧
    BestOfRounds ext pts_prev pts_next threshold rng (k + 1) r.1.inliers r.1.max_inliers := by
  have hrng := ransacBody_rng ext pts_prev pts_next threshold max_iters st r h
  rw [sample8_rng, hr] at hrng
  refine ⟨by rw [hrng]; ring, ?_⟩
  unfold ransacBody at h
  simp only at h
  cases hF : run8point ext
      (sample8 ext pts_prev pts_next (List.range pts_prev.length) st.rng).2.2.1
      (sample8 ext pts_prev pts_next (List.range pts_prev.length) st.rng).2.2.2 with
  | none => rw [hF] at h; simp at h
  | some F_temp =>
    have hsc : roundScore ext pts_prev pts_next threshold (rng + 8 * k) =
        some (scoreInliers ext F_temp threshold pts_prev pts_next) := by
      unfold roundScore sampleFit
      rw [← hr, hF]
      rfl
    rw [hF] at h
    simp only at h
    obtain ⟨hall, hbest⟩ := hinv
    by_cases h1 : (scoreInliers ext F_temp threshold pts_prev pts_next).2 > st.max_inliers
    · have hnew : r.1.inliers = (scoreInliers ext F_temp threshold pts_prev pts_next).1 ∧
          r.1.max_inliers = (scoreInliers ext F_temp threshold pts_prev pts_next).2 := by
        rw [if_pos h1] at h
        by_cases h2 : (scoreInliers ext F_temp threshold pts_prev pts_next).2 < pts_prev.length
        · rw [if_pos h2] at h; cases h; exact ⟨rfl, rfl⟩
        · rw [if_neg h2] at h; cases h; exact ⟨rfl, rfl⟩
      rw [hnew.1, hnew.2]
      constructor
      · intro i hi
        by_cases hik : i < k
        · obtain ⟨sc, e, hle⟩ := hall i hik
          exact ⟨sc, e, by omega⟩
        · have : i = k := by omega
          subst this
          exact ⟨_, hsc, le_refl _⟩
      · right
        refine ⟨k, by omega, hsc, ?_⟩
        intro i hi
        obtain ⟨sc, e, hle⟩ := hall i hi
        exact ⟨sc, e, by omega⟩
    · rw [if_neg h1] at h
      cases h
      simp only
      constructor
      · intro i hi
        by_cases hik : i < k
        · exact hall i hik
        · have : i = k := by omega
          subst this
          exact ⟨_, hsc, by omega⟩
      · rcases hbest with h0 | ⟨j, hj, e, hlt⟩
        · exact Or.inl h0
        · exact Or.inr ⟨j, by omega, e, hlt⟩

/-- The rounds that the RANSAC loop records keep the best of the rounds so far:
after them the pair `inliers`, `max_inliers` is the best of all the rounds run,
and eight calls of `Rand` have been made per round. -/
theorem ransacTrace_best (ext : Externals) (pts_prev pts_next : List Point2f) (threshold : ℚ)
    (max_iters : Int) (rng : Nat) :
    ∀ (fuel : Nat) (iter : Int) (st : RansacState) (k : Nat) (trace : List RansacState),
      ransacTrace ext pts_prev pts_next threshold max_iters fuel iter st = some trace →
      st.rng = rng + 8 * k →
      BestOfRounds ext pts_prev pts_next threshold rng k st.inliers st.max_inliers →
      (trace.getLastD st).rng = rng + 8 * (k + trace.length) ∧
      BestOfRounds ext pts_prev pts_next threshold rng (k + trace.length)
        (trace.getLastD st).inliers (trace.getLastD st).max_inliers := by
  intro fuel
  induction fuel with
  | zero =>
    intro iter st k trace h hr hinv
    unfold ransacTrace at h
    by_cases hi : iter < st.niters
    · rw [if_pos hi] at h; cases h
    · rw [if_neg hi] at h; cases h; exact ⟨hr, hinv⟩
  | succ n ih =>
    intro iter st k trace h hr hinv
    unfold ransacTrace at h
    by_cases hi : iter < st.niters
    · rw [if_pos hi] at h
      cases hb : ransacBody ext pts_prev pts_next threshold max_iters st with
      | none => rw [hb] at h; cases h
      | some r =>
        obtain ⟨s1, b⟩ := r
        obtain ⟨hr1, hinv1⟩ :=
          ransacBody_best ext pts_prev pts_next threshold max_iters rng k st (s1, b) hb hr hinv
        rw [hb] at h
        cases b with
        | true =>
          simp only at h
          cases h
          exact ⟨hr1, hinv1⟩
        | false =>
          simp only at h
          cases ht : ransacTrace ext pts_prev pts_next threshold max_iters n (iter + 1) s1 with
          | none => rw [ht] at h; cases h
          | some tr =>
            rw [ht] at h
            simp only [Option.map_some', Option.some.injEq] at h
            subst h
            obtain ⟨q1, q2⟩ := ih (iter + 1) s1 (k + 1) tr ht hr1 hinv1
            have hl : (s1 :: tr).getLastD st = tr.getLastD s1 := by
              rw [List.getLastD_cons]
            rw [hl, List.length_cons]
            have e : k + (tr.length + 1) = k + 1 + tr.length := by omega
            rw [e]
            exact ⟨q1, q2⟩
    · rw [if_neg hi] at h; cases h; exact ⟨hr, hinv⟩

/-- The function `run8point` passes the matrix `A.t() * A` of the design matrix
to `cv::eigen` and the last eigenvector, as a `3 x 3` matrix, to `cv::SVDecomp`. -/
theorem run8point_hooks (ext : Externals) (pts_prev pts_next : List Point2f) :
    run8point ext pts_prev pts_next =
      if pts_prev.length < 8 then none
      else
        let d := ext.svd (svdInput ext pts_prev pts_next)
        let F := ((Normalize pts_next).2.t.mul
          ((d.2.1.mul (Mat.diag (d.1.set 2 0))).mul d.2.2)).mul (Normalize pts_prev).2
        some (if |F.entry 2 2| > FLT_EPSILON then Mat.scale (1 / F.entry 2 2) F else F) := by
  rfl

theorem vecAt_scale (c : ℚ) (F : Mat) (i : Nat) :
    vecAt (Mat.scale c F).flatten i = c * vecAt F.flatten i := by
  unfold Mat.scale vecAt
  rw [← List.map_flatten]
  simp only [List.getD_eq_getElem?_getD, List.getElem?_map]
  cases F.flatten[i]? with
  | none => simp
  | some x => simp

theorem quot_scale (c n d : ℚ) (hc : c ≠ 0) :
    Fp.quot (c * c * n) (c * c * d) = Fp.quot n d := by
  have hcc : c * c ≠ 0 := mul_ne_zero hc hc
  have hpos : 0 < c * c := lt_of_le_of_ne (mul_self_nonneg c) (Ne.symm hcc)
  unfold Fp.quot
  by_cases hd : d = 0
  · subst hd
    simp only [mul_zero, if_true]
    unfold Fp.overZero
    by_cases hn : n = 0
    · subst hn; simp
    · have h1 : c * c * n ≠ 0 := mul_ne_zero hcc hn
      have h2 : (0 < c * c * n) ↔ 0 < n := by
        constructor
        · intro h; exact (mul_pos_iff_of_pos_left hpos).1 h
        · intro h; exact mul_pos hpos h
      simp only [h1, hn, if_false, h2]
  · have h1 : c * c * d ≠ 0 := mul_ne_zero hcc hd
    simp only [h1, hd, if_false]
    congr 1
    field_simp
    ring

/-- The errors of `computeErrors` do not depend on the scale of the matrix. -/
theorem computeErrors_scale (c : ℚ) (hc : c ≠ 0) (p1 p2 : Point2f) (F : Mat) :
    computeErrors p1 p2 (Mat.scale c F) = computeErrors p1 p2 F := by
  unfold computeErrors
  simp only [vecAt_scale]
  refine Prod.ext ?_ ?_
  · simp only
    refine Eq.trans ?_ (quot_scale c _ _ hc)
    congr 1 <;> ring
  · simp only
    refine Eq.trans ?_ (quot_scale c _ _ hc)
    congr 1 <;> ring

/-- C18, as the code has it: a call of `runRANSAC` that returns has run `m`
rounds of the loop, between 1 and `min(max(max_iterations, 1), 1000)`, with eight
calls of `Rand` each: round `i` fits its candidate `F_temp` to the sample drawn by
the calls `rng + 8 i` to `rng + 8 i + 7` and scores it. The count and the mask
returned are the score of the candidate of one of these rounds, round `j`: the
count is the number of correspondences that pass the test
`MAX(error1, error2) < 3.841 sigma^2` of `computeErrors` under that candidate, the
mask marks them and the count is the number of its set entries, at least 8. No
round scored more, and no round before `j` scored as much: it is the best
candidate, the first one in case of a tie. Nothing is counted under the matrix
`F` that is refitted to the marked correspondences and returned. -/
theorem C18_count_of_best_sample (ext : Externals) (pts_prev pts_next : List Point2f) (sigma : ℚ)
    (max_iterations : Int) (rng : Nat) (cnt : Int) (F : Mat) (mask : List Nat) (rng' : Nat)
    (h : runRANSAC ext pts_prev pts_next sigma max_iterations rng = some (cnt, F, mask, rng')) :
    8 ≤ pts_prev.length ∧
    cnt = (countNonZero mask : Int) ∧
    8 ≤ cnt ∧
    run8point ext (selectByMask mask pts_prev) (selectByMask mask pts_next) = some F ∧
    ∃ (trace : List RansacState) (j : Nat) (F_temp : Mat),
      ransacTrace ext pts_prev pts_next (3841 / 1000 * sigma * sigma)
        (min (max max_iterations 1) 1000) (min (max max_iterations 1) 1000).toNat 0
        { inliers := List.replicate pts_prev.length 0, max_inliers := 0,
          niters := min (max max_iterations 1) 1000, rng := rng } = some trace ∧
      j < trace.length ∧
      (trace.length : Int) ≤ min (max max_iterations 1) 1000 ∧
      rng' = rng + 8 * trace.length ∧
      sampleFit ext pts_prev pts_next (rng + 8 * j) = some F_temp ∧
      scoreInliers ext F_temp (3841 / 1000 * sigma * sigma) pts_prev pts_next = (mask, cnt) ∧
      cnt = (inlierCountUnder ext F_temp (3841 / 1000 * sigma * sigma) pts_prev pts_next : Int) ∧
      mask = (List.range pts_prev.length).map (fun n =>
        if errorBelow ext F_temp (3841 / 1000 * sigma * sigma) (pts_prev.getD n (0, 0))
          (pts_next.getD n (0, 0))
        then 255 else 0) ∧
      (∀ i, i < trace.length →
        ∃ sc, roundScore ext pts_prev pts_next (3841 / 1000 * sigma * sigma) (rng + 8 * i) =
          some sc ∧ sc.2 ≤ cnt) ∧
      (∀ i, i < j →
        ∃ sc, roundScore ext pts_prev pts_next (3841 / 1000 * sigma * sigma) (rng + 8 * i) =
          some sc ∧ sc.2 < cnt) := by
  unfold runRANSAC at h
  cases hb : ransacBest ext pts_prev pts_next sigma max_iterations rng with
  | none => rw [hb] at h; cases h
  | some st =>
    rw [hb] at h
    simp only at h
    cases hF : run8point ext (selectByMask st.inliers pts_prev) (selectByMask st.inliers pts_next) with
    | none => rw [hF] at h; cases h
    | some F' =>
      rw [hF] at h
      simp only [Option.some.injEq, Prod.mk.injEq] at h
      obtain ⟨h1, h2, h3, h4⟩ := h
      subst h1 h2 h3 h4
      have h8 := (ransacBest_some ext pts_prev pts_next sigma max_iterations rng st hb).1
      obtain ⟨tr, t1, t2, t3, _, _⟩ := ransacTrace_spec ext pts_prev pts_next
        (3841 / 1000 * sigma * sigma) (min (max max_iterations 1) 1000) (by omega)
        (min (max max_iterations 1) 1000).toNat 0
        { inliers := List.replicate pts_prev.length 0, max_inliers := 0,
          niters := min (max max_iterations 1) 1000, rng := rng }
        (le_refl _) (by omega) (by simp)
      have hst : tr.getLastD
          { inliers := List.replicate pts_prev.length 0, max_inliers := 0,
            niters := min (max max_iterations 1) 1000, rng := rng } = st := by
        unfold ransacBest at hb
        rw [if_neg (by omega)] at hb
        simp only at hb
        rw [t2] at hb
        exact Option.some.inj hb
      obtain ⟨b1, b2⟩ := ransacTrace_best ext pts_prev pts_next (3841 / 1000 * sigma * sigma)
        (min (max max_iterations 1) 1000) rng (min (max max_iterations 1) 1000).toNat 0
        { inliers := List.replicate pts_prev.length 0, max_inliers := 0,
          niters := min (max max_iterations 1) 1000, rng := rng } 0 tr t1 rfl
        ⟨fun i hi => absurd hi (Nat.not_lt_zero i), Or.inl ⟨rfl, rfl⟩⟩
      rw [hst, Nat.zero_add] at b1 b2
      obtain ⟨hall, hbest⟩ := b2
      have hsel : 8 ≤ (selectByMask st.inliers pts_prev).length :=
        (run8point_isSome ext _ _).1 (by rw [hF]; rfl)
      rcases hbest with ⟨_, h0⟩ | ⟨j, hj, hsc, hlt⟩
      · rw [h0, selectByMask_zero] at hsel
        simp at hsel
      · unfold roundScore at hsc
        cases hfit : sampleFit ext pts_prev pts_next (rng + 8 * j) with
        | none => rw [hfit] at hsc; cases hsc
        | some F_temp =>
          rw [hfit] at hsc
          simp only [Option.map_some', Option.some.injEq] at hsc
          have hc := scoreInliers_count ext F_temp (3841 / 1000 * sigma * sigma) pts_prev pts_next
          have he := scoreInliers_eq ext F_temp (3841 / 1000 * sigma * sigma) pts_prev pts_next
          rw [hsc] at hc he
          simp only [Prod.mk.injEq] at he
          simp only at hc
          have hle := selectByMask_length_le st.inliers pts_prev
          refine ⟨h8, hc, ?_, hF, tr, j, F_temp, t1, hj, ?_, b1, hfit, hsc, he.2, he.1, hall, hlt⟩
          · rw [hc]
            exact_mod_cast le_trans hsel hle
          · have : (0 : Int) ≤ min (max max_iterations 1) 1000 := by omega
            rw [max_eq_left (by omega)] at t3
            simpa using t3

/-- C18, witness: on the 13 correspondences of the scene with noise the call
returns the count 12, the number of set entries of the mask returned, after one
round and eight calls of `Rand`. -/
theorem C18_witness :
    runRANSAC (noisyRoutines exampleExternals) noisyPrev noisyNext 2 1 0 =
      some (12, [[0, 0, -1 / 2], [0, 0, 0], [1 / 2, 0, 1]],
        [255, 255, 255, 255, 255, 255, 255, 255, 255, 255, 255, 255, 0], 8) ∧
    8 ≤ noisyPrev.length ∧
    (12 : Int) = (countNonZero [255, 255, 255, 255, 255, 255, 255, 255, 255, 255, 255, 255, 0] : Int) ∧
    (8 : Int) ≤ 12 :=
  ⟨by decide!,
   (C18_count_of_best_sample (noisyRoutines exampleExternals) noisyPrev noisyNext 2 1 0 12
     [[0, 0, -1 / 2], [0, 0, 0], [1 / 2, 0, 1]] [255, 255, 255, 255, 255, 255, 255, 255, 255, 255, 255, 255, 0] 8
     (by decide!)).1,
   (C18_count_of_best_sample (noisyRoutines exampleExternals) noisyPrev noisyNext 2 1 0 12
     [[0, 0, -1 / 2], [0, 0, 0], [1 / 2, 0, 1]] [255, 255, 255, 255, 255, 255, 255, 255, 255, 255, 255, 255, 0] 8
     (by decide!)).2.1,
   (C18_count_of_best_sample (noisyRoutines exampleExternals) noisyPrev noisyNext 2 1 0 12
     [[0, 0, -1 / 2], [0, 0, 0], [1 / 2, 0, 1]] [255, 255, 255, 255, 255, 255, 255, 255, 255, 255, 255, 255, 0] 8
     (by decide!)).2.2.1⟩

/-! ## The inlier gate of `addSecondFrame` -/

theorem quot_square_not_below (x a b t : ℚ) (ht : t ≤ 0) :
    Fp.lt (Fp.quot (x * x) (a * a + b * b)) (Fp.finite t) = false := by
  unfold Fp.quot
  by_cases hd : a * a + b * b = 0
  · rw [if_pos hd]
    unfold Fp.overZero
    by_cases hx : x * x = 0
    · rw [if_pos hx]; rfl
    · rw [if_neg hx]
      have : 0 < x * x := lt_of_le_of_ne (mul_self_nonneg x) (Ne.symm hx)
      rw [if_pos this]; rfl
  · rw [if_neg hd]
    have h1 : 0 ≤ x * x / (a * a + b * b) :=
      div_nonneg (mul_self_nonneg x) (add_nonneg (mul_self_nonneg a) (mul_self_nonneg b))
    simp only [Fp.lt, decide_eq_false_iff_not, not_lt]
    linarith

/-- No correspondence passes the test of the scoring loop when the threshold is
not positive: the errors are squares over sums of squares. -/
theorem errorBelow_of_nonpos (ext : Externals) (F : Mat) (threshold : ℚ) (p1 p2 : Point2f)
    (ht : threshold ≤ 0) : errorBelow ext F threshold p1 p2 = false := by
  unfold errorBelow MAX computeErrors
  simp only
  split_ifs <;> exact quot_square_not_below _ _ _ _ ht

theorem scoreInliers_of_nonpos (ext : Externals) (F : Mat) (threshold : ℚ)
    (pts_prev pts_next : List Point2f) (ht : threshold ≤ 0) :
    scoreInliers ext F threshold pts_prev pts_next = (List.replicate pts_prev.length 0, 0) := by
  rw [scoreInliers_eq]
  unfold inlierCountUnder
  simp only [errorBelow_of_nonpos ext F threshold _ _ ht, Bool.false_eq_true, if_false,
    List.filter_false, List.length_nil, Nat.cast_zero, Prod.mk.injEq, and_true]
  apply List.ext_getElem
  · simp
  · intro n h1 h2
    simp

/-- The count that the RANSAC loop ends with is the number of set entries of the
mask it ends with. -/
theorem ransacBest_count (ext : Externals) (pts_prev pts_next : List Point2f) (sigma : ℚ)
    (max_iterations : Int) (rng : Nat) (st : RansacState)
    (hb : ransacBest ext pts_prev pts_next sigma max_iterations rng = some st) :
    st.max_inliers = (countNonZero st.inliers : Int) := by
  have h8 := (ransacBest_some ext pts_prev pts_next sigma max_iterations rng st hb).1
  obtain ⟨tr, t1, t2, _, _, _⟩ := ransacTrace_spec ext pts_prev pts_next
    (3841 / 1000 * sigma * sigma) (min (max max_iterations 1) 1000) (by omega)
    (min (max max_iterations 1) 1000).toNat 0
    { inliers := List.replicate pts_prev.length 0, max_inliers := 0,
      niters := min (max max_iterations 1) 1000, rng := rng }
    (le_refl _) (by omega) (by simp)
  have hst : tr.getLastD
      { inliers := List.replicate pts_prev.length 0, max_inliers := 0,
        niters := min (max max_iterations 1) 1000, rng := rng } = st := by
    unfold ransacBest at hb
    rw [if_neg (by omega)] at hb
    simp only at hb
    rw [t2] at hb
    exact Option.some.inj hb
  obtain ⟨_, b2⟩ := ransacTrace_best ext pts_prev pts_next (3841 / 1000 * sigma * sigma)
    (min (max max_iterations 1) 1000) rng (min (max max_iterations 1) 1000).toNat 0
    { inliers := List.replicate pts_prev.length 0, max_inliers := 0,
      niters := min (max max_iterations 1) 1000, rng := rng } 0 tr t1 rfl
    ⟨fun i hi => absurd hi (Nat.not_lt_zero i), Or.inl ⟨rfl, rfl⟩⟩
  rw [hst] at b2
  rcases b2.2 with ⟨h0, hz⟩ | ⟨j, _, hsc, _⟩
  · rw [h0, hz]
    simp [countNonZero]
  · unfold roundScore at hsc
    cases hfit : sampleFit ext pts_prev pts_next (rng + 8 * j) with
    | none => rw [hfit] at hsc; cases hsc
    | some F_temp =>
      rw [hfit] at hsc
      simp only [Option.map_some', Option.some.injEq] at hsc
      have hc := scoreInliers_count ext F_temp (3841 / 1000 * sigma * sigma) pts_prev pts_next
      rw [hsc] at hc
      exact hc

/-- The refit of `runRANSAC` fails its assertion when the RANSAC loop ends with
fewer than 8 inliers: the call does not return. -/
theorem runRANSAC_few_inliers (ext : Externals) (pts_prev pts_next : List Point2f) (sigma : ℚ)
    (max_iterations : Int) (rng : Nat) (st : RansacState)
    (hb : ransacBest ext pts_prev pts_next sigma max_iterations rng = some st)
    (h8 : st.max_inliers < 8) :
    runRANSAC ext pts_prev pts_next sigma max_iterations rng = none := by
  have hc := ransacBest_count ext pts_prev pts_next sigma max_iterations rng st hb
  have hle := selectByMask_length_le st.inliers pts_prev
  have hlt : (selectByMask st.inliers pts_prev).length < 8 := by
    have : (countNonZero st.inliers : Int) < 8 := by rw [← hc]; exact h8
    omega
  unfold runRANSAC
  rw [hb]
  simp only
  have : run8point ext (selectByMask st.inliers pts_prev) (selectByMask st.inliers pts_next) =
      none := by
    unfold run8point
    rw [if_pos hlt]
  rw [this]

/-- Every count that `findFundamentalMat` returns is at least 8. -/
theorem findFundamentalMat_count (ext : Externals) (pts_prev pts_next : List Point2f)
    (sigma : ℚ) (max_iterations : Int) (rng : Nat) (fm : Int × Mat × List Nat × Nat)
    (h : findFundamentalMat ext pts_prev pts_next sigma max_iterations rng = some fm) :
    8 ≤ fm.1 := by
  unfold findFundamentalMat at h
  split_ifs at h
  cases hb : ransacBest ext pts_prev pts_next sigma max_iterations rng with
  | none => unfold runRANSAC at h; rw [hb] at h; cases h
  | some st =>
    by_contra hlt
    by_cases h8 : st.max_inliers < 8
    · rw [runRANSAC_few_inliers ext pts_prev pts_next sigma max_iterations rng st hb h8] at h
      cases h
    · unfold runRANSAC at h
      rw [hb] at h
      simp only at h
      split at h
      · cases h
      · cases h
        exact hlt (by simpa using h8)

/-- With a threshold that is not positive the RANSAC loop ends with the count 0,
whatever the numeric routines return. -/
theorem ransacBest_of_nonpos (ext : Externals) (pts_prev pts_next : List Point2f) (sigma : ℚ)
    (max_iterations : Int) (rng : Nat) (st : RansacState)
    (ht : 3841 / 1000 * sigma * sigma ≤ 0)
    (hb : ransacBest ext pts_prev pts_next sigma max_iterations rng = some st) :
    st.max_inliers = 0 := by
  have h8 := (ransacBest_some ext pts_prev pts_next sigma max_iterations rng st hb).1
  obtain ⟨tr, t1, t2, _, _, _⟩ := ransacTrace_spec ext pts_prev pts_next
    (3841 / 1000 * sigma * sigma) (min (max max_iterations 1) 1000) (by omega)
    (min (max max_iterations 1) 1000).toNat 0
    { inliers := List.replicate pts_prev.length 0, max_inliers := 0,
      niters := min (max max_iterations 1) 1000, rng := rng }
    (le_refl _) (by omega) (by simp)
  have hst : tr.getLastD
      { inliers := List.replicate pts_prev.length 0, max_inliers := 0,
        niters := min (max max_iterations 1) 1000, rng := rng } = st := by
    unfold ransacBest at hb
    rw [if_neg (by omega)] at hb
    simp only at hb
    rw [t2] at hb
    exact Option.some.inj hb
  obtain ⟨_, b2⟩ := ransacTrace_best ext pts_prev pts_next (3841 / 1000 * sigma * sigma)
    (min (max max_iterations 1) 1000) rng (min (max max_iterations 1) 1000).toNat 0
    { inliers := List.replicate pts_prev.length 0, max_inliers := 0,
      niters := min (max max_iterations 1) 1000, rng := rng } 0 tr t1 rfl
    ⟨fun i hi => absurd hi (Nat.not_lt_zero i), Or.inl ⟨rfl, rfl⟩⟩
  rw [hst] at b2
  rcases b2.2 with ⟨h0, _⟩ | ⟨j, _, hsc, _⟩
  · exact h0
  · unfold roundScore at hsc
    cases hfit : sampleFit ext pts_prev pts_next (rng + 8 * j) with
    | none => rw [hfit] at hsc; cases hsc
    | some F_temp =>
      rw [hfit] at hsc
      simp only [Option.map_some', Option.some.injEq] at hsc
      rw [scoreInliers_of_nonpos ext F_temp _ pts_prev pts_next ht] at hsc
      simp only [Prod.mk.injEq] at hsc
      exact hsc.2.symm

/-- Past the first two gates, `addSecondFrame` does not return when the RANSAC
loop ends with fewer than 8 inliers: the refit of `runRANSAC` fails
`assert(N >= 8)`, where a count below `initMinInliers` was to give `FAILURE`. -/
theorem addSecondFrame_few_inliers (ext : Externals) (cfg : Config) (s : Initializer)
    (frame_ref frame_cur : Frame) (klt : List Point2f × List Point2f × List ℚ)
    (st : RansacState)
    (hf : s.frame_ref_ = some frame_ref)
    (hk : kltTrack ext frame_ref.img frame_cur.img s.pts_ref_ s.pts_cur_ = some klt)
    (h1 : ¬ klt.2.2.length < cfg.initMinTracked)
    (h2 : disparityGate klt.2.2 cfg.initMinDisparity = false)
    (hb : ransacBest ext klt.1 klt.2.1 cfg.initSigma cfg.initMaxRansacIters s.rng = some st)
    (h8 : st.max_inliers < 8) :
    addSecondFrame ext cfg s frame_cur = none := by
  unfold addSecondFrame
  simp only [hf, hk, if_neg h1, h2, Bool.false_eq_true, if_false]
  unfold geometryStage findFundamentalMat
  have hr : runRANSAC ext (afterKlt s frame_cur klt).pts_ref_ (afterKlt s frame_cur klt).pts_cur_
      cfg.initSigma cfg.initMaxRansacIters (afterKlt s frame_cur klt).rng = none :=
    runRANSAC_few_inliers ext klt.1 klt.2.1 cfg.initSigma cfg.initMaxRansacIters s.rng st hb h8
  rw [hr]
  split_ifs <;> rfl

/-- C8, where the code departs from it: a RANSAC inlier count below
`initMinInliers` does not give `FAILURE` when it is below 8. On the example frame
with `initSigma = 0` all 10 correspondences survive `kltTrack`, at least
`initMinTracked = 8`, and their mean disparity 1.4 is not below
`initMinDisparity = 0.5`, so the call enters RANSAC. The threshold
`3.841 sigma^2` is zero and no error is below it, so the loop ends with the count
0 and the initial mask, whatever `Rand`, `cv::eigen` and `cv::SVDecomp` return;
the count is below `initMinInliers = 8`, and the call is to return `FAILURE`. But
`runRANSAC` refits on the marked correspondences before it returns the count:
`run8point` is called with no point at all, `assert(N >= 8)` fails and
`addSecondFrame` does not return. -/
theorem C8_few_inliers_abort :
    exampleFirst.frame_ref_ = some exampleFrame ∧
    (∀ ext : Externals,
      kltTrack (exampleFlow ext) exampleFrame.img exampleFrame.img exampleFirst.pts_ref_
        exampleFirst.pts_cur_ = some exampleKlt) ∧
    ¬ exampleKlt.2.2.length < zeroSigmaConfig.initMinTracked ∧
    disparityGate exampleKlt.2.2 zeroSigmaConfig.initMinDisparity = false ∧
    (∀ ext : Externals, ∃ st,
      ransacBest (exampleFlow ext) exampleKlt.1 exampleKlt.2.1 zeroSigmaConfig.initSigma
        zeroSigmaConfig.initMaxRansacIters exampleFirst.rng = some st ∧
      st.max_inliers = 0 ∧ st.max_inliers < zeroSigmaConfig.initMinInliers) ∧
    (∀ ext : Externals,
      addSecondFrame (exampleFlow ext) zeroSigmaConfig exampleFirst exampleFrame = none) ∧
    addSecondFrame exampleExternals zeroSigmaConfig exampleFirst exampleFrame = none := by
  have hk : ∀ ext : Externals,
      kltTrack (exampleFlow ext) exampleFrame.img exampleFrame.img exampleFirst.pts_ref_
        exampleFirst.pts_cur_ = some exampleKlt := by
    intro ext
    rw [kltTrack_congr exampleExternals (exampleFlow ext) rfl rfl]
    decide!
  have h1 : ¬ exampleKlt.2.2.length < zeroSigmaConfig.initMinTracked := by decide
  have h2 : disparityGate exampleKlt.2.2 zeroSigmaConfig.initMinDisparity = false := by decide!
  have hb : ∀ ext : Externals, ∃ st,
      ransacBest (exampleFlow ext) exampleKlt.1 exampleKlt.2.1 zeroSigmaConfig.initSigma
        zeroSigmaConfig.initMaxRansacIters exampleFirst.rng = some st ∧
      st.max_inliers = 0 ∧ st.max_inliers < zeroSigmaConfig.initMinInliers := by
    intro ext
    obtain ⟨st, hst, _⟩ := ransacBest_spec (exampleFlow ext) exampleKlt.1 exampleKlt.2.1
      zeroSigmaConfig.initSigma zeroSigmaConfig.initMaxRansacIters exampleFirst.rng (by decide)
    have h0 := ransacBest_of_nonpos (exampleFlow ext) exampleKlt.1 exampleKlt.2.1
      zeroSigmaConfig.initSigma zeroSigmaConfig.initMaxRansacIters exampleFirst.rng st
      (by norm_num [zeroSigmaConfig]) hst
    exact ⟨st, hst, h0, by rw [h0]; decide⟩
  refine ⟨by decide!, hk, h1, h2, hb, ?_, by decide!⟩
  intro ext
  obtain ⟨st, hst, h0, _⟩ := hb ext
  exact addSecondFrame_few_inliers (exampleFlow ext) zeroSigmaConfig exampleFirst exampleFrame
    exampleFrame exampleKlt st (by decide!) (hk ext) h1 h2 hst (by rw [h0]; decide)

/-! ## The sampling loop of `runRANSAC` -/

theorem getLastD_of_ne_nil (l : List Nat) (d e : Nat) (h : l ≠ []) :
    l.getLastD d = l.getLastD e := by
  cases l with
  | nil => exact absurd rfl h
  | cons a t => rfl

/-- Taking the entry at `i` out of a list by moving the last entry into its place
and dropping the last position leaves the other entries. -/
theorem swap_pop_perm (l : List Nat) :
    ∀ i, i < l.length →
      List.Perm (l.getD i 0 :: (l.set i (l.getLastD 0)).dropLast) l := by
  induction l with
  | nil => intro i h; simp at h
  | cons a t ih =>
    intro i h
    cases t with
    | nil =>
      have : i = 0 := by simp at h; omega
      subst this
      simp [List.getLastD]
    | cons b t' =>
      cases i with
      | zero =>
        have hne : (b :: t') ≠ [] := by simp
        have hl : (a :: b :: t').getLastD 0 = (b :: t').getLast hne := by
          rw [List.getLastD_cons, List.getLast_eq_getLastD, List.getLastD_cons]
        simp only [List.getD_cons_zero, List.set_cons_zero, hl]
        rw [List.dropLast_cons_of_ne_nil hne]
        refine List.Perm.cons a ?_
        have := List.dropLast_append_getLast hne
        exact (List.perm_append_singleton _ _).symm.trans (List.Perm.of_eq this)
      | succ i' =>
        have hi : i' < (b :: t').length := by simpa using h
        have hne : (b :: t').set i' ((a :: b :: t').getLastD 0) ≠ [] := by
          intro e
          have := congrArg List.length e
          simp at this
        have hl : (a :: b :: t').getLastD 0 = (b :: t').getLastD 0 := by
          rw [List.getLastD_cons]
          exact getLastD_of_ne_nil _ _ _ (by simp)
        simp only [List.getD_cons_succ, List.set_cons_succ]
        rw [List.dropLast_cons_of_ne_nil hne, hl]
        exact (List.Perm.swap _ _ _).trans (List.Perm.cons a (ih i' hi))

theorem rand_in_range (ext : Externals) (k n : Nat) (hn : 0 < n) :
    (Rand ext k 0 ((n : Int) - 1)).toNat < n := by
  unfold Rand
  have h1 : (0 : Int) ≤ (ext.rand k : Int) % ((n : Int) - 1 - 0 + 1) :=
    Int.emod_nonneg _ (by omega)
  have h2 : (ext.rand k : Int) % ((n : Int) - 1 - 0 + 1) < (n : Int) - 1 - 0 + 1 :=
    Int.emod_lt_of_pos _ (by omega)
  omega

theorem drawStep_spec (ext : Externals) (st : List Nat × Nat × List Nat) (h : 0 < st.1.length) :
    List.Perm ((drawStep ext st).2.2 ++ (drawStep ext st).1) (st.2.2 ++ st.1) ∧
    (drawStep ext st).1.length + 1 = st.1.length ∧
    (drawStep ext st).2.2.length = st.2.2.length + 1 ∧
    (drawStep ext st).2.1 = st.2.1 + 1 := by
  have hr := rand_in_range ext st.2.1 st.1.length h
  unfold drawStep
  simp only
  refine ⟨?_, ?_, by simp, trivial⟩
  · rw [List.append_assoc]
    refine List.Perm.append_left _ ?_
    simp only [List.singleton_append]
    exact swap_pop_perm st.1 _ hr
  · simp only [List.length_dropLast, List.length_set]
    omega

theorem drawFold_spec (ext : Externals) (l : List Nat) :
    ∀ st : List Nat × Nat × List Nat, l.length ≤ st.1.length →
      List.Perm ((l.foldl (fun st _ => drawStep ext st) st).2.2 ++
        (l.foldl (fun st _ => drawStep ext st) st).1) (st.2.2 ++ st.1) ∧
      (l.foldl (fun st _ => drawStep ext st) st).1.length + l.length = st.1.length ∧
      (l.foldl (fun st _ => drawStep ext st) st).2.2.length = st.2.2.length + l.length ∧
      (l.foldl (fun st _ => drawStep ext st) st).2.1 = st.2.1 + l.length := by
  induction l with
  | nil => intro st _; simp
  | cons a t ih =>
    intro st h
    simp only [List.length_cons] at h
    obtain ⟨p1, p2, p3, p4⟩ := drawStep_spec ext st (by omega)
    obtain ⟨q1, q2, q3, q4⟩ := ih (drawStep ext st) (by omega)
    simp only [List.foldl_cons, List.length_cons]
    exact ⟨q1.trans p1, by omega, by omega, by omega⟩

/-- The sampling loop reads the two point vectors at the drawn indices. -/
theorem sampleFold_drawn (ext : Externals) (pts_prev pts_next : List Point2f) (l : List Nat) :
    ∀ (st : List Nat × Nat × List Nat),
      l.foldl (fun st _ => sampleStep ext pts_prev pts_next st)
        (st.1, st.2.1, st.2.2.map (fun i => pts_prev.getD i (0, 0)),
          st.2.2.map (fun i => pts_next.getD i (0, 0))) =
      ((l.foldl (fun st _ => drawStep ext st) st).1,
       (l.foldl (fun st _ => drawStep ext st) st).2.1,
       (l.foldl (fun st _ => drawStep ext st) st).2.2.map (fun i => pts_prev.getD i (0, 0)),
       (l.foldl (fun st _ => drawStep ext st) st).2.2.map (fun i => pts_next.getD i (0, 0))) := by
  induction l with
  | nil => intro st; rfl
  | cons a t ih =>
    intro st
    simp only [List.foldl_cons]
    rw [← ih (drawStep ext st)]
    congr 1
    simp [sampleStep, drawStep]

theorem sample8_drawn (ext : Externals) (pts_prev pts_next : List Point2f)
    (total_points : List Nat) (rng : Nat) :
    sample8 ext pts_prev pts_next total_points rng =
      ((drawnIndices ext total_points rng).1, (drawnIndices ext total_points rng).2.1,
       (drawnIndices ext total_points rng).2.2.map (fun i => pts_prev.getD i (0, 0)),
       (drawnIndices ext total_points rng).2.2.map (fun i => pts_next.getD i (0, 0))) := by
  unfold sample8 drawnIndices
  exact sampleFold_drawn ext pts_prev pts_next (List.range 8) (total_points, rng, [])

/-- C24: with at least eight correspondences, the eight indices drawn in one round
of the RANSAC loop are pairwise distinct and below `N`; together with the working
list left by the draws they are the master list `0, ..., N - 1` rearranged. The
sample `pts1`, `pts2` holds the correspondences at the drawn indices. Each round
draws from the whole master list again: it works on a copy. -/
theorem C24_sample_without_replacement (ext : Externals) (pts_prev pts_next : List Point2f)
    (rng : Nat) (h8 : 8 ≤ pts_prev.length) :
    (drawnIndices ext (List.range pts_prev.length) rng).2.2.length = 8 ∧
    (drawnIndices ext (List.range pts_prev.length) rng).2.2.Nodup ∧
    (∀ i ∈ (drawnIndices ext (List.range pts_prev.length) rng).2.2, i < pts_prev.length) ∧
    List.Perm ((drawnIndices ext (List.range pts_prev.length) rng).2.2 ++
      (drawnIndices ext (List.range pts_prev.length) rng).1) (List.range pts_prev.length) ∧
    (sample8 ext pts_prev pts_next (List.range pts_prev.length) rng).2.2.1 =
      (drawnIndices ext (List.range pts_prev.length) rng).2.2.map
        (fun i => pts_prev.getD i (0, 0)) ∧
    (sample8 ext pts_prev pts_next (List.range pts_prev.length) rng).2.2.2 =
      (drawnIndices ext (List.range pts_prev.length) rng).2.2.map
        (fun i => pts_next.getD i (0, 0)) ∧
    (∀ (threshold : ℚ) (max_iters : Int) (st : RansacState) (r : RansacState × Bool),
      ransacBody ext pts_prev pts_next threshold max_iters st = some r →
        r.1.rng = (drawnIndices ext (List.range pts_prev.length) st.rng).2.1) := by
  obtain ⟨p1, p2, p3, p4⟩ := drawFold_spec ext (List.range 8) (List.range pts_prev.length, rng, [])
    (by simpa using h8)
  simp only [List.nil_append, List.length_nil, List.length_range, zero_add] at p1 p3
  have hp : List.Perm ((drawnIndices ext (List.range pts_prev.length) rng).2.2 ++
      (drawnIndices ext (List.range pts_prev.length) rng).1) (List.range pts_prev.length) := p1
  have hnd := (List.Perm.nodup_iff hp).2 (List.nodup_range _)
  refine ⟨p3, (List.nodup_append.1 hnd).1, ?_, hp, ?_, ?_, ?_⟩
  · intro i hi
    have := (List.Perm.mem_iff hp).1 (List.mem_append_left _ hi)
    exact List.mem_range.1 this
  · rw [sample8_drawn]
  · rw [sample8_drawn]
  · intro threshold max_iters st r h
    rw [ransacBody_rng ext pts_prev pts_next threshold max_iters st r h, sample8_drawn]

theorem C24_witness :
    8 ≤ exampleKlt.1.length ∧
    (drawnIndices exampleExternals (List.range exampleKlt.1.length) 0).2.2.Nodup ∧
    (∀ i ∈ (drawnIndices exampleExternals (List.range exampleKlt.1.length) 0).2.2,
      i < exampleKlt.1.length) :=
  ⟨by decide,
   (C24_sample_without_replacement exampleExternals exampleKlt.1 exampleKlt.2.1 0
     (by decide)).2.1,
   (C24_sample_without_replacement exampleExternals exampleKlt.1 exampleKlt.2.1 0
     (by decide)).2.2.1⟩

/-! ## The erase flags and `setErase` -/

theorem flagsStep_refl (w : World) : FlagsStep w w :=
  fun _ => ⟨fun h => h, fun h => Or.inl h⟩

theorem flagsStep_trans (w1 w2 w3 : World) (h12 : FlagsStep w1 w2) (h23 : FlagsStep w2 w3) :
    FlagsStep w1 w3 := by
  intro p
  refine ⟨fun h => (h23 p).1 ((h12 p).1 h), fun h => ?_⟩
  rcases (h23 p).2 h with h' | h'
  · rcases (h12 p).2 h' with h'' | h''
    · exact Or.inl h''
    · exact Or.inr ((h23 p).1 h'')
  · exact Or.inr h'

/-- Replacing a keyframe by one with the same erase flags is a step. -/
theorem setKF_flagsStep (w : World) (a : Nat) (kf : KeyFrame)
    (h1 : kf.notErase = (w.kfs a).notErase) (h2 : kf.toBeErase = (w.kfs a).toBeErase) :
    FlagsStep w (w.setKF a kf) := by
  intro p
  simp only [World.setKF]
  by_cases hp : p = a
  · subst hp
    simp only [if_true, h1, h2]
    exact ⟨fun h => h, fun h => Or.inl h⟩
  · simp only [hp, if_false]
    exact ⟨fun h => h, fun h => Or.inl h⟩

theorem updateOrdered_flags (kf : KeyFrame) :
    kf.updateOrderedConnections.notErase = kf.notErase ∧
    kf.updateOrderedConnections.toBeErase = kf.toBeErase := ⟨rfl, rfl⟩

theorem addConnection_flags (kf : KeyFrame) (k : Nat) (weight : Int) :
    (kf.addConnection k weight).notErase = kf.notErase ∧
    (kf.addConnection k weight).toBeErase = kf.toBeErase := by
  unfold KeyFrame.addConnection
  split_ifs <;> exact ⟨rfl, rfl⟩

theorem removeConnection_flags (kf : KeyFrame) (k : Nat) :
    (kf.removeConnection k).notErase = kf.notErase ∧
    (kf.removeConnection k).toBeErase = kf.toBeErase := by
  unfold KeyFrame.removeConnection
  split_ifs <;> exact ⟨rfl, rfl⟩

theorem getWight_flags (kf : KeyFrame) (k : Nat) :
    (kf.getWight k).2.notErase = kf.notErase ∧ (kf.getWight k).2.toBeErase = kf.toBeErase := by
  unfold KeyFrame.getWight
  split <;> exact ⟨rfl, rfl⟩

theorem removeFromNeighbours_flagsStep (a : Nat) (l : List (Nat × Int)) :
    ∀ w : World, FlagsStep w (removeFromNeighbours a w l) := by
  induction l with
  | nil => intro w; exact flagsStep_refl w
  | cons c t ih =>
    intro w
    simp only [removeFromNeighbours, List.foldl_cons]
    exact flagsStep_trans _ _ _
      (setKF_flagsStep w c.1 _ (removeConnection_flags _ _).1 (removeConnection_flags _ _).2)
      (ih _)

theorem removeObservations_flagsStep (a : Nat) (l : List (Nat × Feature)) (w : World) :
    FlagsStep w (removeObservations a w l) := by
  intro p
  rw [removeObservations_kfs]
  exact ⟨fun h => h, fun h => Or.inl h⟩

theorem setBad_flagsStep (w : World) (a : Nat) : FlagsStep w (setBad w a) := by
  unfold setBad
  by_cases h1 : (w.kfs a).id_ = 0
  · rw [if_pos h1]; exact flagsStep_refl w
  · rw [if_neg h1]
    by_cases h2 : (w.kfs a).notErase = true
    · rw [if_pos h2]
      intro p
      simp only [World.setKF]
      by_cases hp : p = a
      · subst hp
        simp only [if_true]
        exact ⟨fun h => h, fun _ => Or.inr h2⟩
      · simp only [hp, if_false]
        exact ⟨fun h => h, fun h => Or.inl h⟩
    · rw [if_neg h2]
      simp only
      refine flagsStep_trans _ _ _ ?_ (setKF_flagsStep _ a _ rfl rfl)
      refine flagsStep_trans _ _ _ ?_ (removeFromNeighbours_flagsStep a _ _)
      refine flagsStep_trans _ _ _ ?_ (setKF_flagsStep _ a _ rfl rfl)
      exact removeObservations_flagsStep a _ w

theorem setErase_flagsStep (w : World) (a : Nat) : FlagsStep w (setErase w a) := by
  unfold setErase
  split_ifs
  · exact setBad_flagsStep w a
  · exact flagsStep_refl w

theorem tallyLoop_flagsStep (w : World) (a : Nat) : FlagsStep w (tallyLoop w a).1 := by
  unfold tallyLoop
  suffices H : ∀ (fts : List Feature) (st : World × List (Nat × Int)),
      FlagsStep st.1 (fts.foldl (tallyStep a) st).1 from H _ (w, [])
  intro fts
  induction fts with
  | nil => intro st; exact flagsStep_refl _
  | cons ft t ih =>
    intro st
    simp only [List.foldl_cons]
    refine flagsStep_trans _ _ _ ?_ (ih _)
    unfold tallyStep
    by_cases hbad : (st.1.mpts ft.mpt_).isBad = true
    · simp only [hbad, if_true]
      exact setKF_flagsStep _ a _ rfl rfl
    · simp only [hbad, if_false]
      exact flagsStep_refl _

theorem partition_flagsStep (a : Nat) (thr : Int) (l : List (Nat × Int)) :
    ∀ st : World × Option Nat × Int × List (Int × Nat),
      FlagsStep st.1 (l.foldl (partitionStep a thr) st).1 := by
  induction l with
  | nil => intro st; exact flagsStep_refl _
  | cons c t ih =>
    intro st
    simp only [List.foldl_cons]
    refine flagsStep_trans _ _ _ ?_ (ih _)
    unfold partitionStep
    split
    · exact flagsStep_refl _
    · exact setKF_flagsStep _ c.1 _ (addConnection_flags _ _ _).1 (addConnection_flags _ _ _).2

theorem updateConnections_flagsStep (thr : Int) (w : World) (a : Nat) :
    FlagsStep w (updateConnections thr w a) := by
  unfold updateConnections
  by_cases h1 : isBad w a = true
  · rw [if_pos h1]; exact flagsStep_refl w
  · rw [if_neg h1]
    simp only
    by_cases h2 : (tallyLoop w a).2.isEmpty = true
    · rw [if_pos h2]
      exact flagsStep_trans _ _ _ (tallyLoop_flagsStep w a) (setBad_flagsStep _ a)
    · rw [if_neg h2]
      refine flagsStep_trans _ _ _ (tallyLoop_flagsStep w a) ?_
      refine flagsStep_trans _ _ _
        (partition_flagsStep a thr (tallyLoop w a).2 ((tallyLoop w a).1, none, 0, [])) ?_
      refine flagsStep_trans _ _ _ ?_ (setKF_flagsStep _ a _ rfl rfl)
      split
      · split
        · exact setKF_flagsStep _ _ _ (addConnection_flags _ _ _).1 (addConnection_flags _ _ _).2
        · exact flagsStep_refl _
      · exact flagsStep_refl _

theorem graphOp_flagsStep (thr : Int) (w : World) (op : GraphOp) :
    FlagsStep w (op.run thr w) := by
  cases op with
  | addConnection a k weight =>
    exact setKF_flagsStep w a _ (addConnection_flags _ _ _).1 (addConnection_flags _ _ _).2
  | removeConnection a k =>
    exact setKF_flagsStep w a _ (removeConnection_flags _ _).1 (removeConnection_flags _ _).2
  | updateConnections a => exact updateConnections_flagsStep thr w a
  | setBad a => exact setBad_flagsStep w a
  | getWight a k => exact setKF_flagsStep w a _ (getWight_flags _ _).1 (getWight_flags _ _).2

/-- A step that sets `notErase` on one keyframe and leaves `toBeErase`. -/
theorem setKF_flagsStep_protect (w : World) (a : Nat) (kf : KeyFrame)
    (h1 : kf.notErase = true) (h2 : kf.toBeErase = (w.kfs a).toBeErase) :
    FlagsStep w (w.setKF a kf) := by
  intro p
  simp only [World.setKF]
  by_cases hp : p = a
  · subst hp
    simp only [if_true, h1, h2]
    exact ⟨fun _ => trivial, fun h => Or.inl h⟩
  · simp only [hp, if_false]
    exact ⟨fun h => h, fun h => Or.inl h⟩

theorem keyFrameOp_flagsStep (thr : Int) (w : World) (op : KeyFrameOp) :
    FlagsStep w (op.run thr w) := by
  cases op with
  | graph op => exact graphOp_flagsStep thr w op
  | updateOrderedConnections a => exact setKF_flagsStep w a _ rfl rfl
  | addLoopEdge a pKF => exact setKF_flagsStep_protect w a _ rfl rfl
  | setNotErase a => exact setKF_flagsStep_protect w a _ rfl rfl
  | setErase a => exact setErase_flagsStep w a

theorem runAll_flagsStep (thr : Int) (ops : List KeyFrameOp) :
    ∀ w : World, FlagsStep w (runAll thr w ops) := by
  induction ops with
  | nil => intro w; exact flagsStep_refl w
  | cons op t ih =>
    intro w
    simp only [runAll, List.foldl_cons]
    exact flagsStep_trans _ _ _ (keyFrameOp_flagsStep thr w op) (ih _)

theorem setKF_self (w : World) (a : Nat) (kf : KeyFrame) (h : kf = w.kfs a) :
    w.setKF a kf = w := by
  cases w with
  | mk kfs mpts =>
    simp only [World.setKF, World.mk.injEq, and_true]
    funext q
    by_cases hq : q = a
    · subst hq; simp only [if_true]; exact h
    · simp only [hq, if_false]

/-- On a heap where `toBeErase` implies `notErase`, `setErase` changes nothing. -/
theorem setErase_noop (w : World) (a : Nat)
    (h : (w.kfs a).toBeErase = true → (w.kfs a).notErase = true) : setErase w a = w := by
  unfold setErase
  by_cases ht : (w.kfs a).toBeErase = true
  · rw [if_pos ht]
    unfold setBad
    by_cases h1 : (w.kfs a).id_ = 0
    · rw [if_pos h1]
    · rw [if_neg h1, if_pos (h ht)]
      apply setKF_self
      cases hk : w.kfs a with
      | mk id_ isBad_ notErase toBeErase c o p l m sd fb =>
        rw [hk] at ht
        simp only at ht
        simp only [ht]
  · rw [if_neg ht]

/-- C26: in every heap reached from fresh keyframes by the public operations,
`toBeErase` implies `notErase` on every keyframe; no further sequence of
operations clears `notErase`; and `setErase` on any keyframe leaves the whole
heap as it is, so the keyframe is bad after it only if it was bad before. -/
theorem C26_setErase_is_a_noop (thr : Int) (fts : Nat → List (Nat × Feature))
    (mpts : Nat → MapPoint) (ops : List KeyFrameOp) (a : Nat) :
    (∀ p, ((runAll thr (freshWorld fts mpts) ops).kfs p).toBeErase = true →
      ((runAll thr (freshWorld fts mpts) ops).kfs p).notErase = true) ∧
    (∀ (more : List KeyFrameOp) (p : Nat),
      ((runAll thr (freshWorld fts mpts) ops).kfs p).notErase = true →
      ((runAll thr (runAll thr (freshWorld fts mpts) ops) more).kfs p).notErase = true) ∧
    setErase (runAll thr (freshWorld fts mpts) ops) a = runAll thr (freshWorld fts mpts) ops ∧
    isBad (setErase (runAll thr (freshWorld fts mpts) ops) a) a =
      isBad (runAll thr (freshWorld fts mpts) ops) a ∧
    KeyFrameOp.run thr (runAll thr (freshWorld fts mpts) ops) (KeyFrameOp.setErase a) =
      runAll thr (freshWorld fts mpts) ops := by
  have hinv : ∀ p, ((runAll thr (freshWorld fts mpts) ops).kfs p).toBeErase = true →
      ((runAll thr (freshWorld fts mpts) ops).kfs p).notErase = true := by
    intro p hp
    rcases ((runAll_flagsStep thr ops (freshWorld fts mpts)) p).2 hp with h | h
    · simp [freshWorld, KeyFrame.fresh] at h
    · exact h
  have hno := setErase_noop _ a (hinv a)
  refine ⟨hinv, ?_, hno, by rw [hno], hno⟩
  intro more p hp
  exact ((runAll_flagsStep thr more _) p).1 hp

/-! ## The rotations of `decomposeEssentialMat` -/

theorem eq_of_toMatrix3 (A B : Mat) (hA : Shape3 A) (hB : Shape3 B)
    (h : toMatrix3 A = toMatrix3 B) : A = B := by
  obtain ⟨a, b, c, d, e, f, g, h', i, rfl⟩ := hA
  obtain ⟨a', b', c', d', e', f', g', h'', i', rfl⟩ := hB
  have k := fun x y => congrFun (congrFun h x) y
  have k00 : a = a' := k 0 0
  have k01 : b = b' := k 0 1
  have k02 : c = c' := k 0 2
  have k10 : d = d' := k 1 0
  have k11 : e = e' := k 1 1
  have k12 : f = f' := k 1 2
  have k20 : g = g' := k 2 0
  have k21 : h' = h'' := k 2 1
  have k22 : i = i' := k 2 2
  rw [k00, k01, k02, k10, k11, k12, k20, k21, k22]

theorem mul_toMatrix3 (A B : Mat) (hA : Shape3 A) (hB : Shape3 B) :
    Shape3 (A.mul B) ∧ toMatrix3 (A.mul B) = toMatrix3 A * toMatrix3 B := by
  obtain ⟨a, b, c, d, e, f, g, h, i, rfl⟩ := hA
  obtain ⟨a', b', c', d', e', f', g', h', i', rfl⟩ := hB
  have hm : Mat.mul [[a, b, c], [d, e, f], [g, h, i]] [[a', b', c'], [d', e', f'], [g', h', i']] =
      [[a * a' + (b * d' + (c * g' + 0)), a * b' + (b * e' + (c * h' + 0)),
        a * c' + (b * f' + (c * i' + 0))],
       [d * a' + (e * d' + (f * g' + 0)), d * b' + (e * e' + (f * h' + 0)),
        d * c' + (e * f' + (f * i' + 0))],
       [g * a' + (h * d' + (i * g' + 0)), g * b' + (h * e' + (i * h' + 0)),
        g * c' + (h * f' + (i * i' + 0))]] := by
    simp [Mat.mul, Mat.cols, Mat.row, Mat.col, dot, vecAt, List.range, List.range.loop]
  rw [hm]
  refine ⟨⟨_, _, _, _, _, _, _, _, _, rfl⟩, ?_⟩
  ext x y
  rw [Matrix.mul_apply, Fin.sum_univ_three]
  fin_cases x <;> fin_cases y <;>
    simp [toMatrix3, Mat.entry, Mat.row, vecAt] <;> ring

theorem t_toMatrix3 (A : Mat) (hA : Shape3 A) :
    Shape3 A.t ∧ toMatrix3 A.t = (toMatrix3 A).transpose := by
  obtain ⟨a, b, c, d, e, f, g, h, i, rfl⟩ := hA
  have hm : Mat.t [[a, b, c], [d, e, f], [g, h, i]] = [[a, d, g], [b, e, h], [c, f, i]] := by
    simp [Mat.t, Mat.cols, Mat.row, Mat.col, vecAt, List.range, List.range.loop]
  rw [hm]
  refine ⟨⟨_, _, _, _, _, _, _, _, _, rfl⟩, ?_⟩
  ext x y
  fin_cases x <;> fin_cases y <;> rfl

theorem scale_toMatrix3 (c : ℚ) (A : Mat) (hA : Shape3 A) :
    Shape3 (Mat.scale c A) ∧ toMatrix3 (Mat.scale c A) = c • toMatrix3 A := by
  obtain ⟨a, b, c', d, e, f, g, h, i, rfl⟩ := hA
  have hm : Mat.scale c [[a, b, c'], [d, e, f], [g, h, i]] =
      [[c * a, c * b, c * c'], [c * d, c * e, c * f], [c * g, c * h, c * i]] := by
    simp [Mat.scale]
  rw [hm]
  refine ⟨⟨_, _, _, _, _, _, _, _, _, rfl⟩, ?_⟩
  ext x y
  fin_cases x <;> fin_cases y <;> rfl

theorem determinant_toMatrix3 (A : Mat) (hA : Shape3 A) :
    determinant A = (toMatrix3 A).det := by
  obtain ⟨a, b, c, d, e, f, g, h, i, rfl⟩ := hA
  rw [Matrix.det_fin_three]
  simp [determinant, toMatrix3, Mat.entry, Mat.row, vecAt]
  ring

theorem toMatrix3_identity3 : toMatrix3 identity3 = 1 := by
  ext x y
  fin_cases x <;> fin_cases y <;> rfl

theorem shape3_identity3 : Shape3 identity3 := ⟨_, _, _, _, _, _, _, _, _, rfl⟩

/-- The orthogonality of a `3 x 3` list matrix in terms of Mathlib matrices. -/
theorem isOrthogonal3_iff (A : Mat) (hA : Shape3 A) :
    IsOrthogonal3 A ↔ toMatrix3 A * (toMatrix3 A).transpose = 1 := by
  have ht := t_toMatrix3 A hA
  have hm := mul_toMatrix3 A A.t hA ht.1
  unfold IsOrthogonal3
  constructor
  · rintro ⟨_, h⟩
    rw [← ht.2, ← hm.2, h, toMatrix3_identity3]
  · intro h
    refine ⟨hA, eq_of_toMatrix3 _ _ hm.1 shape3_identity3 ?_⟩
    rw [hm.2, ht.2, h, toMatrix3_identity3]

theorem isRotation3_mul (A B : Mat) (hA : IsRotation3 A) (hB : IsRotation3 B) :
    IsRotation3 (A.mul B) := by
  obtain ⟨⟨sA, oA⟩, dA⟩ := hA
  obtain ⟨⟨sB, oB⟩, dB⟩ := hB
  have hm := mul_toMatrix3 A B sA sB
  have oA' := (isOrthogonal3_iff A sA).1 ⟨sA, oA⟩
  have oB' := (isOrthogonal3_iff B sB).1 ⟨sB, oB⟩
  refine ⟨(isOrthogonal3_iff _ hm.1).2 ?_, ?_⟩
  · rw [hm.2, Matrix.transpose_mul, Matrix.mul_assoc, ← Matrix.mul_assoc (toMatrix3 B), oB',
      Matrix.one_mul, oA']
  · rw [determinant_toMatrix3 _ hm.1, hm.2, Matrix.det_mul, ← determinant_toMatrix3 A sA,
      ← determinant_toMatrix3 B sB, dA, dB, mul_one]

/-- The sign correction of `decomposeEssentialMat` turns an orthogonal matrix into
a proper rotation. -/
theorem sign_correction_rotation (A : Mat) (hA : IsOrthogonal3 A) :
    IsRotation3 (if determinant A < 0 then Mat.scale (-1) A else A) := by
  have sA := hA.1
  have oA := (isOrthogonal3_iff A sA).1 hA
  have hd : (toMatrix3 A).det * (toMatrix3 A).det = 1 := by
    have := congrArg Matrix.det oA
    rwa [Matrix.det_mul, Matrix.det_transpose, Matrix.det_one] at this
  have hd' : determinant A * determinant A = 1 := by rw [determinant_toMatrix3 A sA]; exact hd
  by_cases hneg : determinant A < 0
  · rw [if_pos hneg]
    have hs := scale_toMatrix3 (-1) A sA
    refine ⟨(isOrthogonal3_iff _ hs.1).2 ?_, ?_⟩
    · rw [hs.2]
      simp only [neg_smul, one_smul, Matrix.transpose_neg, Matrix.neg_mul, Matrix.mul_neg, neg_neg]
      exact oA
    · rw [determinant_toMatrix3 _ hs.1, hs.2, Matrix.det_smul, ← determinant_toMatrix3 A sA]
      simp only [Fintype.card_fin]
      nlinarith
  · rw [if_neg hneg]
    refine ⟨hA, ?_⟩
    nlinarith

theorem W_rotation : IsRotation3 [[0, 1, 0], [-1, 0, 0], [0, 0, 1]] ∧
    IsRotation3 (Mat.t [[0, 1, 0], [-1, 0, 0], [0, 0, 1]]) := by
  refine ⟨⟨⟨⟨_, _, _, _, _, _, _, _, _, rfl⟩, by decide!⟩, by decide!⟩,
    ⟨⟨⟨0, -1, 0, 1, 0, 0, 0, 0, 1, by decide!⟩, by decide!⟩, by decide!⟩⟩

/-- The third column of an orthogonal matrix has unit length. -/
theorem orthogonal_col_unit (A : Mat) (hA : IsOrthogonal3 A) : dot (A.col 2) (A.col 2) = 1 := by
  have sA := hA.1
  have oA := (isOrthogonal3_iff A sA).1 hA
  have oA' : (toMatrix3 A).transpose * toMatrix3 A = 1 := (Matrix.mul_eq_one_comm).1 oA
  obtain ⟨a, b, c, d, e, f, g, h, i, rfl⟩ := sA
  have k := congrFun (congrFun oA' 2) 2
  rw [Matrix.mul_apply, Fin.sum_univ_three] at k
  simp [toMatrix3, Mat.entry, Mat.row, vecAt] at k
  simp [Mat.col, dot, vecAt]
  linarith

/-- C25: when the factors `U` and `Vt` that the singular value decomposition
returns for `E` are `3 x 3` orthogonal matrices, the matrices `R1 = U W Vt` and
`R2 = U W^T Vt` of `decomposeEssentialMat`, built from the sign-corrected
factors, are proper rotations: orthogonal with determinant `+1`. The reported
`t` is the third column of the sign-corrected `U` divided by its norm; that
column has the squared length 1, so with `sqrt(1) = 1` the vector `t` is the
column itself and has unit length. -/
theorem C25_decomposeEssentialMat_rotations (ext : Externals) (E : Mat)
    (hU : IsOrthogonal3 (ext.svd E).2.1) (hV : IsOrthogonal3 (ext.svd E).2.2) :
    IsRotation3 (decomposeEssentialMat ext E).1 ∧
    IsRotation3 (decomposeEssentialMat ext E).2.1 ∧
    ∃ U Vt : Mat,
      (U = (ext.svd E).2.1 ∨ U = Mat.scale (-1) (ext.svd E).2.1) ∧
      (Vt = (ext.svd E).2.2 ∨ Vt = Mat.scale (-1) (ext.svd E).2.2) ∧
      IsRotation3 U ∧ IsRotation3 Vt ∧
      (decomposeEssentialMat ext E).1 = (U.mul [[0, 1, 0], [-1, 0, 0], [0, 0, 1]]).mul Vt ∧
      (decomposeEssentialMat ext E).2.1 =
        (U.mul (Mat.t [[0, 1, 0], [-1, 0, 0], [0, 0, 1]])).mul Vt ∧
      (decomposeEssentialMat ext E).2.2 =
        (U.col 2).map (fun x => x / ext.sqrt (dot (U.col 2) (U.col 2))) ∧
      dot (U.col 2) (U.col 2) = 1 ∧
      (ext.sqrt 1 = 1 →
        (decomposeEssentialMat ext E).2.2 = U.col 2 ∧
        dot (decomposeEssentialMat ext E).2.2 (decomposeEssentialMat ext E).2.2 = 1) := by
  have rU := sign_correction_rotation _ hU
  have rV := sign_correction_rotation _ hV
  have r1 := isRotation3_mul _ _ (isRotation3_mul _ _ rU W_rotation.1) rV
  have r2 := isRotation3_mul _ _ (isRotation3_mul _ _ rU W_rotation.2) rV
  have hcol := orthogonal_col_unit _ rU.1
  refine ⟨r1, r2, _, _, ?_, ?_, rU, rV, rfl, rfl, rfl, hcol, ?_⟩
  · by_cases h : determinant (ext.svd E).2.1 < 0
    · right; rw [if_pos h]
    · left; rw [if_neg h]
  · by_cases h : determinant (ext.svd E).2.2 < 0
    · right; rw [if_pos h]
    · left; rw [if_neg h]
  · intro hs
    have ht : (decomposeEssentialMat ext E).2.2 =
        (if determinant (ext.svd E).2.1 < 0 then Mat.scale (-1) (ext.svd E).2.1
          else (ext.svd E).2.1).col 2 := by
      unfold decomposeEssentialMat
      simp only
      rw [hcol, hs]
      simp
    rw [ht]
    exact ⟨rfl, hcol⟩

theorem C25_witness :
    IsRotation3 (decomposeEssentialMat exampleExternals [[0, 0, 0], [0, 0, -3 / 4], [0, 3 / 4, 0]]).1 ∧
    IsRotation3
      (decomposeEssentialMat exampleExternals [[0, 0, 0], [0, 0, -3 / 4], [0, 3 / 4, 0]]).2.1 :=
  ⟨(C25_decomposeEssentialMat_rotations exampleExternals [[0, 0, 0], [0, 0, -3 / 4], [0, 3 / 4, 0]]
      ⟨⟨_, _, _, _, _, _, _, _, _, rfl⟩, by decide!⟩
      ⟨⟨_, _, _, _, _, _, _, _, _, rfl⟩, by decide!⟩).1,
   (C25_decomposeEssentialMat_rotations exampleExternals [[0, 0, 0], [0, 0, -3 / 4], [0, 3 / 4, 0]]
      ⟨⟨_, _, _, _, _, _, _, _, _, rfl⟩, by decide!⟩
      ⟨⟨_, _, _, _, _, _, _, _, _, rfl⟩, by decide!⟩).2.1⟩

/-! ## A run of `runRANSAC` whose count differs from that of the refitted matrix -/

theorem list9 (x : List ℚ) (h : x.length = 9) :
    ∃ x0 x1 x2 x3 x4 x5 x6 x7 x8 : ℚ, x = [x0, x1, x2, x3, x4, x5, x6, x7, x8] := by
  rcases x with _ | ⟨x0, _ | ⟨x1, _ | ⟨x2, _ | ⟨x3, _ | ⟨x4, _ | ⟨x5, _ | ⟨x6, _ | ⟨x7, _ |
    ⟨x8, _ | ⟨x9, t⟩⟩⟩⟩⟩⟩⟩⟩⟩⟩ <;> simp at h
  exact ⟨x0, x1, x2, x3, x4, x5, x6, x7, x8, rfl⟩

theorem sos8_nonneg (w0 w1 w2 w3 w4 w5 w6 w7 f0 f1 f2 f3 f4 f5 f6 f7 : ℚ)
    (h0 : 0 < w0) (h1 : 0 < w1) (h2 : 0 < w2) (h3 : 0 < w3) (h4 : 0 < w4) (h5 : 0 < w5)
    (h6 : 0 < w6) (h7 : 0 < w7) :
    0 ≤ w0 * f0 ^ 2 + w1 * f1 ^ 2 + w2 * f2 ^ 2 + w3 * f3 ^ 2 + w4 * f4 ^ 2 + w5 * f5 ^ 2 +
      w6 * f6 ^ 2 + w7 * f7 ^ 2 := by
  positivity

theorem sos8_zero (w0 w1 w2 w3 w4 w5 w6 w7 f0 f1 f2 f3 f4 f5 f6 f7 : ℚ)
    (h0 : 0 < w0) (h1 : 0 < w1) (h2 : 0 < w2) (h3 : 0 < w3) (h4 : 0 < w4) (h5 : 0 < w5)
    (h6 : 0 < w6) (h7 : 0 < w7)
    (h : w0 * f0 ^ 2 + w1 * f1 ^ 2 + w2 * f2 ^ 2 + w3 * f3 ^ 2 + w4 * f4 ^ 2 + w5 * f5 ^ 2 +
      w6 * f6 ^ 2 + w7 * f7 ^ 2 = 0) :
    f0 = 0 ∧ f1 = 0 ∧ f2 = 0 ∧ f3 = 0 ∧ f4 = 0 ∧ f5 = 0 ∧ f6 = 0 ∧ f7 = 0 := by
  have p0 := mul_nonneg h0.le (sq_nonneg f0)
  have p1 := mul_nonneg h1.le (sq_nonneg f1)
  have p2 := mul_nonneg h2.le (sq_nonneg f2)
  have p3 := mul_nonneg h3.le (sq_nonneg f3)
  have p4 := mul_nonneg h4.le (sq_nonneg f4)
  have p5 := mul_nonneg h5.le (sq_nonneg f5)
  have p6 := mul_nonneg h6.le (sq_nonneg f6)
  have p7 := mul_nonneg h7.le (sq_nonneg f7)
  have key : ∀ (w f : ℚ), 0 < w → w * f ^ 2 = 0 → f = 0 := by
    intro w f hw hf
    rcases mul_eq_zero.1 hf with h | h
    · exact absurd h hw.ne'
    · exact (pow_eq_zero_iff two_ne_zero).1 h
  exact ⟨key _ _ h0 (by linarith), key _ _ h1 (by linarith), key _ _ h2 (by linarith),
    key _ _ h3 (by linarith), key _ _ h4 (by linarith), key _ _ h5 (by linarith),
    key _ _ h6 (by linarith), key _ _ h7 (by linarith)⟩

/-- The sample of the noisy scene: the vector that stands for `v2 - v1 = 0` spans the
null space of the matrix passed to `cv::eigen`, whose other eigenvalues are
positive. -/
theorem noisySample_eigen :
    IsLeastEigenvector (eigenInput (noisyPrev.take 8) (noisyNext.take 8)) (0)
      [0, 0, 0, 0, 0, 1, 0, -1, 0] := by
  have hM : eigenInput (noisyPrev.take 8) (noisyNext.take 8) =
    [[322954024 / 26532801, -961896 / 554591, -209200 / 87567, -94205384 / 49423845, 36859928 / 3099185, 14448 / 32623, -1233232 / 520251, 14448 / 32623, 15400 / 1717],
    [-961896 / 554591, 57011912 / 4694805, 77008 / 247095, 36859928 / 3099185, -55674248 / 43726125, 25872 / 153425, 14448 / 32623, 25872 / 153425, -6104 / 4845],
    [-209200 / 87567, 77008 / 247095, 23416 / 2601, 14448 / 32623, 25872 / 153425, -6104 / 4845, 15400 / 1717, -6104 / 4845, 0],
    [-94205384 / 49423845, 36859928 / 3099185, 14448 / 32623, 56664376 / 4845475, -23860392 / 17318975, 33264 / 182305, 560912 / 969095, 33264 / 182305, -2616 / 1919],
    [36859928 / 3099185, -55674248 / 43726125, 25872 / 153425, -23860392 / 17318975, 1124036072 / 81450625, -126672 / 45125, 33264 / 182305, -126672 / 45125, 16792 / 1805],
    [14448 / 32623, 25872 / 153425, -6104 / 4845, 33264 / 182305, -126672 / 45125, 16792 / 1805, -2616 / 1919, 16792 / 1805, 0],
    [-1233232 / 520251, 14448 / 32623, 15400 / 1717, 560912 / 969095, 33264 / 182305, -2616 / 1919, 91576 / 10201, -2616 / 1919, 0],
    [14448 / 32623, 25872 / 153425, -6104 / 4845, 33264 / 182305, -126672 / 45125, 16792 / 1805, -2616 / 1919, 16792 / 1805, 0],
    [15400 / 1717, -6104 / 4845, 0, -2616 / 1919, 16792 / 1805, 0, 0, 0, 8]] := by
    decide!
  refine ⟨rfl, by decide, ?_, ?_⟩
  · rw [hM]; decide!
  · intro x hx
    obtain ⟨x0, x1, x2, x3, x4, x5, x6, x7, x8, rfl⟩ := list9 x hx
    rw [hM]
    obtain ⟨f0, hf0⟩ : ∃ f : ℚ, f = (8509 / 5151) * x0 + (469 / 255) * x1 + (-67 / 51) * x2 + (889 / 505) * x3 + (49 / 25) * x4 + (-7 / 5) * x5 + (-127 / 101) * x6 + (-7 / 5) * x7 + x8 := ⟨_, rfl⟩
    obtain ⟨f1, hf1⟩ : ∃ f : ℚ, f = (8509 / 5151) * x0 + (-7169 / 4845) * x1 + (-67 / 51) * x2 + (-13589 / 9595) * x3 + (11449 / 9025) * x4 + (107 / 95) * x5 + (-127 / 101) * x6 + (107 / 95) * x7 + x8 := ⟨_, rfl⟩
    obtain ⟨f2, hf2⟩ : ∃ f : ℚ, f = (5141 / 5151) * x0 + (-371 / 255) * x1 + (53 / 51) * x2 + (-679 / 505) * x3 + (49 / 25) * x4 + (-7 / 5) * x5 + (97 / 101) * x6 + (-7 / 5) * x7 + x8 := ⟨_, rfl⟩
    obtain ⟨f3, hf3⟩ : ∃ f : ℚ, f = (5141 / 5151) * x0 + (5671 / 4845) * x1 + (53 / 51) * x2 + (10379 / 9595) * x3 + (11449 / 9025) * x4 + (107 / 95) * x5 + (97 / 101) * x6 + (107 / 95) * x7 + x8 := ⟨_, rfl⟩
    obtain ⟨f4, hf4⟩ : ∃ f : ℚ, f = (2835 / 1717) * x0 + (-1743 / 1615) * x1 + (-21 / 17) * x2 + (-2241 / 1919) * x3 + (6889 / 9025) * x4 + (83 / 95) * x5 + (-135 / 101) * x6 + (83 / 95) * x7 + x8 := ⟨_, rfl⟩
    obtain ⟨f5, hf5⟩ : ∃ f : ℚ, f = (1715 / 1717) * x0 + (-5341 / 4845) * x1 + (49 / 51) * x2 + (-2289 / 1919) * x3 + (11881 / 9025) * x4 + (-109 / 95) * x5 + (105 / 101) * x6 + (-109 / 95) * x7 + x8 := ⟨_, rfl⟩
    obtain ⟨f6, hf6⟩ : ∃ f : ℚ, f = (1715 / 1717) * x0 + (4067 / 4845) * x1 + (49 / 51) * x2 + (1743 / 1919) * x3 + (6889 / 9025) * x4 + (83 / 95) * x5 + (105 / 101) * x6 + (83 / 95) * x7 + x8 := ⟨_, rfl⟩
    obtain ⟨f7, hf7⟩ : ∃ f : ℚ, f = (35 / 1717) * x0 + (7 / 969) * x1 + (-7 / 51) * x2 + (15 / 1919) * x3 + (1 / 361) * x4 + (-1 / 19) * x5 + (-15 / 101) * x6 + (-1 / 19) * x7 + x8 := ⟨_, rfl⟩
    have key : dot [x0, x1, x2, x3, x4, x5, x6, x7, x8] (Mat.mulVec
        [[322954024 / 26532801, -961896 / 554591, -209200 / 87567, -94205384 / 49423845, 36859928 / 3099185, 14448 / 32623, -1233232 / 520251, 14448 / 32623, 15400 / 1717],
        [-961896 / 554591, 57011912 / 4694805, 77008 / 247095, 36859928 / 3099185, -55674248 / 43726125, 25872 / 153425, 14448 / 32623, 25872 / 153425, -6104 / 4845],
        [-209200 / 87567, 77008 / 247095, 23416 / 2601, 14448 / 32623, 25872 / 153425, -6104 / 4845, 15400 / 1717, -6104 / 4845, 0],
        [-94205384 / 49423845, 36859928 / 3099185, 14448 / 32623, 56664376 / 4845475, -23860392 / 17318975, 33264 / 182305, 560912 / 969095, 33264 / 182305, -2616 / 1919],
        [36859928 / 3099185, -55674248 / 43726125, 25872 / 153425, -23860392 / 17318975, 1124036072 / 81450625, -126672 / 45125, 33264 / 182305, -126672 / 45125, 16792 / 1805],
        [14448 / 32623, 25872 / 153425, -6104 / 4845, 33264 / 182305, -126672 / 45125, 16792 / 1805, -2616 / 1919, 16792 / 1805, 0],
        [-1233232 / 520251, 14448 / 32623, 15400 / 1717, 560912 / 969095, 33264 / 182305, -2616 / 1919, 91576 / 10201, -2616 / 1919, 0],
        [14448 / 32623, 25872 / 153425, -6104 / 4845, 33264 / 182305, -126672 / 45125, 16792 / 1805, -2616 / 1919, 16792 / 1805, 0],
        [15400 / 1717, -6104 / 4845, 0, -2616 / 1919, 16792 / 1805, 0, 0, 0, 8]]
        [x0, x1, x2, x3, x4, x5, x6, x7, x8]) -
        0 * dot [x0, x1, x2, x3, x4, x5, x6, x7, x8] [x0, x1, x2, x3, x4, x5, x6, x7, x8] =
        1 * f0 ^ 2 + 1 * f1 ^ 2 + 1 * f2 ^ 2 + 1 * f3 ^ 2 + 1 * f4 ^ 2 + 1 * f5 ^ 2 + 1 * f6 ^ 2 + 1 * f7 ^ 2 := by
      simp only [Mat.mulVec, dot, List.map, List.zipWith, List.sum_cons, List.sum_nil, hf0, hf1, hf2, hf3, hf4, hf5, hf6, hf7]
      ring
    constructor
    · have hn := sos8_nonneg 1 1 1 1 1 1 1 1 f0 f1 f2 f3 f4 f5 f6 f7
        (by norm_num) (by norm_num) (by norm_num) (by norm_num) (by norm_num) (by norm_num) (by norm_num) (by norm_num)
      rw [← key] at hn
      exact sub_nonneg.1 hn
    · intro heq
      have hz := sos8_zero 1 1 1 1 1 1 1 1 f0 f1 f2 f3 f4 f5 f6 f7
        (by norm_num) (by norm_num) (by norm_num) (by norm_num) (by norm_num) (by norm_num) (by norm_num) (by norm_num)
        (by rw [← key, heq, sub_self])
      obtain ⟨z0, z1, z2, z3, z4, z5, z6, z7⟩ := hz
      clear key heq hM
      rw [hf0] at z0
      rw [hf1] at z1
      rw [hf2] at z2
      rw [hf3] at z3
      rw [hf4] at z4
      rw [hf5] at z5
      rw [hf6] at z6
      rw [hf7] at z7
      refine ⟨x5, ?_⟩
      simp only [List.map, List.cons.injEq, and_true]
      refine ⟨?_, ?_, ?_, ?_, ?_, ?_, ?_, ?_, ?_⟩
      · linear_combination (18887 / 259200) * z0 + (-18887 / 25200) * z1 + (18887 / 259200) * z2 + (-18887 / 25200) * z3 + (1717 / 1620) * z4 + (1717 / 1620) * z6 + (-1717 / 2240) * z7
      · linear_combination (323 / 3712) * z0 + (-323 / 3712) * z1 + (-323 / 128) * z2 + (323 / 128) * z3 + (11305 / 3712) * z5 + (-11305 / 3712) * z6
      · linear_combination (-98957 / 250560) * z0 + (-1170433 / 389760) * z1 + (318869 / 125280) * z2 + (253997 / 389760) * z3 + (2533 / 783) * z4 + (-9877 / 3712) * z5 + (-25993 / 100224) * z6 + (-51 / 448) * z7
      · linear_combination (1919 / 22272) * z0 + (-1919 / 22272) * z1 + (1919 / 768) * z2 + (-1919 / 768) * z3 + (-47975 / 14848) * z5 + (47975 / 14848) * z6
      · linear_combination (1805 / 20736) * z0 + (1805 / 2304) * z1 + (1805 / 20736) * z2 + (1805 / 2304) * z3 + (-9025 / 10368) * z4 + (-9025 / 10368) * z6
      · linear_combination 0 * z0
      · linear_combination (10800031 / 45100800) * z0 + (13605811 / 5011200) * z1 + (-111751349 / 45100800) * z2 + (-3319769 / 5011200) * z3 + (-1758713 / 563760) * z4 + (41915 / 14848) * z5 + (10600859 / 18040320) * z6 + (-101 / 960) * z7
      · linear_combination (-3097 / 20736) * z0 + (893 / 2304) * z1 + (-3097 / 20736) * z2 + (893 / 2304) * z3 + (-1235 / 5184) * z4 + (-95 / 1536) * z5 + (-7315 / 41472) * z6
      · linear_combination (-1531 / 51840) * z0 + (149 / 5760) * z1 + (-1531 / 51840) * z2 + (149 / 5760) * z3 + (-529 / 10368) * z4 + (83 / 1536) * z5 + (827 / 41472) * z6 + (63 / 64) * z7

/-- The refit of the noisy scene: the vector that stands for `u2 - u1 = 0` spans the
eigenspace of the least eigenvalue `36 / 841` of the matrix passed to
`cv::eigen`. -/
theorem noisyRefit_eigen :
    IsLeastEigenvector (eigenInput (noisyPrev.take 12) (noisyNext.take 12)) (36 / 841)
      [0, 0, 1, 0, 0, 0, -1, 0, 0] := by
  have hM : eigenInput (noisyPrev.take 12) (noisyNext.take 12) =
    [[28576800 / 707281, 0, 0, 0, 557928 / 15979, 0, 0, 0, 15120 / 841],
    [0, 11354256 / 303601, 0, 557928 / 15979, 0, 0, 0, 0, 0],
    [0, 0, 15156 / 841, 0, 0, 0, 15120 / 841, 0, 0],
    [0, 557928 / 15979, 0, 27540 / 841, 0, 0, 0, 0, 0],
    [557928 / 15979, 0, 0, 0, 15034 / 475, 0, 0, 0, 1498 / 95],
    [0, 0, 0, 0, 0, 382 / 25, 0, 1498 / 95, 0],
    [0, 0, 15120 / 841, 0, 0, 0, 15156 / 841, 0, 0],
    [0, 0, 0, 0, 0, 1498 / 95, 0, 5944 / 361, 0],
    [15120 / 841, 0, 0, 0, 1498 / 95, 0, 0, 0, 12]] := by
    decide!
  refine ⟨rfl, by decide, ?_, ?_⟩
  · rw [hM]; decide!
  · intro x hx
    obtain ⟨x0, x1, x2, x3, x4, x5, x6, x7, x8, rfl⟩ := list9 x hx
    rw [hM]
    obtain ⟨f0, hf0⟩ : ∃ f : ℚ, f = x0 + (13033818 / 15066221) * x4 + (353220 / 792959) * x8 := ⟨_, rfl⟩
    obtain ⟨f1, hf1⟩ : ∃ f : ℚ, f = x4 + (647300581445 / 4217624415787) * x8 := ⟨_, rfl⟩
    obtain ⟨f2, hf2⟩ : ∃ f : ℚ, f = x8 := ⟨_, rfl⟩
    obtain ⟨f3, hf3⟩ : ∃ f : ℚ, f = x1 + (42066 / 45005) * x3 := ⟨_, rfl⟩
    obtain ⟨f4, hf4⟩ : ∃ f : ℚ, f = x3 := ⟨_, rfl⟩
    obtain ⟨f5, hf5⟩ : ∃ f : ℚ, f = x5 + (449935 / 434777) * x7 := ⟨_, rfl⟩
    obtain ⟨f6, hf6⟩ : ∃ f : ℚ, f = x7 := ⟨_, rfl⟩
    obtain ⟨f7, hf7⟩ : ∃ f : ℚ, f = x2 + x6 := ⟨_, rfl⟩
    have key : dot [x0, x1, x2, x3, x4, x5, x6, x7, x8] (Mat.mulVec
        [[28576800 / 707281, 0, 0, 0, 557928 / 15979, 0, 0, 0, 15120 / 841],
        [0, 11354256 / 303601, 0, 557928 / 15979, 0, 0, 0, 0, 0],
        [0, 0, 15156 / 841, 0, 0, 0, 15120 / 841, 0, 0],
        [0, 557928 / 15979, 0, 27540 / 841, 0, 0, 0, 0, 0],
        [557928 / 15979, 0, 0, 0, 15034 / 475, 0, 0, 0, 1498 / 95],
        [0, 0, 0, 0, 0, 382 / 25, 0, 1498 / 95, 0],
        [0, 0, 15120 / 841, 0, 0, 0, 15156 / 841, 0, 0],
        [0, 0, 0, 0, 0, 1498 / 95, 0, 5944 / 361, 0],
        [15120 / 841, 0, 0, 0, 1498 / 95, 0, 0, 0, 12]]
        [x0, x1, x2, x3, x4, x5, x6, x7, x8]) -
        (36 / 841) * dot [x0, x1, x2, x3, x4, x5, x6, x7, x8] [x0, x1, x2, x3, x4, x5, x6, x7, x8] =
        (28546524 / 707281) * f0 ^ 2 + (8435248831574 / 6018578633975) * f1 ^ 2 + (13889062187346314 / 3547022133676867) * f2 ^ 2 + (11341260 / 303601) * f3 ^ 2 + (2564928 / 37849205) * f4 ^ 2 + (320362 / 21025) * f5 ^ 2 + (103612914 / 992471669) * f6 ^ 2 + (15120 / 841) * f7 ^ 2 := by
      simp only [Mat.mulVec, dot, List.map, List.zipWith, List.sum_cons, List.sum_nil, hf0, hf1, hf2, hf3, hf4, hf5, hf6, hf7]
      ring
    constructor
    · have hn := sos8_nonneg (28546524 / 707281) (8435248831574 / 6018578633975) (13889062187346314 / 3547022133676867) (11341260 / 303601) (2564928 / 37849205) (320362 / 21025) (103612914 / 992471669) (15120 / 841) f0 f1 f2 f3 f4 f5 f6 f7
        (by norm_num) (by norm_num) (by norm_num) (by norm_num) (by norm_num) (by norm_num) (by norm_num) (by norm_num)
      rw [← key] at hn
      exact sub_nonneg.1 hn
    · intro heq
      have hz := sos8_zero (28546524 / 707281) (8435248831574 / 6018578633975) (13889062187346314 / 3547022133676867) (11341260 / 303601) (2564928 / 37849205) (320362 / 21025) (103612914 / 992471669) (15120 / 841) f0 f1 f2 f3 f4 f5 f6 f7
        (by norm_num) (by norm_num) (by norm_num) (by norm_num) (by norm_num) (by norm_num) (by norm_num) (by norm_num)
        (by rw [← key, heq, sub_self])
      obtain ⟨z0, z1, z2, z3, z4, z5, z6, z7⟩ := hz
      clear key heq hM
      rw [hf0] at z0
      rw [hf1] at z1
      rw [hf2] at z2
      rw [hf3] at z3
      rw [hf4] at z4
      rw [hf5] at z5
      rw [hf6] at z6
      rw [hf7] at z7
      refine ⟨x2, ?_⟩
      simp only [List.map, List.cons.injEq, and_true]
      refine ⟨?_, ?_, ?_, ?_, ?_, ?_, ?_, ?_, ?_⟩
      · linear_combination 1 * z0 + (-13033818 / 15066221) * z1 + (-1318740688650 / 4217624415787) * z2
      · linear_combination 1 * z3 + (-42066 / 45005) * z4
      · linear_combination 0 * z0
      · linear_combination 1 * z4
      · linear_combination 1 * z1 + (-647300581445 / 4217624415787) * z2
      · linear_combination 1 * z5 + (-449935 / 434777) * z6
      · linear_combination 1 * z7
      · linear_combination 1 * z6
      · linear_combination 1 * z2

theorem sampleStep_congr (ext ext' : Externals) (h : ext'.rand = ext.rand)
    (pts_prev pts_next : List Point2f) (st : List Nat × Nat × List Point2f × List Point2f) :
    sampleStep ext' pts_prev pts_next st = sampleStep ext pts_prev pts_next st := by
  unfold sampleStep Rand
  rw [h]

theorem sample8_congr (ext ext' : Externals) (h : ext'.rand = ext.rand)
    (pts_prev pts_next : List Point2f) (total_points : List Nat) (rng : Nat) :
    sample8 ext' pts_prev pts_next total_points rng =
      sample8 ext pts_prev pts_next total_points rng := by
  unfold sample8
  simp only [sampleStep_congr ext ext' h]

theorem run8point_congr (ext ext' : Externals) (he : ext'.eigen = ext.eigen)
    (hs : ext'.svd = ext.svd) (pts_prev pts_next : List Point2f) :
    run8point ext' pts_prev pts_next = run8point ext pts_prev pts_next := by
  unfold run8point
  rw [he, hs]

theorem errorBelow_congr (ext ext' : Externals) (hm : ext'.maxOfOpenCV = ext.maxOfOpenCV)
    (F : Mat) (threshold : ℚ) (p1 p2 : Point2f) :
    errorBelow ext' F threshold p1 p2 = errorBelow ext F threshold p1 p2 := by
  unfold errorBelow MAX
  rw [hm]

theorem scoreInliers_congr (ext ext' : Externals) (hm : ext'.maxOfOpenCV = ext.maxOfOpenCV)
    (F : Mat) (threshold : ℚ) (pts_prev pts_next : List Point2f) :
    scoreInliers ext' F threshold pts_prev pts_next =
      scoreInliers ext F threshold pts_prev pts_next := by
  unfold scoreInliers
  simp only [errorBelow_congr ext ext' hm]

theorem inlierCountUnder_congr (ext ext' : Externals)
    (hm : ext'.maxOfOpenCV = ext.maxOfOpenCV)
    (F : Mat) (threshold : ℚ) (pts_prev pts_next : List Point2f) :
    inlierCountUnder ext' F threshold pts_prev pts_next =
      inlierCountUnder ext F threshold pts_prev pts_next := by
  unfold inlierCountUnder
  simp only [errorBelow_congr ext ext' hm]

/-- The score of a round depends on the routines through `Rand`, `cv::eigen`,
`cv::SVDecomp` and the macro `MAX` only. -/
theorem roundScore_congr (ext ext' : Externals) (hr : ext'.rand = ext.rand)
    (he : ext'.eigen = ext.eigen) (hs : ext'.svd = ext.svd)
    (hm : ext'.maxOfOpenCV = ext.maxOfOpenCV)
    (pts_prev pts_next : List Point2f) (threshold : ℚ) (k : Nat) :
    roundScore ext' pts_prev pts_next threshold k =
      roundScore ext pts_prev pts_next threshold k := by
  unfold roundScore sampleFit
  rw [sample8_congr ext ext' hr, run8point_congr ext ext' he hs]
  simp only [scoreInliers_congr ext ext' hm]

/-- A run of `runRANSAC` with `max_iterations = 1` makes one round: it returns the
score of that round, when the count is positive, and the matrix refitted to the
correspondences that the round marks. -/
theorem runRANSAC_one_round (ext : Externals) (pts_prev pts_next : List Point2f) (sigma : ℚ)
    (rng : Nat) (mask : List Nat) (cnt : Int) (F : Mat) (h8 : 8 ≤ pts_prev.length)
    (hs : roundScore ext pts_prev pts_next (3841 / 1000 * sigma * sigma) rng = some (mask, cnt))
    (hc : 0 < cnt)
    (hF : run8point ext (selectByMask mask pts_prev) (selectByMask mask pts_next) = some F) :
    runRANSAC ext pts_prev pts_next sigma 1 rng = some (cnt, F, mask, rng + 8) := by
  obtain ⟨st, hb, _⟩ := ransacBest_spec ext pts_prev pts_next sigma 1 rng h8
  obtain ⟨tr, t1, t2, t3, t4, _⟩ := ransacTrace_spec ext pts_prev pts_next
    (3841 / 1000 * sigma * sigma) (min (max 1 1) 1000) (by omega)
    (min (max (1 : Int) 1) 1000).toNat 0
    { inliers := List.replicate pts_prev.length 0, max_inliers := 0,
      niters := min (max 1 1) 1000, rng := rng }
    (le_refl _) (by omega) (by simp)
  have hst : tr.getLastD
      { inliers := List.replicate pts_prev.length 0, max_inliers := 0,
        niters := min (max 1 1) 1000, rng := rng } = st := by
    unfold ransacBest at hb
    rw [if_neg (by omega)] at hb
    simp only at hb
    rw [t2] at hb
    exact Option.some.inj hb
  obtain ⟨b1, b2⟩ := ransacTrace_best ext pts_prev pts_next (3841 / 1000 * sigma * sigma)
    (min (max 1 1) 1000) rng (min (max (1 : Int) 1) 1000).toNat 0
    { inliers := List.replicate pts_prev.length 0, max_inliers := 0,
      niters := min (max 1 1) 1000, rng := rng } 0 tr t1 rfl
    ⟨fun i hi => absurd hi (Nat.not_lt_zero i), Or.inl ⟨rfl, rfl⟩⟩
  rw [hst, Nat.zero_add] at b1 b2
  have hlen : tr.length = 1 := by
    have h1 : 1 ≤ tr.length := t4 (by simp)
    have h2 : (tr.length : Int) ≤ 1 := by simpa using t3
    omega
  rw [hlen] at b1 b2
  obtain ⟨hall, hbest⟩ := b2
  obtain ⟨sc, e0, hle⟩ := hall 0 (by omega)
  rw [Nat.mul_zero, Nat.add_zero, hs] at e0
  cases e0
  simp only at hle
  have hpair : st.inliers = mask ∧ st.max_inliers = cnt := by
    rcases hbest with ⟨h0, _⟩ | ⟨j, hj, e, _⟩
    · omega
    · have : j = 0 := by omega
      subst this
      rw [Nat.mul_zero, Nat.add_zero, hs] at e
      simp only [Option.some.injEq, Prod.mk.injEq] at e
      exact ⟨e.1.symm, e.2.symm⟩
  unfold runRANSAC
  rw [hb]
  simp only
  rw [hpair.1, hF]
  simp only [hpair.2, b1, Nat.mul_one]

theorem dot_map_mul (mu : ℚ) (x : List ℚ) :
    ∀ y : List ℚ, dot y (x.map (fun z => mu * z)) = mu * dot y x := by
  unfold dot
  induction x with
  | nil => intro y; simp
  | cons a t ih =>
    intro y
    cases y with
    | nil => simp
    | cons b s =>
      simp only [List.map_cons, List.zipWith_cons_cons, List.sum_cons, ih]
      ring

theorem dot_self_nonneg (x : List ℚ) : 0 ≤ dot x x := by
  unfold dot
  induction x with
  | nil => simp
  | cons a t ih =>
    simp only [List.zipWith_cons_cons, List.sum_cons]
    nlinarith [mul_self_nonneg a]

theorem dot_self_eq_zero (x : List ℚ) (h : dot x x = 0) : x = List.replicate x.length 0 := by
  induction x with
  | nil => rfl
  | cons a t ih =>
    have hn := dot_self_nonneg t
    unfold dot at h hn ih
    simp only [List.zipWith_cons_cons, List.sum_cons] at h
    have ha : a * a = 0 := by nlinarith [mul_self_nonneg a]
    have ht : (List.zipWith (fun x y => x * y) t t).sum = 0 := by nlinarith [mul_self_nonneg a]
    have := ih ht
    rw [List.length_cons, List.replicate_succ, ← this, mul_self_eq_zero.1 ha]

/-- An eigenvector of the least eigenvalue is unique up to the scale when it
spans the eigenspace. -/
theorem leastEigenvector_unique (M : Mat) (mu mu' : ℚ) (v v' : List ℚ)
    (h : IsLeastEigenvector M mu v) (h' : IsLeastEigenvector M mu' v') :
    ∃ c : ℚ, c ≠ 0 ∧ v' = v.map (fun y => c * y) := by
  obtain ⟨hl, hv, he, hmin⟩ := h
  obtain ⟨hl', hv', he', hmin'⟩ := h'
  have pos : ∀ x : List ℚ, x.length = 9 → x ≠ List.replicate 9 0 → 0 < dot x x := by
    intro x hx hne
    rcases (dot_self_nonneg x).lt_or_eq with hlt | heq
    · exact hlt
    · exfalso
      apply hne
      have := dot_self_eq_zero x heq.symm
      rw [hx] at this
      exact this
  have q : dot v (M.mulVec v) = mu * dot v v := by rw [he, dot_map_mul]
  have q' : dot v' (M.mulVec v') = mu' * dot v' v' := by rw [he', dot_map_mul]
  have a1 := (hmin v' hl').1
  have a2 := (hmin' v hl).1
  rw [q'] at a1
  rw [q] at a2
  have p1 := pos v hl hv
  have p2 := pos v' hl' hv'
  have hmu : mu' = mu := by
    have b1 : mu ≤ mu' := by
      by_contra hc
      push_neg at hc
      nlinarith
    have b2 : mu' ≤ mu := by
      by_contra hc
      push_neg at hc
      nlinarith
    exact le_antisymm b2 b1
  obtain ⟨c, hc⟩ := (hmin v' hl').2 (by rw [q', hmu])
  refine ⟨c, ?_, hc⟩
  intro h0
  apply hv'
  rw [hc, h0]
  have : v.map (fun y => (0 : ℚ) * y) = List.replicate v.length 0 := by
    apply List.ext_getElem
    · simp
    · intro n h1 h2
      simp
  rw [this, hl]

theorem diag3 (a b c : ℚ) : Mat.diag [a, b, c] = [[a, 0, 0], [0, b, 0], [0, 0, c]] := by
  rfl

theorem toMatrix3_diag (a b c : ℚ) :
    (toMatrix3 [[a, 0, 0], [0, b, 0], [0, 0, c]]).det = a * b * c := by
  rw [Matrix.det_fin_three]
  simp [toMatrix3, Mat.entry, Mat.row, vecAt]

/-- The singular value decomposition of a singular `3 x 3` matrix has the last
singular value `0`: setting it to zero, as `run8point` does, changes nothing, and
the product of the factors is the matrix itself. -/
theorem svd_of_singular (P : Mat) (d : List ℚ × Mat × Mat) (h : IsSVD3 P d)
    (hdet : determinant P = 0) :
    (d.2.1.mul (Mat.diag (d.1.set 2 0))).mul d.2.2 = P := by
  obtain ⟨oU, oV, ⟨a, b, c, hW, hab, hbc, hc⟩, hP⟩ := h
  have sU := oU.1
  have sV := oV.1
  have oU' := (isOrthogonal3_iff _ sU).1 oU
  have oV' := (isOrthogonal3_iff _ sV).1 oV
  have sD : Shape3 (Mat.diag d.1) := by
    rw [hW, diag3]; exact ⟨_, _, _, _, _, _, _, _, _, rfl⟩
  have m1 := mul_toMatrix3 d.2.1 (Mat.diag d.1) sU sD
  have m2 := mul_toMatrix3 _ d.2.2 m1.1 sV
  have sP : Shape3 P := by rw [← hP]; exact m2.1
  have hd : (toMatrix3 d.2.1).det * (a * b * c) * (toMatrix3 d.2.2).det = 0 := by
    have := determinant_toMatrix3 P sP
    rw [hdet, ← hP, m2.2, m1.2, Matrix.det_mul, Matrix.det_mul, hW, diag3, toMatrix3_diag] at this
    exact this.symm
  have dU : (toMatrix3 d.2.1).det ≠ 0 := by
    intro h0
    have := congrArg Matrix.det oU'
    rw [Matrix.det_mul, h0, zero_mul, Matrix.det_one] at this
    exact zero_ne_one this
  have dV : (toMatrix3 d.2.2).det ≠ 0 := by
    intro h0
    have := congrArg Matrix.det oV'
    rw [Matrix.det_mul, h0, zero_mul, Matrix.det_one] at this
    exact zero_ne_one this
  have habc : a * b * c = 0 := by
    rcases mul_eq_zero.1 hd with h1 | h1
    · rcases mul_eq_zero.1 h1 with h2 | h2
      · exact absurd h2 dU
      · exact h2
    · exact absurd h1 dV
  have hc0 : c = 0 := by
    by_contra hne
    have hcp : 0 < c := lt_of_le_of_ne hc (Ne.symm hne)
    have hbp : 0 < b := lt_of_lt_of_le hcp hbc
    have hap : 0 < a := lt_of_lt_of_le hbp hab
    have : 0 < a * b * c := by positivity
    linarith
  have hset : d.1.set 2 0 = d.1 := by
    rw [hW, hc0]; rfl
  rw [hset, hP]

theorem errorBelow_scale (ext : Externals) (c : ℚ) (hc : c ≠ 0) (F : Mat) (threshold : ℚ)
    (p1 p2 : Point2f) :
    errorBelow ext (Mat.scale c F) threshold p1 p2 = errorBelow ext F threshold p1 p2 := by
  unfold errorBelow
  rw [computeErrors_scale c hc]

theorem scoreInliers_scale (ext : Externals) (c : ℚ) (hc : c ≠ 0) (F : Mat) (threshold : ℚ)
    (pts_prev pts_next : List Point2f) :
    scoreInliers ext (Mat.scale c F) threshold pts_prev pts_next =
      scoreInliers ext F threshold pts_prev pts_next := by
  unfold scoreInliers
  simp only [errorBelow_scale ext c hc]

theorem inlierCountUnder_scale (ext : Externals) (c : ℚ) (hc : c ≠ 0) (F : Mat) (threshold : ℚ)
    (pts_prev pts_next : List Point2f) :
    inlierCountUnder ext (Mat.scale c F) threshold pts_prev pts_next =
      inlierCountUnder ext F threshold pts_prev pts_next := by
  unfold inlierCountUnder
  simp only [errorBelow_scale ext c hc]

/-- The candidate of the sample of the noisy scene under exact routines: the
matrix of the horizontal epipolar lines, up to the scale. -/
theorem noisySample_fit (ext : Externals)
    (h : ExactFit ext (noisyPrev.take 8) (noisyNext.take 8)) :
    ∃ c : ℚ, c ≠ 0 ∧
      run8point ext (noisyPrev.take 8) (noisyNext.take 8) =
        some (Mat.scale c [[0, 0, 0], [0, 0, 8 / 95], [0, -8 / 95, 0]]) := by
  obtain ⟨⟨mu, he⟩, hs⟩ := h
  obtain ⟨c, hc, hrow⟩ := leastEigenvector_unique _ _ _ _ _ noisySample_eigen he
  have hP : svdInput ext (noisyPrev.take 8) (noisyNext.take 8) =
      [[0, 0, 0], [0, 0, c], [0, -c, 0]] := by
    unfold svdInput
    simp only [hrow]
    simp
  rw [hP] at hs
  have hF := svd_of_singular _ _ hs (by simp [determinant, Mat.entry, Mat.row, vecAt])
  have hT1 : (Normalize (noisyPrev.take 8)).2 =
      [[8 / 101, 0, -175 / 101], [0, 8 / 95, -173 / 95], [0, 0, 1]] := by decide!
  have hT2 : (Normalize (noisyNext.take 8)).2 =
      [[4 / 51, 0, -95 / 51], [0, 8 / 95, -173 / 95], [0, 0, 1]] := by decide!
  refine ⟨c, hc, ?_⟩
  rw [run8point_hooks, if_neg (by decide)]
  simp only [hP, hF, hT1, hT2]
  have hm : (Mat.mul (Mat.mul
      (Mat.t [[4 / 51, 0, -95 / 51], [0, 8 / 95, -173 / 95], [0, 0, 1]])
      [[0, 0, 0], [0, 0, c], [0, -c, 0]])
      [[8 / 101, 0, -175 / 101], [0, 8 / 95, -173 / 95], [0, 0, 1]]) =
      [[0, 0, 0], [0, 0, 8 / 95 * c], [0, -(8 / 95 * c), 0]] := by
    simp [Mat.mul, Mat.t, Mat.col, Mat.cols, Mat.row, vecAt, dot, List.range, List.range.loop]
    ring_nf
    simp
  rw [hm]
  have h22 : Mat.entry [[0, 0, 0], [0, 0, 8 / 95 * c], [0, -(8 / 95 * c), 0]] 2 2 = 0 := by
    simp [Mat.entry, Mat.row, vecAt]
  rw [h22]
  have hle : ¬ |(0 : ℚ)| > FLT_EPSILON := by
    rw [abs_zero]; unfold FLT_EPSILON; norm_num
  rw [if_neg hle]
  congr 1
  simp [Mat.scale]
  ring_nf
  simp

/-- The matrix refitted to the twelve marked correspondences of the noisy scene
under exact routines: the matrix of the vertical epipolar lines, up to the
scale. -/
theorem noisyRefit_fit (ext : Externals)
    (h : ExactFit ext (noisyPrev.take 12) (noisyNext.take 12)) :
    ∃ c : ℚ, c ≠ 0 ∧
      run8point ext (noisyPrev.take 12) (noisyNext.take 12) =
        some (Mat.scale c [[0, 0, -1 / 2], [0, 0, 0], [1 / 2, 0, 1]]) := by
  obtain ⟨⟨mu, he⟩, hs⟩ := h
  obtain ⟨c, hc, hrow⟩ := leastEigenvector_unique _ _ _ _ _ noisyRefit_eigen he
  have hP : svdInput ext (noisyPrev.take 12) (noisyNext.take 12) =
      [[0, 0, c], [0, 0, 0], [-c, 0, 0]] := by
    unfold svdInput
    simp only [hrow]
    simp
  rw [hP] at hs
  have hF := svd_of_singular _ _ hs (by simp [determinant, Mat.entry, Mat.row, vecAt])
  have hT1 : (Normalize (noisyPrev.take 12)).2 =
      [[3 / 29, 0, -60 / 29], [0, 2 / 19, -40 / 19], [0, 0, 1]] := by decide!
  have hT2 : (Normalize (noisyNext.take 12)).2 =
      [[3 / 29, 0, -66 / 29], [0, 1 / 10, -2], [0, 0, 1]] := by decide!
  rw [run8point_hooks, if_neg (by decide)]
  simp only [hP, hF, hT1, hT2]
  have hm : (Mat.mul (Mat.mul
      (Mat.t [[3 / 29, 0, -66 / 29], [0, 1 / 10, -2], [0, 0, 1]])
      [[0, 0, c], [0, 0, 0], [-c, 0, 0]])
      [[3 / 29, 0, -60 / 29], [0, 2 / 19, -40 / 19], [0, 0, 1]]) =
      [[0, 0, 3 / 29 * c], [0, 0, 0], [-(3 / 29 * c), 0, -(6 / 29 * c)]] := by
    simp [Mat.mul, Mat.t, Mat.col, Mat.cols, Mat.row, vecAt, dot, List.range, List.range.loop]
    ring_nf
    simp
  rw [hm]
  have h22 : Mat.entry [[0, 0, 3 / 29 * c], [0, 0, 0], [-(3 / 29 * c), 0, -(6 / 29 * c)]] 2 2 =
      -(6 / 29 * c) := by
    simp [Mat.entry, Mat.row, vecAt]
  rw [h22]
  by_cases hb : |(-(6 / 29 * c))| > FLT_EPSILON
  · rw [if_pos hb]
    refine ⟨1, one_ne_zero, ?_⟩
    congr 1
    simp [Mat.scale]
    field_simp
    ring_nf
    simp
  · rw [if_neg hb]
    refine ⟨-(6 / 29 * c), by simpa using hc, ?_⟩
    congr 1
    simp [Mat.scale]
    ring_nf
    simp

/-- The noisy scene under exact routines: whenever `Rand` draws the first eight
correspondences and the routines meet the contracts of `cv::eigen` and
`cv::SVDecomp` on the two fits, `runRANSAC` returns the count 12, and all 13
correspondences pass the test under the matrix that it returns. -/
theorem noisyScene_count (ext : Externals)
    (hr : (drawnIndices ext (List.range noisyPrev.length) 0).2.2 = [0, 1, 2, 3, 4, 5, 6, 7])
    (h1 : ExactFit ext (noisyPrev.take 8) (noisyNext.take 8))
    (h2 : ExactFit ext (noisyPrev.take 12) (noisyNext.take 12)) :
    ∃ F : Mat,
      runRANSAC ext noisyPrev noisyNext 2 1 0 = some (12, F, [255, 255, 255, 255, 255, 255, 255, 255, 255, 255, 255, 255, 0], 8) ∧
      inlierCountUnder ext F (3841 / 1000 * 2 * 2) noisyPrev noisyNext = 13 := by
  obtain ⟨c, hc, hfit⟩ := noisySample_fit ext h1
  obtain ⟨g, hg, hre⟩ := noisyRefit_fit ext h2
  have hsmp := sample8_drawn ext noisyPrev noisyNext (List.range noisyPrev.length) 0
  rw [hr] at hsmp
  have hs1 : (sample8 ext noisyPrev noisyNext (List.range noisyPrev.length) 0).2.2.1 =
      noisyPrev.take 8 := by
    rw [hsmp]
    show List.map (fun i => noisyPrev.getD i (0, 0)) [0, 1, 2, 3, 4, 5, 6, 7] = _
    decide!
  have hs2 : (sample8 ext noisyPrev noisyNext (List.range noisyPrev.length) 0).2.2.2 =
      noisyNext.take 8 := by
    rw [hsmp]
    show List.map (fun i => noisyNext.getD i (0, 0)) [0, 1, 2, 3, 4, 5, 6, 7] = _
    decide!
  have hscore : scoreInliers ext [[0, 0, 0], [0, 0, 8 / 95], [0, -8 / 95, 0]]
      (3841 / 1000 * 2 * 2) noisyPrev noisyNext = ([255, 255, 255, 255, 255, 255, 255, 255, 255, 255, 255, 255, 0], 12) := by
    cases hb : ext.maxOfOpenCV with
    | true =>
      rw [scoreInliers_congr { exampleExternals with maxOfOpenCV := true } ext hb]
      decide!
    | false =>
      rw [scoreInliers_congr { exampleExternals with maxOfOpenCV := false } ext hb]
      decide!
  have hcount : inlierCountUnder ext [[0, 0, -1 / 2], [0, 0, 0], [1 / 2, 0, 1]]
      (3841 / 1000 * 2 * 2) noisyPrev noisyNext = 13 := by
    cases hb : ext.maxOfOpenCV with
    | true =>
      rw [inlierCountUnder_congr { exampleExternals with maxOfOpenCV := true } ext hb]
      decide!
    | false =>
      rw [inlierCountUnder_congr { exampleExternals with maxOfOpenCV := false } ext hb]
      decide!
  have hround : roundScore ext noisyPrev noisyNext (3841 / 1000 * 2 * 2) 0 =
      some ([255, 255, 255, 255, 255, 255, 255, 255, 255, 255, 255, 255, 0], 12) := by
    unfold roundScore sampleFit
    rw [hs1, hs2, hfit]
    simp only [Option.map_some']
    rw [scoreInliers_scale ext c hc, hscore]
  have hsel1 : selectByMask [255, 255, 255, 255, 255, 255, 255, 255, 255, 255, 255, 255, 0] noisyPrev = noisyPrev.take 12 := by decide!
  have hsel2 : selectByMask [255, 255, 255, 255, 255, 255, 255, 255, 255, 255, 255, 255, 0] noisyNext = noisyNext.take 12 := by decide!
  refine ⟨_, runRANSAC_one_round ext noisyPrev noisyNext 2 0 _ 12 _ (by decide) hround
    (by decide) (by rw [hsel1, hsel2]; exact hre), ?_⟩
  rw [inlierCountUnder_scale ext g hg, hcount]

/-- C18 as stated fails, on a scene with noise. Of 13 correspondences the first
eight have no vertical shift at all, four others have one of up to 3 pixels and
the last one of 5 pixels, while the horizontal shifts are 2 pixels up to one
pixel. With `sigma = 2`, one round and a sample of the first eight, the candidate
is the matrix of the horizontal epipolar lines, under which the errors are the
squared vertical shifts: 12 correspondences are below `3.841 sigma^2 = 15.364`,
and `runRANSAC` returns the count 12. The refit to these 12 is the matrix of the
vertical epipolar lines, under which all 13 are below the threshold. The example
routines return exact values: in both fits the last row of `cv::eigen` spans the
eigenspace of the least eigenvalue, and the factors of `cv::SVDecomp` are a
singular value decomposition. The same holds for every behaviour of the routines
that meets these contracts with the same sample. -/
theorem C18_counterexample :
    ExactFit (noisyRoutines exampleExternals) (noisyPrev.take 8) (noisyNext.take 8) ∧
    ExactFit (noisyRoutines exampleExternals) (noisyPrev.take 12) (noisyNext.take 12) ∧
    runRANSAC (noisyRoutines exampleExternals) noisyPrev noisyNext 2 1 0 =
      some (12, [[0, 0, -1 / 2], [0, 0, 0], [1 / 2, 0, 1]], [255, 255, 255, 255, 255, 255, 255, 255, 255, 255, 255, 255, 0], 8) ∧
    inlierCountUnder (noisyRoutines exampleExternals) [[0, 0, -1 / 2], [0, 0, 0], [1 / 2, 0, 1]]
      (3841 / 1000 * 2 * 2) noisyPrev noisyNext = 13 ∧
    (drawnIndices (noisyRoutines exampleExternals) (List.range noisyPrev.length) 0).2.2 =
      [0, 1, 2, 3, 4, 5, 6, 7] ∧
    (∀ ext : Externals,
      (drawnIndices ext (List.range noisyPrev.length) 0).2.2 = [0, 1, 2, 3, 4, 5, 6, 7] →
      ExactFit ext (noisyPrev.take 8) (noisyNext.take 8) →
      ExactFit ext (noisyPrev.take 12) (noisyNext.take 12) →
      ∃ F : Mat,
        runRANSAC ext noisyPrev noisyNext 2 1 0 = some (12, F, [255, 255, 255, 255, 255, 255, 255, 255, 255, 255, 255, 255, 0], 8) ∧
        inlierCountUnder ext F (3841 / 1000 * 2 * 2) noisyPrev noisyNext = 13) := by
  have e1 : ((noisyRoutines exampleExternals).eigen
      (eigenInput (noisyPrev.take 8) (noisyNext.take 8))).row 8 =
      [0, 0, 0, 0, 0, 1, 0, -1, 0] := by decide!
  have e2 : ((noisyRoutines exampleExternals).eigen
      (eigenInput (noisyPrev.take 12) (noisyNext.take 12))).row 8 =
      [0, 0, 1, 0, 0, 0, -1, 0, 0] := by decide!
  have s1 : svdInput (noisyRoutines exampleExternals) (noisyPrev.take 8) (noisyNext.take 8) =
      [[0, 0, 0], [0, 0, 1], [0, -1, 0]] := by decide!
  have s2 : svdInput (noisyRoutines exampleExternals) (noisyPrev.take 12) (noisyNext.take 12) =
      [[0, 0, 1], [0, 0, 0], [-1, 0, 0]] := by decide!
  refine ⟨⟨⟨0, ?_⟩, ?_⟩, ⟨⟨36 / 841, ?_⟩, ?_⟩, by decide!, by decide!, by decide, noisyScene_count⟩
  · rw [e1]; exact noisySample_eigen
  · rw [s1]
    exact ⟨⟨⟨_, _, _, _, _, _, _, _, _, rfl⟩, by decide!⟩,
      ⟨⟨_, _, _, _, _, _, _, _, _, rfl⟩, by decide!⟩,
      ⟨1, 1, 0, rfl, le_refl _, by norm_num, le_refl _⟩, by decide!⟩
  · rw [e2]; exact noisyRefit_eigen
  · rw [s2]
    exact ⟨⟨⟨_, _, _, _, _, _, _, _, _, rfl⟩, by decide!⟩,
      ⟨⟨_, _, _, _, _, _, _, _, _, rfl⟩, by decide!⟩,
      ⟨1, 1, 0, rfl, le_refl _, by norm_num, le_refl _⟩, by decide!⟩

end ssvo
